import Mathlib

/-!
# Verification of the a4s AWS Signature V4 library

This development gives a shallow embedding, in Lean, of the parts of the
a4s TypeScript library relevant to the stated claims, and proves (or
refutes) each claim against that embedding.

Modelling conventions:

* JS `Buffer`s are `List Nat` whose elements are kept below 256 by
  construction.
* JS strings are Lean `String`s (well-formed Unicode; lone surrogates,
  which Lean strings cannot represent, are outside the model).
  `Array.prototype.sort()` on strings compares UTF-16 code units, which
  we compute from code points.
* JS plain objects used as string maps are association lists that keep
  insertion order; setting an existing key keeps its position
  (the special ordering of integer-like keys is not modelled).
* `URLSearchParams` is an association list of (name, value) pairs that
  allows duplicate names.
* The system clock is passed explicitly: functions that would call
  `new Date()` take the generated timestamp as an argument.
-/

set_option maxRecDepth 40000

namespace A4S

/-! ## Bytes, hex, UTF-8 and UTF-16 utilities -/

/-- Lowercase hex digit, as produced by `Buffer.toString('hex')` and
`Number.prototype.toString(16)`. -/
def hexCharL (n : Nat) : Char :=
  match n with
  | 0 => '0' | 1 => '1' | 2 => '2' | 3 => '3'
  | 4 => '4' | 5 => '5' | 6 => '6' | 7 => '7'
  | 8 => '8' | 9 => '9' | 10 => 'a' | 11 => 'b'
  | 12 => 'c' | 13 => 'd' | 14 => 'e' | _ => 'f'

/-- Uppercase hex digit, as produced by the library's `escape` helper. -/
def hexCharU (n : Nat) : Char :=
  match n with
  | 0 => '0' | 1 => '1' | 2 => '2' | 3 => '3'
  | 4 => '4' | 5 => '5' | 6 => '6' | 7 => '7'
  | 8 => '8' | 9 => '9' | 10 => 'A' | 11 => 'B'
  | 12 => 'C' | 13 => 'D' | 14 => 'E' | _ => 'F'

/-- Numeric value of a hex digit character (case-insensitive),
`none` when the character is not a hex digit. -/
def hexVal (c : Char) : Option Nat :=
  if '0' ≤ c ∧ c ≤ '9' then some (c.toNat - 48)
  else if 'a' ≤ c ∧ c ≤ 'f' then some (c.toNat - 87)
  else if 'A' ≤ c ∧ c ≤ 'F' then some (c.toNat - 55)
  else none

/-- `Buffer.prototype.toString('hex')`. -/
def bytesToHex (bs : List Nat) : String :=
  ⟨bs.foldr (fun b acc => hexCharL (b / 16) :: hexCharL (b % 16) :: acc) []⟩

/-- `Number.prototype.toString(16)` digits (most significant first),
for a positive number; structural fuel recursion so that the kernel
can evaluate it. -/
def natToHexGo : Nat → Nat → List Char → List Char
  | _, 0, acc => acc
  | 0, _ + 1, acc => acc
  | fuel + 1, n + 1, acc => natToHexGo fuel ((n + 1) / 16) (hexCharL ((n + 1) % 16) :: acc)

/-- `Number.prototype.toString(16)` for a natural number. -/
def natToHex (n : Nat) : String :=
  if n = 0 then "0" else ⟨natToHexGo n n []⟩

/-- Decimal rendering of a natural, as JS template interpolation does. -/
def natToDec (n : Nat) : String := toString n

/-- UTF-8 encoding of a single code point. -/
def utf8EncodeChar (c : Char) : List Nat :=
  let n := c.toNat
  if n < 0x80 then [n]
  else if n < 0x800 then [0xC0 + n / 64, 0x80 + n % 64]
  else if n < 0x10000 then [0xE0 + n / 4096, 0x80 + n / 64 % 64, 0x80 + n % 64]
  else [0xF0 + n / 262144, 0x80 + n / 4096 % 64, 0x80 + n / 64 % 64, 0x80 + n % 64]

/-- UTF-8 bytes of a string (`Buffer.from(str)`). -/
def utf8Bytes (s : String) : List Nat := s.data.flatMap utf8EncodeChar

/-- Whether a code point is a valid Unicode scalar value. -/
def validScalar (n : Nat) : Prop := n < 0xD800 ∨ (0xE000 ≤ n ∧ n < 0x110000)

instance (n : Nat) : Decidable (validScalar n) := by unfold validScalar; infer_instance

/-- Make a `Char` from a code point, giving U+FFFD for invalid values
(how Node's UTF-8 decoding reports errors). -/
def charOrRepl (n : Nat) : Char :=
  if validScalar n then Char.ofNat n else '�'

/-- Whether a byte is a UTF-8 continuation byte. -/
def isCont (b : Nat) : Bool := 0x80 ≤ b ∧ b < 0xC0

/-- UTF-8 decoding with U+FFFD replacement for invalid sequences
(models `Buffer.prototype.toString('utf8')` on the inputs exercised
here; on valid UTF-8 it is exact). Fuel-based so that the kernel can
evaluate it; the fuel never runs out when it is at least the number of
decoded characters. -/
def utf8DecodeGo : Nat → List Nat → List Char
  | _, [] => []
  | 0, _ :: _ => []
  | fuel + 1, b :: rest =>
    if b < 0x80 then charOrRepl b :: utf8DecodeGo fuel rest
    else if 0xC0 ≤ b ∧ b < 0xE0 then
      if rest.length < 1 then ['�']
      else if isCont (rest.getD 0 0) then
        charOrRepl ((b - 0xC0) * 64 + (rest.getD 0 0 - 0x80)) :: utf8DecodeGo fuel (rest.drop 1)
      else '�' :: utf8DecodeGo fuel rest
    else if 0xE0 ≤ b ∧ b < 0xF0 then
      if rest.length < 2 then ['�']
      else if isCont (rest.getD 0 0) ∧ isCont (rest.getD 1 0) then
        charOrRepl ((b - 0xE0) * 4096 + (rest.getD 0 0 - 0x80) * 64 + (rest.getD 1 0 - 0x80)) ::
          utf8DecodeGo fuel (rest.drop 2)
      else '�' :: utf8DecodeGo fuel rest
    else if 0xF0 ≤ b ∧ b < 0xF8 then
      if rest.length < 3 then ['�']
      else if isCont (rest.getD 0 0) ∧ isCont (rest.getD 1 0) ∧ isCont (rest.getD 2 0) then
        charOrRepl ((b - 0xF0) * 262144 + (rest.getD 0 0 - 0x80) * 4096 +
          (rest.getD 1 0 - 0x80) * 64 + (rest.getD 2 0 - 0x80)) :: utf8DecodeGo fuel (rest.drop 3)
      else '�' :: utf8DecodeGo fuel rest
    else '�' :: utf8DecodeGo fuel rest

/-- UTF-8 decoding producing a string. -/
def utf8DecodeStr (bs : List Nat) : String := ⟨utf8DecodeGo bs.length bs⟩

/-- UTF-16 code units of a code point. -/
def utf16Char (c : Char) : List Nat :=
  let n := c.toNat
  if n < 0x10000 then [n]
  else [0xD800 + (n - 0x10000) / 1024, 0xDC00 + (n - 0x10000) % 1024]

/-- UTF-16 code units of a string (how JS strings are stored and
compared). -/
def utf16Units (s : String) : List Nat := s.data.flatMap utf16Char

/-- Lexicographic strict order on code-unit lists. -/
def unitsLt : List Nat → List Nat → Bool
  | [], [] => false
  | [], _ :: _ => true
  | _ :: _, [] => false
  | a :: as, b :: bs => if a < b then true else if b < a then false else unitsLt as bs

/-- The comparison used by JS `Array.prototype.sort()` without
comparator on strings: lexicographic on UTF-16 code units. -/
def jsLe (a b : String) : Bool := ! unitsLt (utf16Units b) (utf16Units a)

/-! ## SHA-256 and HMAC-SHA256

The library delegates to Node's `crypto` module; these are the standard
primitives (FIPS 180-4 / RFC 2104), implemented over byte lists. -/

/-- 2^32, modulus for 32-bit words. -/
def M32 : Nat := 4294967296

def add32 (a b : Nat) : Nat := (a + b) % M32

def rotr32 (n x : Nat) : Nat := ((x >>> n) ||| (x <<< (32 - n))) % M32

def not32 (x : Nat) : Nat := x ^^^ 0xFFFFFFFF

/-- The eight 32-bit words of a SHA-256 state. -/
structure Hash8 where
  a : Nat
  b : Nat
  c : Nat
  d : Nat
  e : Nat
  f : Nat
  g : Nat
  h : Nat
deriving Repr, DecidableEq

def sha256init : Hash8 :=
  ⟨1779033703, 3144134277, 1013904242, 2773480762,
   1359893119, 2600822924, 528734635, 1541459225⟩

def sha256k : List Nat :=
  [1116352408, 1899447441, 3049323471, 3921009573, 961987163, 1508970993, 2453635748, 2870763221,
   3624381080, 310598401, 607225278, 1426881987, 1925078388, 2162078206, 2614888103, 3248222580,
   3835390401, 4022224774, 264347078, 604807628, 770255983, 1249150122, 1555081692, 1996064986,
   2554220882, 2821834349, 2952996808, 3210313671, 3336571891, 3584528711, 113926993, 338241895,
   666307205, 773529912, 1294757372, 1396182291, 1695183700, 1986661051, 2177026350, 2456956037,
   2730485921, 2820302411, 3259730800, 3345764771, 3516065817, 3600352804, 4094571909, 275423344,
   430227734, 506948616, 659060556, 883997877, 958139571, 1322822218, 1537002063, 1747873779,
   1955562222, 2024104815, 2227730452, 2361852424, 2428436474, 2756734187, 3204031479, 3329325298]

/-- Extend the 16-word message schedule to 64 words. -/
def schedExtend : Nat → List Nat → List Nat
  | 0, ws => ws
  | n + 1, ws =>
    let i := ws.length
    let w := add32 (add32 (add32
      (let x := ws.getD (i - 2) 0
       (rotr32 17 x) ^^^ (rotr32 19 x) ^^^ (x >>> 10))
      (ws.getD (i - 7) 0))
      (let x := ws.getD (i - 15) 0
       (rotr32 7 x) ^^^ (rotr32 18 x) ^^^ (x >>> 3)))
      (ws.getD (i - 16) 0)
    schedExtend n (ws ++ [w])

/-- The 16 words of a 64-byte block, big-endian. -/
def blockWords (block : List Nat) : List Nat :=
  (List.range 16).map fun i =>
    block.getD (4 * i) 0 * 16777216 + block.getD (4 * i + 1) 0 * 65536 +
    block.getD (4 * i + 2) 0 * 256 + block.getD (4 * i + 3) 0

def sha256round (st : Hash8) (kw : Nat × Nat) : Hash8 :=
  let ⟨a, b, c, d, e, f, g, h⟩ := st
  let s1 := (rotr32 6 e) ^^^ (rotr32 11 e) ^^^ (rotr32 25 e)
  let ch := (e &&& f) ^^^ ((not32 e) &&& g)
  let t1 := add32 (add32 (add32 (add32 h s1) ch) kw.1) kw.2
  let s0 := (rotr32 2 a) ^^^ (rotr32 13 a) ^^^ (rotr32 22 a)
  let mj := (a &&& b) ^^^ (a &&& c) ^^^ (b &&& c)
  let t2 := add32 s0 mj
  ⟨add32 t1 t2, a, b, c, add32 d t1, e, f, g⟩

def sha256block (st : Hash8) (block : List Nat) : Hash8 :=
  let ws := schedExtend 48 (blockWords block)
  let r := (sha256k.zip ws).foldl sha256round st
  ⟨add32 st.a r.a, add32 st.b r.b, add32 st.c r.c, add32 st.d r.d,
   add32 st.e r.e, add32 st.f r.f, add32 st.g r.g, add32 st.h r.h⟩

/-- Big-endian bytes of a 32-bit word. -/
def u32be (n : Nat) : List Nat :=
  [n / 16777216 % 256, n / 65536 % 256, n / 256 % 256, n % 256]

/-- Big-endian bytes of a 64-bit word. -/
def u64be (n : Nat) : List Nat :=
  u32be (n / M32) ++ u32be (n % M32)

/-- SHA-256 message padding. -/
def sha256pad (msg : List Nat) : List Nat :=
  msg ++ [0x80] ++ List.replicate ((119 - msg.length % 64) % 64) 0 ++ u64be (8 * msg.length)

/-- Split into 64-byte blocks (fuel-based). -/
def toBlocksGo : Nat → List Nat → List (List Nat)
  | _, [] => []
  | 0, _ :: _ => []
  | fuel + 1, l@(_ :: _) => l.take 64 :: toBlocksGo fuel (l.drop 64)

def toBlocks (l : List Nat) : List (List Nat) := toBlocksGo l.length l

/-- SHA-256 digest (32 bytes) of a byte list. -/
def sha256 (msg : List Nat) : List Nat :=
  let f := (toBlocks (sha256pad msg)).foldl sha256block sha256init
  u32be f.a ++ u32be f.b ++ u32be f.c ++ u32be f.d ++
  u32be f.e ++ u32be f.f ++ u32be f.g ++ u32be f.h

/-- `createHash('sha256').update(data).digest('hex')`. -/
def sha256hex (msg : List Nat) : String := bytesToHex (sha256 msg)

/-- HMAC-SHA256 (RFC 2104) over byte lists. -/
def hmacSha256 (key msg : List Nat) : List Nat :=
  let k0 := if key.length > 64 then sha256 key else key
  let k := k0 ++ List.replicate (64 - k0.length) 0
  let ipad := k.map (fun b => b ^^^ 0x36)
  let opad := k.map (fun b => b ^^^ 0x5c)
  sha256 (opad ++ sha256 (ipad ++ msg))

theorem sha256_length (msg : List Nat) : (sha256 msg).length = 32 := by
  simp [sha256, u32be]

theorem hmacSha256_length (key msg : List Nat) : (hmacSha256 key msg).length = 32 := by
  simp [hmacSha256, sha256_length]

theorem bytesToHex_length (bs : List Nat) : (bytesToHex bs).length = 2 * bs.length := by
  simp only [bytesToHex, String.length]
  induction bs with
  | nil => rfl
  | cons b bs ih => simp [List.foldr_cons, ih]; omega

/-! ## Port of `src/core.ts` -/

/-- `SigningData` from core.ts: derived key plus credential scope. -/
structure SigningData where
  key : List Nat
  scope : String
deriving Repr, DecidableEq

/-- `String.prototype.substring(0, n)`.  (JS counts UTF-16 code units;
this coincides with counting characters when the prefix is in the basic
multilingual plane, which holds for all strings handled here.) -/
def jsSubstring0 (s : String) (n : Nat) : String := ⟨s.data.take n⟩

/-- `getSigningData` (core.ts): derive the signing key and credential
scope from the (possibly full-timestamp) date stamp, secret key, region
and service. -/
def getSigningData (dateStamp secretKey regionName serviceName : String) : SigningData :=
  let dateStamp := jsSubstring0 dateStamp 8
  let parts := [dateStamp, regionName, serviceName, "aws4_request"]
  let key := parts.foldl (fun key part => hmacSha256 key (utf8Bytes part))
    (utf8Bytes ("AWS4" ++ secretKey))
  { key := key, scope := String.intercalate "/" parts }

/-- State of the one-slot cache created by
`getSigningData.makeSimpleCache`: the most recent joined key with its
result, or `none` before the first call. -/
abbrev CacheState : Type := Option (String × SigningData)

/-- One call of the `_cached_getSigningData` closure: returns the
result and the updated cache slot. -/
def cachedGetSigningData (st : CacheState) (a b c d : String) :
    SigningData × CacheState :=
  let a := jsSubstring0 a 8
  let nkey := String.intercalate "/" [a, b, c, d]
  match st with
  | some (key, value) =>
    if key = nkey then (value, some (key, value))
    else
      let value := getSigningData a b c d
      (value, some (nkey, value))
  | none =>
    let value := getSigningData a b c d
    (value, some (nkey, value))

/-- Run a sequence of calls through one cache instance, collecting the
returned values. -/
def runCached : CacheState → List (String × String × String × String) → List SigningData
  | _, [] => []
  | st, (a, b, c, d) :: rest =>
    (cachedGetSigningData st a b c d).1 :: runCached (cachedGetSigningData st a b c d).2 rest

/-- `signString` (core.ts): HMAC-SHA256 with the derived key. -/
def signString (key : List Nat) (sts : List Nat) : List Nat := hmacSha256 key sts

/-- `ALGORITHM` / `MAIN_ALGORITHM` (core.ts). -/
def MAIN_ALGORITHM : String := "AWS4-HMAC-SHA256"

/-- `signDigest` (core.ts). -/
def signDigest (payloadDigest : String) (timestamp : String) (signing : SigningData)
    (algorithm : String := MAIN_ALGORITHM) : List Nat :=
  signString signing.key
    (utf8Bytes (String.intercalate "\n" [algorithm, timestamp, signing.scope, payloadDigest]))

/-- `ALGORITHM_CHUNK` (core.ts). -/
def ALGORITHM_CHUNK : String := "AWS4-HMAC-SHA256-PAYLOAD"

/-- `signChunk` (core.ts). -/
def signChunk (lastSignature headersDigest payloadDigest : String)
    (timestamp : String) (signing : SigningData)
    (algorithm : String := ALGORITHM_CHUNK) : List Nat :=
  signDigest (String.intercalate "\n" [lastSignature, headersDigest, payloadDigest])
    timestamp signing algorithm

theorem jsSubstring0_idem (s : String) (n : Nat) :
    jsSubstring0 (jsSubstring0 s n) n = jsSubstring0 s n := by
  simp [jsSubstring0, List.take_take]

theorem getSigningData_take8 (a b c d : String) :
    getSigningData (jsSubstring0 a 8) b c d = getSigningData a b c d := by
  simp [getSigningData, jsSubstring0_idem]

/-- C1: `getSigningData` returns the scope
`date8/regionName/serviceName/aws4_request`, the key given by the
four-step HMAC-SHA256 chain over `"AWS4" ++ secretKey`, and is
insensitive to anything past the first 8 characters of its first
argument (so a full 16-character timestamp gives the same result as
its first 8 characters). -/
theorem getSigningData_spec (dateStamp secretKey regionName serviceName : String) :
    (getSigningData dateStamp secretKey regionName serviceName).scope =
      jsSubstring0 dateStamp 8 ++ "/" ++ regionName ++ "/" ++ serviceName ++ "/aws4_request" ∧
    (getSigningData dateStamp secretKey regionName serviceName).key =
      hmacSha256 (hmacSha256 (hmacSha256 (hmacSha256
        (utf8Bytes ("AWS4" ++ secretKey)) (utf8Bytes (jsSubstring0 dateStamp 8)))
        (utf8Bytes regionName)) (utf8Bytes serviceName)) (utf8Bytes "aws4_request") ∧
    getSigningData dateStamp secretKey regionName serviceName =
      getSigningData (jsSubstring0 dateStamp 8) secretKey regionName serviceName := by
  refine ⟨?_, ?_, ?_⟩
  · simp [getSigningData, String.intercalate, String.intercalate.go, String.append_assoc]
  · simp [getSigningData, List.foldl]
  · exact (getSigningData_take8 dateStamp secretKey regionName serviceName).symm

/-! ## The one-slot derivation cache (claim C5) -/

/-- The direct (uncached) derivation applied to an argument tuple. -/
def deriveUncached (p : String × String × String × String) : SigningData :=
  getSigningData p.1 p.2.1 p.2.2.1 p.2.2.2

/-- The joined string the cache closure uses as its key. -/
def cacheKeyOf (p : String × String × String × String) : String :=
  String.intercalate "/" [jsSubstring0 p.1 8, p.2.1, p.2.2.1, p.2.2.2]

/-- The argument tuple after the date-stamp truncation; derivation only
depends on this. -/
def truncArgsOf (p : String × String × String × String) :
    String × String × String × String :=
  (jsSubstring0 p.1 8, p.2.1, p.2.2.1, p.2.2.2)

theorem deriveUncached_eq_of_truncArgs {x y : String × String × String × String}
    (h : truncArgsOf x = truncArgsOf y) : deriveUncached x = deriveUncached y := by
  obtain ⟨a, b, c, d⟩ := x
  obtain ⟨a', b', c', d'⟩ := y
  simp only [truncArgsOf, Prod.mk.injEq] at h
  obtain ⟨h1, h2, h3, h4⟩ := h
  simp only [deriveUncached]
  rw [← getSigningData_take8 a b c d, ← getSigningData_take8 a' b' c' d', h1, h2, h3, h4]

/-- Invariant-carrying version of the cache/recomputation equivalence:
if the cache slot (when filled) agrees with direct derivation for every
upcoming call that matches its key, and equal keys within the sequence
only arise from equal truncated tuples, the cached run equals the
uncached one. -/
theorem runCached_good (seq : List (String × String × String × String)) :
    ∀ (st : CacheState),
    (∀ k v, st = some (k, v) → ∀ y ∈ seq, k = cacheKeyOf y → v = deriveUncached y) →
    (∀ x ∈ seq, ∀ y ∈ seq, cacheKeyOf x = cacheKeyOf y → truncArgsOf x = truncArgsOf y) →
    runCached st seq = seq.map deriveUncached := by
  induction seq with
  | nil => intro st _ _; rfl
  | cons p rest ih =>
    obtain ⟨a, b, c, d⟩ := p
    intro st hgood hinj
    have hd : getSigningData (jsSubstring0 a 8) b c d = deriveUncached (a, b, c, d) :=
      getSigningData_take8 a b c d
    have hkey : cacheKeyOf (a, b, c, d) =
        String.intercalate "/" [jsSubstring0 a 8, b, c, d] := rfl
    have hnext : ∀ z ∈ rest, cacheKeyOf (a, b, c, d) = cacheKeyOf z →
        deriveUncached (a, b, c, d) = deriveUncached z := fun z hz he =>
      deriveUncached_eq_of_truncArgs
        (hinj _ (List.mem_cons_self _ _) z (List.mem_cons_of_mem _ hz) he)
    have hinj' : ∀ x ∈ rest, ∀ y ∈ rest, cacheKeyOf x = cacheKeyOf y →
        truncArgsOf x = truncArgsOf y := fun x hx y hy =>
      hinj x (List.mem_cons_of_mem _ hx) y (List.mem_cons_of_mem _ hy)
    have hmiss : ∀ k' v', (String.intercalate "/" [jsSubstring0 a 8, b, c, d],
          deriveUncached (a, b, c, d)) = (k', v') →
        ∀ y ∈ rest, k' = cacheKeyOf y → v' = deriveUncached y := by
      rintro k' v' hpair y hy he
      obtain ⟨hk', hv'⟩ := Prod.mk.injEq .. ▸ hpair
      subst hk' hv'
      exact hnext y hy (by rw [hkey]; exact he)
    rcases st with _ | ⟨k, v⟩
    · have hstep : cachedGetSigningData none a b c d =
          (getSigningData (jsSubstring0 a 8) b c d,
           some (String.intercalate "/" [jsSubstring0 a 8, b, c, d],
             getSigningData (jsSubstring0 a 8) b c d)) := rfl
      simp only [runCached, hstep, List.map_cons]
      rw [hd]
      refine congrArg _ (ih _ ?_ hinj')
      rintro k' v' h y hy he
      exact hmiss k' v' (Option.some.inj h) y hy he
    · by_cases hk : k = String.intercalate "/" [jsSubstring0 a 8, b, c, d]
      · have hv : v = deriveUncached (a, b, c, d) :=
          hgood k v rfl _ (List.mem_cons_self _ _) (by rw [hkey]; exact hk)
        have hstep : cachedGetSigningData (some (k, v)) a b c d = (v, some (k, v)) := by
          simp [cachedGetSigningData, hk]
        simp only [runCached, hstep, List.map_cons]
        rw [hv]
        refine congrArg _ (ih _ ?_ hinj')
        rintro k' v' h y hy he
        have hp := Option.some.inj h
        have hk' : k = k' := congrArg Prod.fst hp
        have hv' : deriveUncached (a, b, c, d) = v' := congrArg Prod.snd hp
        rw [← hv']
        exact hnext y hy (by rw [hkey, ← hk, hk']; exact he)
      · have hstep : cachedGetSigningData (some (k, v)) a b c d =
            (getSigningData (jsSubstring0 a 8) b c d,
             some (String.intercalate "/" [jsSubstring0 a 8, b, c, d],
               getSigningData (jsSubstring0 a 8) b c d)) := by
          simp [cachedGetSigningData, hk]
        simp only [runCached, hstep, List.map_cons]
        rw [hd]
        refine congrArg _ (ih _ ?_ hinj')
        rintro k' v' h y hy he
        exact hmiss k' v' (Option.some.inj h) y hy he

/-- C5 (amended): the one-slot cache returned by
`getSigningData.makeSimpleCache` is observationally equivalent to the
uncached `getSigningData` for every call sequence in which equal joined
cache keys (`date8/secret/region/service` joined with `/`) only arise
from equal truncated argument tuples — in particular whenever the
secret, region and service names contain no `/`.  (Without that
proviso the cache can return a stale value, see the counterexample.) -/
theorem cached_getSigningData_equiv (seq : List (String × String × String × String))
    (hinj : ∀ x ∈ seq, ∀ y ∈ seq, cacheKeyOf x = cacheKeyOf y → truncArgsOf x = truncArgsOf y) :
    runCached none seq = seq.map deriveUncached :=
  runCached_good seq none (fun _ _ h => nomatch h) hinj

/-- Witness for the amended C5 theorem: a two-call sequence (a full
timestamp followed by its date stamp, hitting the cache) on which the
hypothesis holds and the cached outputs equal the uncached ones. -/
theorem cached_getSigningData_equiv_witness :
    (∀ x ∈ [("20190901T084743Z", "key", "us-east-1", "s3"),
            ("20190901", "key", "us-east-1", "s3")],
     ∀ y ∈ [("20190901T084743Z", "key", "us-east-1", "s3"),
            ("20190901", "key", "us-east-1", "s3")],
       cacheKeyOf x = cacheKeyOf y → truncArgsOf x = truncArgsOf y) ∧
    runCached none [("20190901T084743Z", "key", "us-east-1", "s3"),
                    ("20190901", "key", "us-east-1", "s3")] =
      List.map deriveUncached [("20190901T084743Z", "key", "us-east-1", "s3"),
                               ("20190901", "key", "us-east-1", "s3")] :=
  ⟨by decide, cached_getSigningData_equiv _ (by decide)⟩

/-! Concrete HMAC-SHA256 values for the cache-collision counterexample,
one derivation step per lemma. -/

set_option maxHeartbeats 8000000 in
theorem hmacStep_c5_1 : hmacSha256 (utf8Bytes ("AWS4" ++ "k")) (utf8Bytes (jsSubstring0 "d" 8)) =
    [130, 237, 84, 238, 225, 160, 80, 95, 193, 16, 93, 255, 172, 52, 253, 74, 126, 194, 249, 126, 160, 60, 200, 175, 210, 40, 77, 179, 254, 235, 89, 1] := by
  decide

set_option maxHeartbeats 8000000 in
theorem hmacStep_c5_2 : hmacSha256 [130, 237, 84, 238, 225, 160, 80, 95, 193, 16, 93, 255, 172, 52, 253, 74, 126, 194, 249, 126, 160, 60, 200, 175, 210, 40, 77, 179, 254, 235, 89, 1] (utf8Bytes "x/y") =
    [229, 6, 65, 238, 157, 20, 210, 133, 251, 177, 86, 232, 173, 51, 75, 137, 141, 132, 76, 48, 8, 59, 107, 99, 68, 130, 153, 163, 204, 151, 224, 215] := by
  decide

set_option maxHeartbeats 8000000 in
theorem hmacStep_c5_3 : hmacSha256 [229, 6, 65, 238, 157, 20, 210, 133, 251, 177, 86, 232, 173, 51, 75, 137, 141, 132, 76, 48, 8, 59, 107, 99, 68, 130, 153, 163, 204, 151, 224, 215] (utf8Bytes "z") =
    [183, 254, 225, 123, 52, 186, 215, 208, 64, 224, 178, 207, 45, 82, 214, 11, 201, 5, 40, 78, 201, 158, 158, 161, 185, 141, 209, 57, 42, 140, 144, 248] := by
  decide

set_option maxHeartbeats 8000000 in
theorem hmacStep_c5_4 : hmacSha256 [183, 254, 225, 123, 52, 186, 215, 208, 64, 224, 178, 207, 45, 82, 214, 11, 201, 5, 40, 78, 201, 158, 158, 161, 185, 141, 209, 57, 42, 140, 144, 248] (utf8Bytes "aws4_request") =
    [65, 220, 5, 148, 74, 158, 203, 146, 53, 102, 160, 252, 97, 129, 202, 206, 112, 92, 254, 80, 37, 174, 228, 47, 162, 5, 194, 88, 196, 44, 148, 21] := by
  decide

set_option maxHeartbeats 8000000 in
theorem hmacStep_c5_5 : hmacSha256 [130, 237, 84, 238, 225, 160, 80, 95, 193, 16, 93, 255, 172, 52, 253, 74, 126, 194, 249, 126, 160, 60, 200, 175, 210, 40, 77, 179, 254, 235, 89, 1] (utf8Bytes "x") =
    [43, 254, 128, 91, 132, 208, 45, 165, 217, 70, 215, 139, 160, 99, 158, 8, 171, 243, 89, 216, 207, 85, 119, 239, 246, 51, 13, 160, 192, 57, 220, 194] := by
  decide

set_option maxHeartbeats 8000000 in
theorem hmacStep_c5_6 : hmacSha256 [43, 254, 128, 91, 132, 208, 45, 165, 217, 70, 215, 139, 160, 99, 158, 8, 171, 243, 89, 216, 207, 85, 119, 239, 246, 51, 13, 160, 192, 57, 220, 194] (utf8Bytes "y/z") =
    [211, 142, 223, 209, 184, 28, 82, 31, 108, 41, 105, 20, 237, 249, 52, 101, 108, 205, 217, 36, 71, 0, 156, 224, 218, 63, 217, 98, 78, 166, 115, 14] := by
  decide

set_option maxHeartbeats 8000000 in
theorem hmacStep_c5_7 : hmacSha256 [211, 142, 223, 209, 184, 28, 82, 31, 108, 41, 105, 20, 237, 249, 52, 101, 108, 205, 217, 36, 71, 0, 156, 224, 218, 63, 217, 98, 78, 166, 115, 14] (utf8Bytes "aws4_request") =
    [19, 3, 114, 29, 215, 17, 5, 245, 2, 141, 195, 19, 176, 243, 39, 160, 197, 58, 160, 140, 18, 89, 55, 34, 131, 91, 19, 42, 22, 239, 205, 148] := by
  decide

/-- `getSigningData` in closed form: the four-step HMAC chain and the
joined scope, for arbitrary (symbolic) arguments. -/
theorem getSigningData_closed (a b c d : String) :
    getSigningData a b c d =
      ⟨hmacSha256 (hmacSha256 (hmacSha256 (hmacSha256
        (utf8Bytes ("AWS4" ++ b)) (utf8Bytes (jsSubstring0 a 8)))
        (utf8Bytes c)) (utf8Bytes d)) (utf8Bytes "aws4_request"),
       String.intercalate "/" [jsSubstring0 a 8, c, d, "aws4_request"]⟩ := by
  simp [getSigningData, List.foldl]

/-- The first colliding tuple's derivation, in closed form.  The proof
composes the per-step HMAC values by congruence, never comparing two
distinct crypto terms. -/
theorem getSigningData_collide_1 : getSigningData "d" "k" "x/y" "z" =
    ⟨[65, 220, 5, 148, 74, 158, 203, 146, 53, 102, 160, 252, 97, 129, 202, 206, 112, 92, 254, 80, 37, 174, 228, 47, 162, 5, 194, 88, 196, 44, 148, 21],
      "d/x/y/z/aws4_request"⟩ :=
  (getSigningData_closed "d" "k" "x/y" "z").trans
    ((congrArg (fun kk => (⟨kk, String.intercalate "/"
        [jsSubstring0 "d" 8, "x/y", "z", "aws4_request"]⟩ : SigningData))
      ((congrArg (fun x => hmacSha256 (hmacSha256 (hmacSha256 x (utf8Bytes "x/y"))
          (utf8Bytes "z")) (utf8Bytes "aws4_request")) hmacStep_c5_1).trans
        ((congrArg (fun x => hmacSha256 (hmacSha256 x (utf8Bytes "z"))
            (utf8Bytes "aws4_request")) hmacStep_c5_2).trans
          ((congrArg (fun x => hmacSha256 x (utf8Bytes "aws4_request"))
            hmacStep_c5_3).trans hmacStep_c5_4)))).trans
      (congrArg (fun s => (⟨[65, 220, 5, 148, 74, 158, 203, 146, 53, 102, 160, 252, 97, 129, 202, 206, 112, 92, 254, 80, 37, 174, 228, 47, 162, 5, 194, 88, 196, 44, 148, 21], s⟩ : SigningData))
        (by decide : String.intercalate "/"
          [jsSubstring0 "d" 8, "x/y", "z", "aws4_request"] = "d/x/y/z/aws4_request")))

/-- The second colliding tuple's derivation, in closed form. -/
theorem getSigningData_collide_2 : getSigningData "d" "k" "x" "y/z" =
    ⟨[19, 3, 114, 29, 215, 17, 5, 245, 2, 141, 195, 19, 176, 243, 39, 160, 197, 58, 160, 140, 18, 89, 55, 34, 131, 91, 19, 42, 22, 239, 205, 148],
      "d/x/y/z/aws4_request"⟩ :=
  (getSigningData_closed "d" "k" "x" "y/z").trans
    ((congrArg (fun kk => (⟨kk, String.intercalate "/"
        [jsSubstring0 "d" 8, "x", "y/z", "aws4_request"]⟩ : SigningData))
      ((congrArg (fun x => hmacSha256 (hmacSha256 (hmacSha256 x (utf8Bytes "x"))
          (utf8Bytes "y/z")) (utf8Bytes "aws4_request")) hmacStep_c5_1).trans
        ((congrArg (fun x => hmacSha256 (hmacSha256 x (utf8Bytes "y/z"))
            (utf8Bytes "aws4_request")) hmacStep_c5_5).trans
          ((congrArg (fun x => hmacSha256 x (utf8Bytes "aws4_request"))
            hmacStep_c5_6).trans hmacStep_c5_7)))).trans
      (congrArg (fun s => (⟨[19, 3, 114, 29, 215, 17, 5, 245, 2, 141, 195, 19, 176, 243, 39, 160, 197, 58, 160, 140, 18, 89, 55, 34, 131, 91, 19, 42, 22, 239, 205, 148], s⟩ : SigningData))
        (by decide : String.intercalate "/"
          [jsSubstring0 "d" 8, "x", "y/z", "aws4_request"] = "d/x/y/z/aws4_request")))

/-- Counterexample to C5 as stated: two argument tuples that are
different (region `x/y`, service `z` versus region `x`, service `y/z`)
but share the joined cache key, so the second call returns the first
call's stale `SigningData` instead of its own. -/
theorem cached_getSigningData_counterexample :
    runCached none [("d", "k", "x/y", "z"), ("d", "k", "x", "y/z")] ≠
      List.map deriveUncached [("d", "k", "x/y", "z"), ("d", "k", "x", "y/z")] := by
  have e1 : runCached none [("d", "k", "x/y", "z"), ("d", "k", "x", "y/z")] =
      [getSigningData "d" "k" "x/y" "z", getSigningData "d" "k" "x/y" "z"] := rfl
  have e2 : List.map deriveUncached [("d", "k", "x/y", "z"), ("d", "k", "x", "y/z")] =
      [getSigningData "d" "k" "x/y" "z", getSigningData "d" "k" "x" "y/z"] := rfl
  have h1 : runCached none [("d", "k", "x/y", "z"), ("d", "k", "x", "y/z")] =
      [(⟨[65, 220, 5, 148, 74, 158, 203, 146, 53, 102, 160, 252, 97, 129, 202, 206, 112, 92, 254, 80, 37, 174, 228, 47, 162, 5, 194, 88, 196, 44, 148, 21], "d/x/y/z/aws4_request"⟩ : SigningData),
       ⟨[65, 220, 5, 148, 74, 158, 203, 146, 53, 102, 160, 252, 97, 129, 202, 206, 112, 92, 254, 80, 37, 174, 228, 47, 162, 5, 194, 88, 196, 44, 148, 21], "d/x/y/z/aws4_request"⟩] :=
    e1.trans (congrArg (fun x => [x, x]) getSigningData_collide_1)
  have h2 : List.map deriveUncached [("d", "k", "x/y", "z"), ("d", "k", "x", "y/z")] =
      [(⟨[65, 220, 5, 148, 74, 158, 203, 146, 53, 102, 160, 252, 97, 129, 202, 206, 112, 92, 254, 80, 37, 174, 228, 47, 162, 5, 194, 88, 196, 44, 148, 21], "d/x/y/z/aws4_request"⟩ : SigningData),
       ⟨[19, 3, 114, 29, 215, 17, 5, 245, 2, 141, 195, 19, 176, 243, 39, 160, 197, 58, 160, 140, 18, 89, 55, 34, 131, 91, 19, 42, 22, 239, 205, 148], "d/x/y/z/aws4_request"⟩] :=
    e2.trans ((congrArg (fun x => [x, getSigningData "d" "k" "x" "y/z"])
        getSigningData_collide_1).trans
      (congrArg (fun y => [(⟨[65, 220, 5, 148, 74, 158, 203, 146, 53, 102, 160, 252, 97, 129, 202, 206, 112, 92, 254, 80, 37, 174, 228, 47, 162, 5, 194, 88, 196, 44, 148, 21], "d/x/y/z/aws4_request"⟩ : SigningData), y])
        getSigningData_collide_2))
  have hne : [(⟨[65, 220, 5, 148, 74, 158, 203, 146, 53, 102, 160, 252, 97, 129, 202, 206, 112, 92, 254, 80, 37, 174, 228, 47, 162, 5, 194, 88, 196, 44, 148, 21], "d/x/y/z/aws4_request"⟩ : SigningData),
       ⟨[65, 220, 5, 148, 74, 158, 203, 146, 53, 102, 160, 252, 97, 129, 202, 206, 112, 92, 254, 80, 37, 174, 228, 47, 162, 5, 194, 88, 196, 44, 148, 21], "d/x/y/z/aws4_request"⟩] ≠
      [(⟨[65, 220, 5, 148, 74, 158, 203, 146, 53, 102, 160, 252, 97, 129, 202, 206, 112, 92, 254, 80, 37, 174, 228, 47, 162, 5, 194, 88, 196, 44, 148, 21], "d/x/y/z/aws4_request"⟩ : SigningData),
       ⟨[19, 3, 114, 29, 215, 17, 5, 245, 2, 141, 195, 19, 176, 243, 39, 160, 197, 58, 160, 140, 18, 89, 55, 34, 131, 91, 19, 42, 22, 239, 205, 148], "d/x/y/z/aws4_request"⟩] := by decide
  exact fun h => hne ((h1.symm.trans h).trans h2)

/-! ## Headers and the `getHeader` utility (`src/util/request.ts`) -/

/-- A header value: string, array of strings, or number
(`OutgoingHttpHeaders`). -/
inductive HVal where
  | str (s : String)
  | list (l : List String)
  | num (n : Nat)
deriving Repr, DecidableEq

/-- A JS headers object: insertion-ordered association list. -/
abbrev Headers : Type := List (String × HVal)

/-- `normalizeValue` (request.ts): arrays join with `,`, other values
are coerced to string. -/
def normalizeValue : HVal → String
  | .str s => s
  | .list l => String.intercalate "," l
  | .num n => natToDec n

/-- `String.prototype.toLowerCase()` (simple case mapping; exact on the
ASCII header names used here). -/
def jsToLower (s : String) : String := ⟨s.data.map Char.toLower⟩

/-- `getHeader` (request.ts): find the original key and the normalized
value of the first header whose lowercased name matches; otherwise the
lowercased requested name and no value. -/
def getHeader (headers : Option Headers) (name : String) : String × Option String :=
  let name := jsToLower name
  match headers with
  | some hs =>
    match hs.find? (fun kv => jsToLower kv.1 = name) with
    | some kv => (kv.1, some (normalizeValue kv.2))
    | none => (name, none)
  | none => (name, none)

/-- The JS `\s` character class (whitespace as used by the regexes in
the library). -/
def jsWs (c : Char) : Bool :=
  let n := c.toNat
  n = 9 ∨ n = 10 ∨ n = 11 ∨ n = 12 ∨ n = 13 ∨ n = 32 ∨ n = 160 ∨ n = 0x1680 ∨
  (0x2000 ≤ n ∧ n ≤ 0x200A) ∨ n = 0x2028 ∨ n = 0x2029 ∨ n = 0x202F ∨ n = 0x205F ∨
  n = 0x3000 ∨ n = 0xFEFF

/-! ## Port of `src/s3_chunked.ts` (the chunk signer) -/

/-- `PAYLOAD_STREAMING` (s3_chunked.ts). -/
def PAYLOAD_STREAMING : String := "STREAMING-AWS4-HMAC-SHA256-PAYLOAD"

/-- `CHUNK_MIN` (s3_chunked.ts): minimum chunk length, 8 KiB. -/
def CHUNK_MIN : Nat := 8 * 1024

/-- `EMPTY_HASH`: hex SHA-256 of the empty string. -/
def EMPTY_HASH : String := sha256hex []

/-- Carriage return + line feed. -/
def CRLF : String := "\r\n"

/-- Argument accepted by the chunk signer: raw bytes or a
`ChunkDescription` (`hash` and `length`). -/
inductive ChunkVal where
  | buf (bs : List Nat)
  | desc (hash : String) (length : Nat)
deriving Repr, DecidableEq

/-- `chunk ? chunk.length : 0`. -/
def chunkLen : Option ChunkVal → Nat
  | none => 0
  | some (.buf bs) => bs.length
  | some (.desc _ n) => n

/-- `hashBody` (http.ts) applied to a chunk-signer argument: the empty
hash when absent, the given hash for a `ChunkDescription`, the SHA-256
of the bytes otherwise. -/
def chunkHashBody : Option ChunkVal → String
  | none => EMPTY_HASH
  | some (.buf bs) => sha256hex bs
  | some (.desc h _) => h

/-- `calculateChunks` (s3_chunked.ts).  On naturals the `Math.floor`
integrality and non-negativity checks are vacuous; the remaining check
is the minimum chunk length.  Returns (number of full chunks, length of
the final partial chunk). -/
def calculateChunks (bodyLength chunkLength : Nat) : Except String (Nat × Nat) :=
  if chunkLength < CHUNK_MIN then .error "Invalid chunk length"
  else
    let chunks := bodyLength / chunkLength
    .ok (chunks, bodyLength - chunks * chunkLength)

/-- `` `${length.toString(16)};chunk-signature=` ``. -/
def chunkHeaderStr (n : Nat) : String := natToHex n ++ ";chunk-signature="

/-- The `'0;chunk-signature='` header of the terminal chunk. -/
def finalHeaderStr : String := "0;chunk-signature="

/-- The per-request constants the chunk signer closure captures:
lengths plus the timestamp and signing data of the outer request.  (The
outer request is signed by the `SignResult`-returning `signS3Request`;
only its timestamp, derived key and seed signature flow into the chunk
signer, so they are taken as parameters here.) -/
structure ChunkCtx where
  bodyLength : Nat
  chunkLength : Nat
  lastLength : Nat
  timestamp : String
  signing : SigningData
deriving Repr, DecidableEq

/-- The mutable state of the chunk signer closure. -/
structure ChunkState where
  signature : String
  dataCount : Nat
  done : Bool
deriving Repr, DecidableEq

/-- The chunk length the state machine expects next: the full
`chunkLength` while full chunks remain, the partial `lastLength` when
only the partial remains, and 0 for the terminal call. -/
def expectedChunkLen (ctx : ChunkCtx) (st : ChunkState) : Nat :=
  if ctx.bodyLength - st.dataCount < ctx.chunkLength then
    if st.dataCount ≠ ctx.bodyLength then ctx.lastLength else 0
  else ctx.chunkLength

/-- The header string the state machine uses next. -/
def expectedChunkHeader (ctx : ChunkCtx) (st : ChunkState) : String :=
  if ctx.bodyLength - st.dataCount < ctx.chunkLength then
    if st.dataCount ≠ ctx.bodyLength then chunkHeaderStr ctx.lastLength else finalHeaderStr
  else chunkHeaderStr ctx.chunkLength

/-- One call of the `chunkSigner` closure (s3_chunked.ts): validates
the state and chunk length, signs, and returns the framing string and
updated state. -/
def chunkSignerStep (ctx : ChunkCtx) (st : ChunkState) (chunk : Option ChunkVal) :
    Except String (String × ChunkState) :=
  if st.done then .error "Payload is complete, no more calls are needed"
  else
    let length := expectedChunkLen ctx st
    let header := expectedChunkHeader ctx st
    if chunkLen chunk ≠ length then
      .error ("Unexpected chunk size (got " ++
        (match chunk with
         | none => "undefined"
         | some c => natToDec (chunkLen (some c))) ++
        ", expected " ++ natToDec length ++ ")")
    else
      let signature := bytesToHex
        (signChunk st.signature EMPTY_HASH (chunkHashBody chunk) ctx.timestamp ctx.signing)
      let dataCount := st.dataCount + length
      let done := length = 0
      .ok ((if dataCount = length then "" else CRLF) ++ header ++ signature ++ CRLF ++
             (if length ≠ 0 then "" else CRLF),
           ⟨signature, dataCount, done⟩)

/-- Run the chunk signer over a list of calls, collecting the framing
strings and the final state. -/
def runChunkSigner (ctx : ChunkCtx) : ChunkState → List (Option ChunkVal) →
    Except String (List String × ChunkState)
  | st, [] => .ok ([], st)
  | st, c :: rest =>
    match chunkSignerStep ctx st c with
    | .error e => .error e
    | .ok (out, st') =>
      match runChunkSigner ctx st' rest with
      | .error e => .error e
      | .ok (outs, stF) => .ok (out :: outs, stF)

/-- The `totalLength` computed by `signS3ChunkedRequest` and announced
in the `content-length` header. -/
def chunkedTotalLength (bodyLength chunkLength lastLength chunks : Nat) : Nat :=
  bodyLength + ((chunkHeaderStr chunkLength).length + 64 + 4) * chunks +
    (if lastLength ≠ 0 then (chunkHeaderStr lastLength).length + 64 + 4 else 0) +
    finalHeaderStr.length + 64 + 4

/-- `/^\s*aws-chunked\s*($|,)/i.test(encoding)`. -/
def matchesAwsChunked (s : String) : Bool :=
  let rest := s.data.dropWhile jsWs
  if (rest.take 11).map Char.toLower = "aws-chunked".data then
    let rest2 := (rest.drop 11).dropWhile jsWs
    rest2 = [] ∨ rest2.head? = some ','
  else false

/-- The header-effect part of `signS3ChunkedRequest` (s3_chunked.ts):
validates lengths and computes the `extra` headers
(`content-encoding` handling, `content-length`,
`x-amz-decoded-content-length`) and the total length. -/
def signS3ChunkedSetup (headers : Option Headers) (bodyLength chunkLength : Nat) :
    Except String (List (String × String) × Nat) :=
  match calculateChunks bodyLength chunkLength with
  | .error e => .error e
  | .ok (chunks, lastLength) =>
    let totalLength := chunkedTotalLength bodyLength chunkLength lastLength chunks
    let (encodingName, encoding) := getHeader headers "content-encoding"
    let extra : List (String × String) :=
      match encoding with
      | some enc =>
        if enc ≠ "" ∧ matchesAwsChunked enc then []
        else [(encodingName, "aws-chunked" ++ (if enc ≠ "" then "," ++ enc else ""))]
      | none => [(encodingName, "aws-chunked")]
    let extra := extra ++ [((getHeader headers "content-length").1, natToDec totalLength)]
    let extra := extra ++ [("x-amz-decoded-content-length", natToDec bodyLength)]
    .ok (extra, totalLength)

/-- First value in an association list for a key (JS property lookup on
an object without duplicate keys). -/
def lookupStr (l : List (String × String)) (k : String) : Option String :=
  (l.find? (fun kv => kv.1 = k)).map (·.2)

/-! ### Byte lengths of framing strings -/

/-- Byte length of a string when UTF-8 encoded. -/
def byteLen (s : String) : Nat := (utf8Bytes s).length

theorem utf8Bytes_append (a b : String) :
    utf8Bytes (a ++ b) = utf8Bytes a ++ utf8Bytes b := by
  simp [utf8Bytes, String.data_append]

theorem byteLen_append (a b : String) : byteLen (a ++ b) = byteLen a + byteLen b := by
  simp [byteLen, utf8Bytes_append]

theorem utf8EncodeChar_ascii {c : Char} (h : c.toNat < 128) :
    utf8EncodeChar c = [c.toNat] := by
  simp [utf8EncodeChar, h]

theorem utf8_flatMap_ascii_len (l : List Char) (h : ∀ c ∈ l, c.toNat < 128) :
    (l.flatMap utf8EncodeChar).length = l.length := by
  induction l with
  | nil => rfl
  | cons c cs ih =>
    simp only [List.flatMap_cons, List.length_append, List.length_cons]
    rw [utf8EncodeChar_ascii (h c (List.mem_cons_self _ _)),
      ih (fun c hc => h c (List.mem_cons_of_mem _ hc))]
    simp [Nat.add_comm]

theorem byteLen_of_ascii {s : String} (h : ∀ c ∈ s.data, c.toNat < 128) :
    byteLen s = s.length := by
  simp only [byteLen, utf8Bytes, String.length]
  exact utf8_flatMap_ascii_len s.data h

theorem hexCharL_ascii (n : Nat) : (hexCharL n).toNat < 128 := by
  unfold hexCharL; split <;> decide

theorem bytesToHex_ascii (bs : List Nat) : ∀ c ∈ (bytesToHex bs).data, c.toNat < 128 := by
  simp only [bytesToHex]
  induction bs with
  | nil => intro c hc; cases hc
  | cons b bs ih =>
    intro c hc
    simp only [List.foldr_cons, List.mem_cons] at hc
    rcases hc with rfl | rfl | hc
    · exact hexCharL_ascii _
    · exact hexCharL_ascii _
    · exact ih c hc

theorem byteLen_bytesToHex (bs : List Nat) : byteLen (bytesToHex bs) = 2 * bs.length := by
  rw [byteLen_of_ascii (bytesToHex_ascii bs), bytesToHex_length]

theorem natToHexGo_ascii (fuel : Nat) :
    ∀ (n : Nat) (acc : List Char), (∀ c ∈ acc, c.toNat < 128) →
      ∀ c ∈ natToHexGo fuel n acc, c.toNat < 128 := by
  induction fuel with
  | zero =>
    intro n acc hacc
    cases n <;> simpa [natToHexGo] using hacc
  | succ fuel ih =>
    intro n acc hacc
    cases n with
    | zero => simpa [natToHexGo] using hacc
    | succ n =>
      simp only [natToHexGo]
      refine ih _ _ ?_
      intro c hc
      rcases List.mem_cons.1 hc with rfl | hc
      · exact hexCharL_ascii _
      · exact hacc c hc

theorem natToHex_ascii (n : Nat) : ∀ c ∈ (natToHex n).data, c.toNat < 128 := by
  unfold natToHex
  split
  · intro c hc
    have : c = '0' := by simpa using hc
    subst this; decide
  · exact natToHexGo_ascii n n [] (by intro c hc; cases hc)

theorem byteLen_natToHex (n : Nat) : byteLen (natToHex n) = (natToHex n).length :=
  byteLen_of_ascii (natToHex_ascii n)

theorem byteLen_chunkHeaderStr (n : Nat) :
    byteLen (chunkHeaderStr n) = (chunkHeaderStr n).length := by
  rw [chunkHeaderStr, byteLen_append, byteLen_natToHex, String.length_append]
  have h17 : byteLen ";chunk-signature=" = (";chunk-signature=" : String).length := by
    decide
  omega

theorem signChunk_length (a b c ts : String) (sg : SigningData) (alg : String) :
    (signChunk a b c ts sg alg).length = 32 := by
  simp [signChunk, signDigest, signString, hmacSha256_length]

theorem byteLen_CRLF : byteLen CRLF = 2 := by decide

theorem byteLen_empty : byteLen "" = 0 := rfl

theorem byteLen_finalHeaderStr : byteLen finalHeaderStr = 18 := by decide

theorem finalHeaderStr_length : finalHeaderStr.length = 18 := by decide

/-! ### The chunk signer protocol run -/

theorem chunkSignerStep_ok (ctx : ChunkCtx) (sig : String) (d : Nat) (arg : Option ChunkVal)
    (h : chunkLen arg = expectedChunkLen ctx ⟨sig, d, false⟩) :
    chunkSignerStep ctx ⟨sig, d, false⟩ arg = .ok
      ((if d + expectedChunkLen ctx ⟨sig, d, false⟩ = expectedChunkLen ctx ⟨sig, d, false⟩
          then "" else CRLF) ++
         expectedChunkHeader ctx ⟨sig, d, false⟩ ++
         bytesToHex (signChunk sig EMPTY_HASH (chunkHashBody arg) ctx.timestamp ctx.signing) ++
         CRLF ++
         (if expectedChunkLen ctx ⟨sig, d, false⟩ ≠ 0 then "" else CRLF),
       ⟨bytesToHex (signChunk sig EMPTY_HASH (chunkHashBody arg) ctx.timestamp ctx.signing),
        d + expectedChunkLen ctx ⟨sig, d, false⟩,
        decide (expectedChunkLen ctx ⟨sig, d, false⟩ = 0)⟩) := by
  simp [chunkSignerStep, h]

theorem byteLen_frame (lead hdr : String) (sigBytes : List Nat) (tl : String) :
    byteLen (lead ++ hdr ++ bytesToHex sigBytes ++ CRLF ++ tl) =
      byteLen lead + byteLen hdr + 2 * sigBytes.length + 2 + byteLen tl := by
  simp only [byteLen_append, byteLen_bytesToHex, byteLen_CRLF]

theorem runChunkSigner_nil (ctx : ChunkCtx) (st : ChunkState) :
    runChunkSigner ctx st [] = .ok ([], st) := rfl

theorem runChunkSigner_cons (ctx : ChunkCtx) (st : ChunkState) (a : Option ChunkVal)
    (rest : List (Option ChunkVal)) (out : String) (st' : ChunkState)
    (h : chunkSignerStep ctx st a = .ok (out, st')) :
    runChunkSigner ctx st (a :: rest) =
      match runChunkSigner ctx st' rest with
      | Except.error e => Except.error e
      | Except.ok (outs, stF) => Except.ok (out :: outs, stF) := by
  simp only [runChunkSigner, h]

theorem runChunkSigner_full_phase (ctx : ChunkCtx) (hcl : 0 < ctx.chunkLength) (f : Nat) :
    ∀ (args rest : List (Option ChunkVal)) (sig : String) (d : Nat),
    args.map chunkLen = List.replicate f ctx.chunkLength →
    d + f * ctx.chunkLength + ctx.lastLength = ctx.bodyLength →
    ∃ (outs : List String) (sig' : String),
      runChunkSigner ctx ⟨sig, d, false⟩ (args ++ rest) =
        (match runChunkSigner ctx ⟨sig', d + f * ctx.chunkLength, false⟩ rest with
         | .error e => .error e
         | .ok (outs2, stF) => .ok (outs ++ outs2, stF)) ∧
      (outs.map byteLen).sum + (if d = 0 ∧ f ≠ 0 then 2 else 0) =
        f * ((chunkHeaderStr ctx.chunkLength).length + 66) + 2 * f := by
  induction f with
  | zero =>
    intro args rest sig d hargs _
    have hnil : args = [] := by
      cases args with
      | nil => rfl
      | cons a as => simp [List.replicate] at hargs
    subst hnil
    refine ⟨[], sig, ?_, by simp⟩
    simp only [List.nil_append, Nat.zero_mul, Nat.add_zero]
    rcases hres : runChunkSigner ctx ⟨sig, d, false⟩ rest with e | ⟨outs2, stF⟩ <;> simp
  | succ k ih =>
    intro args rest sig d hargs hinv
    cases args with
    | nil => simp [List.replicate_succ] at hargs
    | cons a args' =>
      simp only [List.map_cons, List.replicate_succ, List.cons.injEq] at hargs
      obtain ⟨ha, hargs'⟩ := hargs
      have hmul : (k + 1) * ctx.chunkLength = k * ctx.chunkLength + ctx.chunkLength := by ring
      rw [hmul] at hinv
      have hexp : expectedChunkLen ctx ⟨sig, d, false⟩ = ctx.chunkLength := by
        have : ¬(ctx.bodyLength - d < ctx.chunkLength) := by omega
        simp [expectedChunkLen, this]
      have hhdr : expectedChunkHeader ctx ⟨sig, d, false⟩ = chunkHeaderStr ctx.chunkLength := by
        have : ¬(ctx.bodyLength - d < ctx.chunkLength) := by omega
        simp [expectedChunkHeader, this]
      have hstep := chunkSignerStep_ok ctx sig d a (by rw [ha, hexp])
      rw [hexp, hhdr] at hstep
      have hdone : decide (ctx.chunkLength = 0) = false :=
        decide_eq_false (by omega)
      rw [hdone] at hstep
      set sig1 := bytesToHex (signChunk sig EMPTY_HASH (chunkHashBody a)
        ctx.timestamp ctx.signing) with hsig1
      obtain ⟨outs1, sig', hrun, hsum⟩ := ih args' rest sig1 (d + ctx.chunkLength) hargs' (by omega)
      have hshift : d + ctx.chunkLength + k * ctx.chunkLength =
          d + (k + 1) * ctx.chunkLength := by rw [hmul]; ring
      rw [hshift] at hrun
      refine ⟨((if d + ctx.chunkLength = ctx.chunkLength then "" else CRLF) ++
          chunkHeaderStr ctx.chunkLength ++ sig1 ++ CRLF ++
          (if ctx.chunkLength ≠ 0 then "" else CRLF)) :: outs1, sig', ?_, ?_⟩
      · show (match chunkSignerStep ctx ⟨sig, d, false⟩ a with
          | Except.error e => Except.error e
          | Except.ok (out, st') =>
            match runChunkSigner ctx st' (args' ++ rest) with
            | Except.error e => Except.error e
            | Except.ok (outs, stF) => Except.ok (out :: outs, stF)) = _
        rcases hres : runChunkSigner ctx ⟨sig', d + (k + 1) * ctx.chunkLength, false⟩ rest with
          e | ⟨outs2, stF⟩ <;> rw [hres] at hrun <;> simp [hstep, hrun]
      · have hfb : byteLen ((if d + ctx.chunkLength = ctx.chunkLength then "" else CRLF) ++
            chunkHeaderStr ctx.chunkLength ++ sig1 ++ CRLF ++
            (if ctx.chunkLength ≠ 0 then "" else CRLF)) =
            (if d = 0 then 0 else 2) + (chunkHeaderStr ctx.chunkLength).length + 66 := by
          have h1 : (if d + ctx.chunkLength = ctx.chunkLength then ("" : String) else CRLF) =
              (if d = 0 then "" else CRLF) := by
            by_cases hd : d = 0
            · simp [hd]
            · have hne : ¬(d + ctx.chunkLength = ctx.chunkLength) := by omega
              simp [hd, hne]
          have h2 : (if ctx.chunkLength ≠ 0 then ("" : String) else CRLF) = "" := by
            rw [if_pos (by omega)]
          rw [h1, h2, hsig1, byteLen_frame, signChunk_length, byteLen_chunkHeaderStr]
          by_cases hd : d = 0 <;> simp [hd, byteLen_CRLF, byteLen_empty]
        simp only [List.map_cons, List.sum_cons, hfb]
        rw [if_neg (by omega : ¬(d + ctx.chunkLength = 0 ∧ k ≠ 0))] at hsum
        have hif : (if d = 0 ∧ k + 1 ≠ 0 then 2 else 0) = (if d = 0 then 2 else 0) := by
          by_cases hd : d = 0 <;> simp [hd]
        rw [hif, Nat.succ_mul]
        by_cases hd : d = 0 <;> simp [hd] <;> omega

theorem runChunkSigner_tail (ctx : ChunkCtx)
    (hcl : 0 < ctx.chunkLength)
    (hlt : ctx.lastLength < ctx.chunkLength)
    (hle : ctx.lastLength ≤ ctx.bodyLength)
    (args : List (Option ChunkVal)) (sig : String)
    (hargs : args.map chunkLen = (if ctx.lastLength ≠ 0 then [ctx.lastLength] else []) ++ [0]) :
    ∃ (outs : List String) (sig'' : String),
      runChunkSigner ctx ⟨sig, ctx.bodyLength - ctx.lastLength, false⟩ args =
        .ok (outs, ⟨sig'', ctx.bodyLength, true⟩) ∧
      (outs.map byteLen).sum =
        (if ctx.lastLength ≠ 0 then
           (if ctx.bodyLength = ctx.lastLength then 0 else 2) +
             (chunkHeaderStr ctx.lastLength).length + 66
         else 0) +
        ((if ctx.bodyLength = 0 then 0 else 2) + 86) ∧
      sig''.length = 64 ∧
      outs.getLast? = some ((if ctx.bodyLength = 0 then "" else CRLF) ++ finalHeaderStr ++
        sig'' ++ CRLF ++ CRLF) := by
  have hfinal : ∀ (s : String) (a0 : Option ChunkVal), chunkLen a0 = 0 →
      ∃ sig'' : String,
        chunkSignerStep ctx ⟨s, ctx.bodyLength, false⟩ a0 =
          .ok ((if ctx.bodyLength = 0 then "" else CRLF) ++ finalHeaderStr ++ sig'' ++
                CRLF ++ CRLF,
               ⟨sig'', ctx.bodyLength, true⟩) ∧
        sig''.length = 64 ∧
        byteLen ((if ctx.bodyLength = 0 then "" else CRLF) ++ finalHeaderStr ++ sig'' ++
          CRLF ++ CRLF) = (if ctx.bodyLength = 0 then 0 else 2) + 86 := by
    intro s a0 ha0
    have hexp : expectedChunkLen ctx ⟨s, ctx.bodyLength, false⟩ = 0 := by
      unfold expectedChunkLen
      rw [if_pos (by omega : (ctx.bodyLength - ctx.bodyLength < ctx.chunkLength)),
        if_neg (by omega : ¬(ctx.bodyLength ≠ ctx.bodyLength))]
    have hhdr : expectedChunkHeader ctx ⟨s, ctx.bodyLength, false⟩ = finalHeaderStr := by
      unfold expectedChunkHeader
      rw [if_pos (by omega : (ctx.bodyLength - ctx.bodyLength < ctx.chunkLength)),
        if_neg (by omega : ¬(ctx.bodyLength ≠ ctx.bodyLength))]
    have hstep := chunkSignerStep_ok ctx s ctx.bodyLength a0 (by rw [ha0, hexp])
    rw [hexp, hhdr] at hstep
    rw [show (if ((0 : Nat) ≠ 0) then ("" : String) else CRLF) = CRLF from rfl,
      show decide ((0 : Nat) = 0) = true from rfl, Nat.add_zero] at hstep
    refine ⟨bytesToHex (signChunk s EMPTY_HASH (chunkHashBody a0) ctx.timestamp ctx.signing),
      ?_, ?_, ?_⟩
    · exact hstep
    · rw [show ∀ bs : List Nat, (bytesToHex bs).length = 2 * bs.length
          from bytesToHex_length, signChunk_length]
    · rw [byteLen_append, byteLen_append, byteLen_append, byteLen_append,
        byteLen_bytesToHex, signChunk_length, byteLen_CRLF, byteLen_finalHeaderStr]
      by_cases hb : ctx.bodyLength = 0 <;> simp [hb, byteLen_CRLF, byteLen_empty]
  by_cases hl : ctx.lastLength = 0
  · rw [if_neg (by omega : ¬(ctx.lastLength ≠ 0)), List.nil_append] at hargs
    obtain ⟨a0, rfl, ha0⟩ : ∃ a0, args = [a0] ∧ chunkLen a0 = 0 := by
      cases args with
      | nil => simp at hargs
      | cons a as =>
        cases as with
        | nil => exact ⟨a, rfl, by simpa using hargs⟩
        | cons b bs => simp at hargs
    obtain ⟨sig'', hstep, hlen, hbl⟩ := hfinal sig a0 ha0
    refine ⟨[(if ctx.bodyLength = 0 then "" else CRLF) ++ finalHeaderStr ++ sig'' ++
      CRLF ++ CRLF], sig'', ?_, ?_, hlen, by simp⟩
    · rw [hl, Nat.sub_zero, runChunkSigner_cons _ _ _ _ _ _ hstep, runChunkSigner_nil]
    · rw [if_neg (by omega : ¬(ctx.lastLength ≠ 0))]
      simp only [List.map_cons, List.map_nil, List.sum_cons, List.sum_nil, hbl]
      omega
  · rw [if_pos hl] at hargs
    obtain ⟨a1, a0, rfl, ha1, ha0⟩ :
        ∃ a1 a0, args = [a1, a0] ∧ chunkLen a1 = ctx.lastLength ∧ chunkLen a0 = 0 := by
      cases args with
      | nil => simp at hargs
      | cons a as =>
        cases as with
        | nil => simp at hargs
        | cons b bs =>
          cases bs with
          | nil =>
            simp only [List.map_cons, List.map_nil, List.cons_append, List.nil_append,
              List.cons.injEq, and_true] at hargs
            exact ⟨a, b, rfl, hargs.1, hargs.2⟩
          | cons c cs => simp at hargs
    have hexp1 : expectedChunkLen ctx ⟨sig, ctx.bodyLength - ctx.lastLength, false⟩ =
        ctx.lastLength := by
      unfold expectedChunkLen
      rw [if_pos (by omega : ctx.bodyLength - (ctx.bodyLength - ctx.lastLength) <
          ctx.chunkLength),
        if_pos (by omega : ctx.bodyLength - ctx.lastLength ≠ ctx.bodyLength)]
    have hhdr1 : expectedChunkHeader ctx ⟨sig, ctx.bodyLength - ctx.lastLength, false⟩ =
        chunkHeaderStr ctx.lastLength := by
      unfold expectedChunkHeader
      rw [if_pos (by omega : ctx.bodyLength - (ctx.bodyLength - ctx.lastLength) <
          ctx.chunkLength),
        if_pos (by omega : ctx.bodyLength - ctx.lastLength ≠ ctx.bodyLength)]
    have hstep1 := chunkSignerStep_ok ctx sig (ctx.bodyLength - ctx.lastLength) a1
      (by rw [ha1, hexp1])
    rw [hexp1, hhdr1] at hstep1
    rw [show decide (ctx.lastLength = 0) = false from decide_eq_false hl] at hstep1
    rw [show (if ctx.lastLength ≠ 0 then ("" : String) else CRLF) = "" from if_pos hl]
      at hstep1
    rw [String.append_empty] at hstep1
    rw [show ctx.bodyLength - ctx.lastLength + ctx.lastLength = ctx.bodyLength by omega]
      at hstep1
    set sig1 := bytesToHex (signChunk sig EMPTY_HASH (chunkHashBody a1)
      ctx.timestamp ctx.signing) with hsig1
    obtain ⟨sig'', hstep0, hlen, hbl⟩ := hfinal sig1 a0 ha0
    refine ⟨[(if ctx.bodyLength = ctx.lastLength then "" else CRLF) ++
        chunkHeaderStr ctx.lastLength ++ sig1 ++ CRLF,
      (if ctx.bodyLength = 0 then "" else CRLF) ++ finalHeaderStr ++ sig'' ++ CRLF ++ CRLF],
      sig'', ?_, ?_, hlen, by simp⟩
    · rw [runChunkSigner_cons _ _ _ _ _ _ hstep1,
        runChunkSigner_cons _ _ _ _ _ _ hstep0, runChunkSigner_nil]
    · have hb1 : byteLen ((if ctx.bodyLength = ctx.lastLength then "" else CRLF) ++
          chunkHeaderStr ctx.lastLength ++ sig1 ++ CRLF) =
          (if ctx.bodyLength = ctx.lastLength then 0 else 2) +
            (chunkHeaderStr ctx.lastLength).length + 66 := by
        rw [byteLen_append, byteLen_append, byteLen_append, hsig1,
          byteLen_bytesToHex, signChunk_length, byteLen_chunkHeaderStr, byteLen_CRLF]
        by_cases hb : ctx.bodyLength = ctx.lastLength
        · rw [if_pos hb, if_pos hb, byteLen_empty]
        · rw [if_neg hb, if_neg hb, byteLen_CRLF]
      rw [if_pos hl]
      simp only [List.map_cons, List.map_nil, List.sum_cons, List.sum_nil, hb1, hbl]
      omega

theorem char_toNat_ofNat {n : Nat} (h : n.isValidChar) : (Char.ofNat n).toNat = n := by
  simp [Char.ofNat, h, Char.ofNatAux, Char.toNat, UInt32.toNat]

theorem toLower_idem (c : Char) : c.toLower.toLower = c.toLower := by
  unfold Char.toLower
  by_cases h : c.toNat ≥ 65 ∧ c.toNat ≤ 90
  · rw [if_pos h]
    have h32 : (Char.ofNat (c.toNat + 32)).toNat = c.toNat + 32 :=
      char_toNat_ofNat (Or.inl (by omega))
    rw [if_neg (by rw [h32]; omega)]
  · rw [if_neg h, if_neg h]

theorem jsToLower_idem (s : String) : jsToLower (jsToLower s) = jsToLower s := by
  simp only [jsToLower, List.map_map]
  exact congrArg String.mk (List.map_congr_left (fun c _ => toLower_idem c))

theorem getHeader_fst_lower (h : Option Headers) (n : String) :
    jsToLower (getHeader h n).1 = jsToLower n := by
  unfold getHeader
  cases h with
  | none => exact jsToLower_idem n
  | some hs =>
    cases hfind : hs.find? (fun kv => jsToLower kv.1 = jsToLower n) with
    | none => simp only [hfind]; exact jsToLower_idem n
    | some kv =>
      simp only [hfind]
      have := List.find?_some hfind
      simpa using this

theorem lookupStr_middle (pre : List (String × String)) (k v : String)
    (rest : List (String × String)) (h : ∀ e ∈ pre, e.1 ≠ k) :
    lookupStr (pre ++ [(k, v)] ++ rest) k = some v := by
  induction pre with
  | nil => simp [lookupStr, List.find?]
  | cons e pre ih =>
    have h1 : e.1 ≠ k := h e (List.mem_cons_self _ _)
    simp only [List.cons_append, lookupStr, List.find?]
    rw [show (decide (e.1 = k)) = false from decide_eq_false h1]
    exact ih (fun e he => h e (List.mem_cons_of_mem _ he))

/-- Pure arithmetic behind the chunked length accounting. -/
theorem chunked_sum_arith (b c S1 S2 Hc Hl : Nat) (hcpos : 0 < c)
    (hdm : c * (b / c) + b % c = b)
    (h1 : S1 + (if b / c = 0 then 0 else 2) = b / c * (Hc + 66) + 2 * (b / c))
    (h2 : S2 = (if b % c ≠ 0 then (if b = b % c then 0 else 2) + Hl + 66 else 0) +
          ((if b = 0 then 0 else 2) + 86)) :
    S1 + S2 + b = b + (Hc + 64 + 4) * (b / c) +
      (if b % c ≠ 0 then Hl + 64 + 4 else 0) + 18 + 64 + 4 := by
  have hKi : (Hc + 64 + 4) * (b / c) = b / c * (Hc + 66) + 2 * (b / c) := by ring
  rw [hKi]
  by_cases hK : b / c = 0 <;> by_cases hL : b % c = 0
  · have hcK : c * (b / c) = 0 := by rw [hK, Nat.mul_zero]
    have hb : b = 0 := by omega
    rw [if_pos hK] at h1
    rw [if_neg (by omega : ¬(b % c ≠ 0)), if_pos hb] at h2
    rw [if_neg (by omega : ¬(b % c ≠ 0))]
    omega
  · have hcK : c * (b / c) = 0 := by rw [hK, Nat.mul_zero]
    have hbl : b = b % c := by omega
    have hb : ¬(b = 0) := by omega
    rw [if_pos hK] at h1
    rw [if_pos (by omega : b % c ≠ 0), if_pos hbl, if_neg hb] at h2
    rw [if_pos (by omega : b % c ≠ 0)]
    omega
  · have hcK : 0 < c * (b / c) := Nat.mul_pos hcpos (Nat.pos_of_ne_zero hK)
    have hb : ¬(b = 0) := by omega
    rw [if_neg hK] at h1
    rw [if_neg (by omega : ¬(b % c ≠ 0)), if_neg hb] at h2
    rw [if_neg (by omega : ¬(b % c ≠ 0))]
    omega
  · have hcK : 0 < c * (b / c) := Nat.mul_pos hcpos (Nat.pos_of_ne_zero hK)
    have hb : ¬(b = 0) := by omega
    have hbl : ¬(b = b % c) := by omega
    rw [if_neg hK] at h1
    rw [if_pos (by omega : b % c ≠ 0), if_neg hbl, if_neg hb] at h2
    rw [if_pos (by omega : b % c ≠ 0)]
    omega

/-- Running the chunk signer over any protocol-conforming call sequence
(full chunks, then the partial chunk if any, then the terminal empty
call): it succeeds, accounts for exactly the framing overhead announced
in `totalLength`, ends in the `done` state, and its last output is the
framing of a zero-length chunk. -/
theorem runChunkSigner_protocol
    (bodyLength chunkLength : Nat) (timestamp seedSignature : String) (signing : SigningData)
    (args : List (Option ChunkVal))
    (hchunk : CHUNK_MIN ≤ chunkLength)
    (hargs : args.map chunkLen =
      List.replicate (bodyLength / chunkLength) chunkLength ++
      ((if bodyLength % chunkLength ≠ 0 then [bodyLength % chunkLength] else []) ++ [0])) :
    ∃ (outs : List String) (sigF : String),
      runChunkSigner ⟨bodyLength, chunkLength, bodyLength % chunkLength, timestamp, signing⟩
        ⟨seedSignature, 0, false⟩ args = .ok (outs, ⟨sigF, bodyLength, true⟩) ∧
      (outs.map byteLen).sum + bodyLength =
        chunkedTotalLength bodyLength chunkLength (bodyLength % chunkLength)
          (bodyLength / chunkLength) ∧
      sigF.length = 64 ∧
      outs.getLast? = some ((if bodyLength = 0 then "" else CRLF) ++ finalHeaderStr ++
        sigF ++ CRLF ++ CRLF) := by
  have hclpos : 0 < chunkLength := by
    have hmin : CHUNK_MIN = 8192 := rfl
    omega
  obtain ⟨args1, args2, rfl, hargs1, hargs2⟩ := List.map_eq_append_iff.mp hargs
  have hdm := Nat.div_add_mod bodyLength chunkLength
  have hcomm : chunkLength * (bodyLength / chunkLength) =
      bodyLength / chunkLength * chunkLength := Nat.mul_comm _ _
  obtain ⟨outs1, sig', hrun1, hsum1⟩ :=
    runChunkSigner_full_phase
      ⟨bodyLength, chunkLength, bodyLength % chunkLength, timestamp, signing⟩ hclpos
      (bodyLength / chunkLength) args1 args2 seedSignature 0 hargs1
      (by show 0 + bodyLength / chunkLength * chunkLength + bodyLength % chunkLength =
            bodyLength
          omega)
  obtain ⟨outs2, sigF, hrun2, hsum2, hlenF, hlast2⟩ :=
    runChunkSigner_tail
      ⟨bodyLength, chunkLength, bodyLength % chunkLength, timestamp, signing⟩ hclpos
      (Nat.mod_lt _ hclpos) (Nat.mod_le _ _) args2 sig' hargs2
  have hsum1R : (outs1.map byteLen).sum +
      (if 0 = 0 ∧ bodyLength / chunkLength ≠ 0 then 2 else 0) =
      bodyLength / chunkLength * ((chunkHeaderStr chunkLength).length + 66) +
        2 * (bodyLength / chunkLength) := hsum1
  have hsum2R : (outs2.map byteLen).sum =
      (if bodyLength % chunkLength ≠ 0 then
         (if bodyLength = bodyLength % chunkLength then 0 else 2) +
           (chunkHeaderStr (bodyLength % chunkLength)).length + 66
       else 0) +
      ((if bodyLength = 0 then 0 else 2) + 86) := hsum2
  have hrun2R : runChunkSigner
      ⟨bodyLength, chunkLength, bodyLength % chunkLength, timestamp, signing⟩
      ⟨sig', bodyLength - bodyLength % chunkLength, false⟩ args2 =
      .ok (outs2, ⟨sigF, bodyLength, true⟩) := hrun2
  rw [show (0 + bodyLength / chunkLength * chunkLength) =
    bodyLength - bodyLength % chunkLength from by omega] at hrun1
  rw [hrun2R] at hrun1
  have hlast2R : outs2.getLast? = some ((if bodyLength = 0 then "" else CRLF) ++
      finalHeaderStr ++ sigF ++ CRLF ++ CRLF) := hlast2
  have houts2ne : outs2 ≠ [] := by
    intro h
    rw [h] at hlast2R
    simp at hlast2R
  refine ⟨outs1 ++ outs2, sigF, by rw [hrun1], ?_, hlenF, ?_⟩
  · have h1 : (outs1.map byteLen).sum + (if bodyLength / chunkLength = 0 then 0 else 2) =
        bodyLength / chunkLength * ((chunkHeaderStr chunkLength).length + 66) +
          2 * (bodyLength / chunkLength) := by
      rw [show (if bodyLength / chunkLength = 0 then (0 : Nat) else 2) =
          (if 0 = 0 ∧ bodyLength / chunkLength ≠ 0 then 2 else 0) from by
        by_cases hK : bodyLength / chunkLength = 0 <;> simp [hK]]
      exact hsum1R
    have hfin := chunked_sum_arith bodyLength chunkLength
      (outs1.map byteLen).sum (outs2.map byteLen).sum
      (chunkHeaderStr chunkLength).length
      (chunkHeaderStr (bodyLength % chunkLength)).length hclpos hdm h1 hsum2R
    rw [List.map_append, List.sum_append]
    unfold chunkedTotalLength
    rw [finalHeaderStr_length]
    by_cases hL : bodyLength % chunkLength ≠ 0
    · rw [if_pos hL] at hfin ⊢
      omega
    · rw [if_neg hL] at hfin ⊢
      omega
  · rw [List.getLast?_append_of_ne_nil _ houts2ne, hlast2R]

theorem signS3ChunkedSetup_ok (headers : Option Headers) (bodyLength chunkLength : Nat)
    (hchunk : CHUNK_MIN ≤ chunkLength) :
    ∃ extra,
      signS3ChunkedSetup headers bodyLength chunkLength =
        .ok (extra, chunkedTotalLength bodyLength chunkLength (bodyLength % chunkLength)
          (bodyLength / chunkLength)) ∧
      lookupStr extra (getHeader headers "content-length").1 =
        some (natToDec (chunkedTotalLength bodyLength chunkLength (bodyLength % chunkLength)
          (bodyLength / chunkLength))) := by
  have hclpos : 0 < chunkLength := by
    have hmin : CHUNK_MIN = 8192 := rfl
    omega
  have hdm := Nat.div_add_mod bodyLength chunkLength
  have hcomm : chunkLength * (bodyLength / chunkLength) =
      bodyLength / chunkLength * chunkLength := Nat.mul_comm _ _
  have hcc : calculateChunks bodyLength chunkLength =
      .ok (bodyLength / chunkLength, bodyLength % chunkLength) := by
    unfold calculateChunks
    rw [if_neg (by omega)]
    show Except.ok (bodyLength / chunkLength,
      bodyLength - bodyLength / chunkLength * chunkLength) = _
    rw [show bodyLength - bodyLength / chunkLength * chunkLength =
      bodyLength % chunkLength from by omega]
  have hlow2 : jsToLower (getHeader headers "content-length").1 = "content-length" := by
    rw [getHeader_fst_lower]
    decide
  rcases henc : getHeader headers "content-encoding" with ⟨encName, encVal⟩
  have hlow1 : jsToLower encName = "content-encoding" := by
    have h := getHeader_fst_lower headers "content-encoding"
    rw [henc] at h
    rw [show jsToLower "content-encoding" = "content-encoding" from by decide] at h
    exact h
  have hne : encName ≠ (getHeader headers "content-length").1 := by
    intro h
    rw [h, hlow2] at hlow1
    exact absurd hlow1 (by decide)
  set T := chunkedTotalLength bodyLength chunkLength (bodyLength % chunkLength)
    (bodyLength / chunkLength) with hT
  unfold signS3ChunkedSetup
  rw [hcc, henc]
  cases encVal with
  | none =>
    refine ⟨[(encName, "aws-chunked")] ++
      [((getHeader headers "content-length").1, natToDec T)] ++
      [("x-amz-decoded-content-length", natToDec bodyLength)], rfl, ?_⟩
    exact lookupStr_middle [(encName, "aws-chunked")] _ _ _
      (by intro e he; rw [List.mem_singleton] at he; rw [he]; exact hne)
  | some enc =>
    refine ⟨(if enc ≠ "" ∧ matchesAwsChunked enc = true then []
        else [(encName, "aws-chunked" ++ if enc ≠ "" then "," ++ enc else "")]) ++
      [((getHeader headers "content-length").1, natToDec T)] ++
      [("x-amz-decoded-content-length", natToDec bodyLength)], rfl, ?_⟩
    by_cases hmatch : enc ≠ "" ∧ matchesAwsChunked enc = true
    · rw [if_pos hmatch]
      exact lookupStr_middle [] _ _ _ (by intro e he; cases he)
    · rw [if_neg hmatch]
      exact lookupStr_middle [(encName, "aws-chunked" ++ (if enc ≠ "" then "," ++ enc else ""))]
        _ _ _ (by intro e he; rw [List.mem_singleton] at he; rw [he]; exact hne)

/-- C2: for any protocol-conforming sequence of chunk-signer calls, the
sum of the byte lengths of all returned framing strings plus
`bodyLength` equals the `content-length` value that
`signS3ChunkedRequest` announces in the signed headers, and the final
call (with no data) returns the framing of a zero-length chunk. -/
theorem signS3ChunkedRequest_length_accounting
    (headers : Option Headers) (bodyLength chunkLength : Nat)
    (timestamp seedSignature : String) (signing : SigningData)
    (args : List (Option ChunkVal))
    (hchunk : CHUNK_MIN ≤ chunkLength)
    (hargs : args.map chunkLen =
      List.replicate (bodyLength / chunkLength) chunkLength ++
      ((if bodyLength % chunkLength ≠ 0 then [bodyLength % chunkLength] else []) ++ [0])) :
    ∃ (extra : List (String × String)) (outs : List String) (sigF : String),
      signS3ChunkedSetup headers bodyLength chunkLength =
        .ok (extra, chunkedTotalLength bodyLength chunkLength (bodyLength % chunkLength)
          (bodyLength / chunkLength)) ∧
      lookupStr extra (getHeader headers "content-length").1 =
        some (natToDec (chunkedTotalLength bodyLength chunkLength (bodyLength % chunkLength)
          (bodyLength / chunkLength))) ∧
      runChunkSigner ⟨bodyLength, chunkLength, bodyLength % chunkLength, timestamp, signing⟩
        ⟨seedSignature, 0, false⟩ args = .ok (outs, ⟨sigF, bodyLength, true⟩) ∧
      (outs.map byteLen).sum + bodyLength =
        chunkedTotalLength bodyLength chunkLength (bodyLength % chunkLength)
          (bodyLength / chunkLength) ∧
      outs.getLast? = some ((if bodyLength = 0 then "" else CRLF) ++ finalHeaderStr ++
        sigF ++ CRLF ++ CRLF) := by
  obtain ⟨extra, hsetup, hlookup⟩ := signS3ChunkedSetup_ok headers bodyLength chunkLength hchunk
  obtain ⟨outs, sigF, hrun, hsum, _, hlast⟩ := runChunkSigner_protocol bodyLength chunkLength
    timestamp seedSignature signing args hchunk hargs
  exact ⟨extra, outs, sigF, hsetup, hlookup, hrun, hsum, hlast⟩

/-- Witness for the C2 theorem at `bodyLength = 0`,
`chunkLength = 8192`: the hypotheses hold and the theorem applies. -/
theorem signS3ChunkedRequest_length_accounting_witness :
    (CHUNK_MIN ≤ 8192 ∧
      ([Option.none (α := ChunkVal)].map chunkLen =
        List.replicate (0 / 8192) 8192 ++ ((if 0 % 8192 ≠ 0 then [0 % 8192] else []) ++ [0]))) ∧
    (∃ (extra : List (String × String)) (outs : List String) (sigF : String),
      signS3ChunkedSetup none 0 8192 =
        .ok (extra, chunkedTotalLength 0 8192 (0 % 8192) (0 / 8192)) ∧
      lookupStr extra (getHeader none "content-length").1 =
        some (natToDec (chunkedTotalLength 0 8192 (0 % 8192) (0 / 8192))) ∧
      runChunkSigner ⟨0, 8192, 0 % 8192, "ts", ⟨[0], "sc"⟩⟩
        ⟨"seed", 0, false⟩ [Option.none (α := ChunkVal)] = .ok (outs, ⟨sigF, 0, true⟩) ∧
      (outs.map byteLen).sum + 0 =
        chunkedTotalLength 0 8192 (0 % 8192) (0 / 8192) ∧
      outs.getLast? = some ((if (0 : Nat) = 0 then "" else CRLF) ++ finalHeaderStr ++
        sigF ++ CRLF ++ CRLF)) :=
  ⟨⟨by decide, by decide⟩,
   signS3ChunkedRequest_length_accounting none 0 8192 "ts" "seed" ⟨[0], "sc"⟩
     [Option.none (α := ChunkVal)] (by decide) (by decide)⟩

/-- C4: the chunk signer fails loudly on protocol violations.  For any
accepted `bodyLength`/`chunkLength`: (1) in any state already marked
done, every call throws; (2) in any live state, a call whose chunk
length differs from the expected one (the full `chunkLength` while full
chunks remain, the partial last length when only the partial remains, 0
for the terminal call) throws; and (3) after a complete protocol run
the machine is done, so every further call throws. -/
theorem chunkSigner_protocol_violations
    (bodyLength chunkLength : Nat) (timestamp seedSignature : String) (signing : SigningData)
    (args : List (Option ChunkVal))
    (hchunk : CHUNK_MIN ≤ chunkLength)
    (hargs : args.map chunkLen =
      List.replicate (bodyLength / chunkLength) chunkLength ++
      ((if bodyLength % chunkLength ≠ 0 then [bodyLength % chunkLength] else []) ++ [0])) :
    (∀ (st : ChunkState) (arg : Option ChunkVal), st.done = true →
      chunkSignerStep ⟨bodyLength, chunkLength, bodyLength % chunkLength, timestamp, signing⟩
        st arg = .error "Payload is complete, no more calls are needed") ∧
    (∀ (st : ChunkState) (arg : Option ChunkVal), st.done = false →
      chunkLen arg ≠ expectedChunkLen
        ⟨bodyLength, chunkLength, bodyLength % chunkLength, timestamp, signing⟩ st →
      chunkSignerStep ⟨bodyLength, chunkLength, bodyLength % chunkLength, timestamp, signing⟩
        st arg = .error ("Unexpected chunk size (got " ++
          (match arg with
           | none => "undefined"
           | some c => natToDec (chunkLen (some c))) ++
          ", expected " ++ natToDec (expectedChunkLen
            ⟨bodyLength, chunkLength, bodyLength % chunkLength, timestamp, signing⟩ st) ++
          ")")) ∧
    (∃ (outs : List String) (sigF : String),
      runChunkSigner ⟨bodyLength, chunkLength, bodyLength % chunkLength, timestamp, signing⟩
        ⟨seedSignature, 0, false⟩ args = .ok (outs, ⟨sigF, bodyLength, true⟩) ∧
      ∀ arg, chunkSignerStep
        ⟨bodyLength, chunkLength, bodyLength % chunkLength, timestamp, signing⟩
        ⟨sigF, bodyLength, true⟩ arg =
          .error "Payload is complete, no more calls are needed") := by
  have hdone : ∀ (st : ChunkState) (arg : Option ChunkVal), st.done = true →
      chunkSignerStep ⟨bodyLength, chunkLength, bodyLength % chunkLength, timestamp, signing⟩
        st arg = .error "Payload is complete, no more calls are needed" := by
    intro st arg h
    unfold chunkSignerStep
    rw [if_pos h]
  refine ⟨hdone, ?_, ?_⟩
  · intro st arg h hne
    unfold chunkSignerStep
    rw [if_neg (by rw [h]; exact Bool.false_ne_true), if_pos hne]
  · obtain ⟨outs, sigF, hrun, _, _, _⟩ := runChunkSigner_protocol bodyLength chunkLength
      timestamp seedSignature signing args hchunk hargs
    exact ⟨outs, sigF, hrun, fun arg => hdone _ arg rfl⟩

/-- Witness for the C4 theorem at `bodyLength = 0`,
`chunkLength = 8192`. -/
theorem chunkSigner_protocol_violations_witness :
    (CHUNK_MIN ≤ 8192 ∧
      ([Option.none (α := ChunkVal)].map chunkLen =
        List.replicate (0 / 8192) 8192 ++ ((if 0 % 8192 ≠ 0 then [0 % 8192] else []) ++ [0]))) ∧
    ((∀ (st : ChunkState) (arg : Option ChunkVal), st.done = true →
      chunkSignerStep ⟨0, 8192, 0 % 8192, "ts", ⟨[0], "sc"⟩⟩
        st arg = .error "Payload is complete, no more calls are needed") ∧
    (∀ (st : ChunkState) (arg : Option ChunkVal), st.done = false →
      chunkLen arg ≠ expectedChunkLen ⟨0, 8192, 0 % 8192, "ts", ⟨[0], "sc"⟩⟩ st →
      chunkSignerStep ⟨0, 8192, 0 % 8192, "ts", ⟨[0], "sc"⟩⟩
        st arg = .error ("Unexpected chunk size (got " ++
          (match arg with
           | none => "undefined"
           | some c => natToDec (chunkLen (some c))) ++
          ", expected " ++ natToDec (expectedChunkLen
            ⟨0, 8192, 0 % 8192, "ts", ⟨[0], "sc"⟩⟩ st) ++ ")")) ∧
    (∃ (outs : List String) (sigF : String),
      runChunkSigner ⟨0, 8192, 0 % 8192, "ts", ⟨[0], "sc"⟩⟩
        ⟨"seed", 0, false⟩ [Option.none (α := ChunkVal)] = .ok (outs, ⟨sigF, 0, true⟩) ∧
      ∀ arg, chunkSignerStep ⟨0, 8192, 0 % 8192, "ts", ⟨[0], "sc"⟩⟩
        ⟨sigF, 0, true⟩ arg =
          .error "Payload is complete, no more calls are needed")) :=
  ⟨⟨by decide, by decide⟩,
   chunkSigner_protocol_violations 0 8192 "ts" "seed" ⟨[0], "sc"⟩
     [Option.none (α := ChunkVal)] (by decide) (by decide)⟩

/-! ## Port of `src/util/crc32.ts` and `src/events.ts` -/

/-- One bit-step of the CRC-32 table computation
(`(c>>>1) ^ ((c&1) * 0xEDB88320)`). -/
def crcStep (c : Nat) : Nat := (c >>> 1) ^^^ ((c &&& 1) * 0xEDB88320)

/-- One entry of the table `T` (eight bit-steps applied to the index).
The source materializes the 256-entry `Int32Array`; entries are only
ever used as operands of `^`, so we keep the unsigned 32-bit view. -/
def crcTableEntry (n : Nat) : Nat := (List.range 8).foldl (fun c _ => crcStep c) n

/-- Reinterpret an unsigned 32-bit value as a signed `Int32`
(the JS `x ^ -1` / `Int32Array` view). -/
def toInt32 (u : Nat) : Int :=
  if u < 2147483648 then (u : Int) else (u : Int) - 4294967296

/-- `crc32` (util/crc32.ts): IEEE-polynomial reflected CRC-32 with
initial value `0xFFFFFFFF` and final complement, returned as a signed
32-bit number.  The source's 4-way unrolled loop over a signed state is
the same fold in the unsigned 32-bit domain (`>>>` yields the unsigned
view and `&`, `^` agree on the low 32 bits); the missing `seed` makes
the initial state `undefined ^ -1 = -1`, i.e. `0xFFFFFFFF`. -/
def crc32 (buf : List Nat) : Int :=
  let C := buf.foldl (fun C b => (C >>> 8) ^^^ crcTableEntry ((C ^^^ b) &&& 0xFF)) 0xFFFFFFFF
  toInt32 (C ^^^ 0xFFFFFFFF)

/-- Event header values (events.ts `HeaderValue`).  JS `number` values
are modelled as `Int`, `bigint` as `Int`, and `Date` by its
milliseconds-since-epoch value. -/
inductive HeaderValue where
  | string (s : String)
  | buffer (b : List Nat)
  | uuid (b : List Nat)
  | s64 (i : Int)
  | s32 (i : Int)
  | s16 (i : Int)
  | s8 (i : Int)
  | boolean (b : Bool)
  | timestamp (ms : Int)
deriving Repr, DecidableEq

/-- Big-endian bytes of `n % 256^w` over `w` bytes. -/
def beBytes : Nat → Nat → List Nat
  | 0, _ => []
  | w + 1, n => (n / 256 ^ w) % 256 :: beBytes w n

/-- Big-endian read of a byte list (`readUIntBE`). -/
def readBE (bs : List Nat) : Nat := bs.foldl (fun a b => a * 256 + b) 0

/-- Signed reinterpretation of a `w`-byte big-endian value
(`readIntBE` family). -/
def toSignedW (w u : Nat) : Int :=
  if u < 2 ^ (8 * w - 1) then (u : Int) else (u : Int) - 2 ^ (8 * w)

/-- `Buffer.prototype.writeIntBE`-family: two's-complement big-endian
bytes of `i` over `w` bytes, or an out-of-range error (Node throws
`ERR_OUT_OF_RANGE`). -/
def intBE (w : Nat) (i : Int) : Except String (List Nat) :=
  if i < -(2 ^ (8 * w - 1)) ∨ (2 ^ (8 * w - 1) : Int) ≤ i then .error "Value out of range"
  else .ok (beBytes w (Int.toNat (i % 2 ^ (8 * w))))

/-- `encodeHeaderValue` (events.ts): the wire type byte and the encoded
value bytes; the `TYPE_*` constants of the source are inlined as numerals. -/
def encodeHeaderValue : HeaderValue → Except String (Nat × List Nat)
  | .string s =>
    let data := utf8Bytes s
    if data.length > 0xFFFF then .error "Header value is too big"
    else .ok (7, beBytes 2 data.length ++ data)
  | .buffer b =>
    if b.length > 0xFFFF then .error "Header value is too big"
    else .ok (6, beBytes 2 b.length ++ b)
  | .boolean b => .ok (if b then 0 else 1, [])
  | .s8 i =>
    match intBE 1 i with
    | .error e => .error e
    | .ok bs => .ok (2, bs)
  | .s16 i =>
    match intBE 2 i with
    | .error e => .error e
    | .ok bs => .ok (3, bs)
  | .s32 i =>
    match intBE 4 i with
    | .error e => .error e
    | .ok bs => .ok (4, bs)
  | .s64 i =>
    match intBE 8 i with
    | .error e => .error e
    | .ok bs => .ok (5, bs)
  | .timestamp ms =>
    match intBE 8 ms with
    | .error e => .error e
    | .ok bs => .ok (8, bs)
  | .uuid b =>
    if b.length ≠ 16 then .error "UUID data has invalid length"
    else .ok (9, b)

/-- Ordered event headers (events.ts `HeaderArray`). -/
abbrev HeaderArray : Type := List (String × HeaderValue)

/-- `encodeHeaders` (events.ts): length-prefixed name, type byte and
value for each header, concatenated. -/
def encodeHeaders : HeaderArray → Except String (List Nat)
  | [] => .ok []
  | (nameStr, valueObj) :: rest =>
    let name := utf8Bytes nameStr
    if name.length > 0xFF then .error "Header name is too big"
    else
      match encodeHeaderValue valueObj with
      | .error e => .error e
      | .ok (t, value) =>
        match encodeHeaders rest with
        | .error e => .error e
        | .ok tail => .ok (name.length :: (name ++ t :: (value ++ tail)))

/-- `encodeEventHeaders` (events.ts): the 12-byte prelude (total
length, headers length, prelude CRC) followed by the encoded headers.
`writeUInt32BE` range-checks the total length. -/
def encodeEventHeaders (headers : HeaderArray) (dataLength : Nat) :
    Except String (List Nat) :=
  match encodeHeaders headers with
  | .error e => .error e
  | .ok headersData =>
    let total := 12 + headersData.length + dataLength + 4
    if total > 0xFFFFFFFF then .error "Value out of range"
    else
      let pre := beBytes 4 total ++ beBytes 4 headersData.length
      .ok (pre ++ beBytes 4 (Int.toNat (crc32 pre % 2 ^ 32)) ++ headersData)

/-- `encodeEvent` (events.ts): prelude, headers, payload, message CRC. -/
def encodeEvent (headers : HeaderArray) (data : List Nat) : Except String (List Nat) :=
  match encodeEventHeaders headers data.length with
  | .error e => .error e
  | .ok eventHeaders =>
    let body := eventHeaders ++ data
    .ok (body ++ beBytes 4 (Int.toNat (crc32 body % 2 ^ 32)))

/-- The value-parsing part of the `decodeHeaders` loop (events.ts):
given the type byte and the remaining bytes, parse one value and
return it with the rest of the input. -/
def decodeHeaderValue (t : Nat) (rest2 : List Nat) :
    Except String (HeaderValue × List Nat) :=
  if t = 0 ∨ t = 1 then .ok (.boolean (t = 0), rest2)
  else if t = 6 ∨ t = 7 then
    if rest2.length < 2 then .error "Headers ended unexpectedly"
    else if (rest2.drop 2).length < readBE (rest2.take 2) then
      .error "Headers ended unexpectedly"
    else
      .ok (if t = 7 then .string (utf8DecodeStr ((rest2.drop 2).take (readBE (rest2.take 2))))
        else .buffer ((rest2.drop 2).take (readBE (rest2.take 2))),
        (rest2.drop 2).drop (readBE (rest2.take 2)))
  else if t = 2 then
    if rest2.length < 1 then .error "Headers ended unexpectedly"
    else .ok (.s8 (toSignedW 1 (readBE (rest2.take 1))), rest2.drop 1)
  else if t = 3 then
    if rest2.length < 2 then .error "Headers ended unexpectedly"
    else .ok (.s16 (toSignedW 2 (readBE (rest2.take 2))), rest2.drop 2)
  else if t = 4 then
    if rest2.length < 4 then .error "Headers ended unexpectedly"
    else .ok (.s32 (toSignedW 4 (readBE (rest2.take 4))), rest2.drop 4)
  else if t = 5 then
    if rest2.length < 8 then .error "Headers ended unexpectedly"
    else .ok (.s64 (toSignedW 8 (readBE (rest2.take 8))), rest2.drop 8)
  else if t = 8 then
    if rest2.length < 8 then .error "Headers ended unexpectedly"
    else .ok (.timestamp (toSignedW 8 (readBE (rest2.take 8))), rest2.drop 8)
  else if t = 9 then
    if rest2.length < 16 then .error "Headers ended unexpectedly"
    else .ok (.uuid (rest2.take 16), rest2.drop 16)
  else .error ("Unknown header type " ++ natToDec t)

/-- The loop of `decodeHeaders` (events.ts), consuming from the front;
fuel-based so the kernel can evaluate it (one unit per header; the
wrapper passes the byte count, which is plentiful as each header
consumes at least two bytes). -/
def decodeHeadersGo : Nat → List Nat → Except String HeaderArray
  | _, [] => .ok []
  | 0, _ :: _ => .error "Headers ended unexpectedly"
  | fuel + 1, nameLength :: rest =>
    if rest.length < nameLength then .error "Headers ended unexpectedly"
    else if (rest.drop nameLength).length < 1 then .error "Headers ended unexpectedly"
    else
      match decodeHeaderValue ((rest.drop nameLength).getD 0 0)
          ((rest.drop nameLength).drop 1) with
      | .error e => .error e
      | .ok (value, rest') =>
        match decodeHeadersGo fuel rest' with
        | .error e => .error e
        | .ok r => .ok ((utf8DecodeStr (rest.take nameLength), value) :: r)

/-- The duplicate check of `decodeHeaders` (building the keyed headers
object; `hasOwnProperty` collisions throw). -/
def buildHeaderObject : HeaderArray → HeaderArray → Except String HeaderArray
  | acc, [] => .ok acc
  | acc, (n, v) :: rest =>
    if acc.any (fun kv => kv.1 = n) then .error ("Duplicate header " ++ n ++ " found")
    else buildHeaderObject (acc ++ [(n, v)]) rest

/-- Result of `decodeHeaders`. -/
structure DecodedHeaders where
  rawHeaders : HeaderArray
  headers : HeaderArray
deriving Repr, DecidableEq

/-- `decodeHeaders` (events.ts). -/
def decodeHeaders (data : List Nat) : Except String DecodedHeaders :=
  match decodeHeadersGo data.length data with
  | .error e => .error e
  | .ok result =>
    match buildHeaderObject [] result with
    | .error e => .error e
    | .ok headers => .ok ⟨result, headers⟩

/-- Result of `decodeEvent`. -/
structure DecodedEvent where
  rawHeaders : HeaderArray
  headers : HeaderArray
  data : List Nat
deriving Repr, DecidableEq

/-- The message of `checkCRC` (events.ts). -/
def crcMessage (name : String) (actual expected : Int) : String :=
  name ++ " CRC doesn't match (got " ++ toString actual ++ ", calculated " ++
    toString expected ++ ")"

/-- `decodeEvent` (events.ts): strict length and double-CRC validation,
then header decoding. -/
def decodeEvent (event : List Nat) : Except String DecodedEvent :=
  if event.length < 12 then .error "Event data ended unexpectedly"
  else if readBE (event.take 4) ≠ event.length then .error "Total length doesn't match"
  else
    let headersLength := readBE ((event.drop 4).take 4)
    let preludeActual := toSignedW 4 (readBE ((event.drop 8).take 4))
    if preludeActual ≠ crc32 (event.take 8) then
      .error (crcMessage "prelude" preludeActual (crc32 (event.take 8)))
    else
      let dataStart := 12 + headersLength
      let dataEnd := event.length - 4
      if dataStart > dataEnd then .error "Invalid header length"
      else
        let headers := (event.drop 12).take headersLength
        let data := (event.drop dataStart).take (dataEnd - dataStart)
        let messageActual := toSignedW 4 (readBE (event.drop dataEnd))
        if messageActual ≠ crc32 (event.take dataEnd) then
          .error (crcMessage "message" messageActual (crc32 (event.take dataEnd)))
        else
          match decodeHeaders headers with
          | .error e => .error e
          | .ok dh => .ok ⟨dh.rawHeaders, dh.headers, data⟩

deriving instance DecidableEq for Except

/-- C10: Encoding does not enforce the decoder's duplicate-name rule:
for the header array [("a", true), ("a", true)] - within every size
limit (1-byte name, boolean values) - `encodeEvent` succeeds, yet
`decodeEvent` of the produced frame throws the duplicate-header
error, so the round-trip fails although encoding reported no error. -/
theorem encode_accepts_duplicate_headers_decode_throws :
    (encodeEvent [("a", .boolean true), ("a", .boolean true)] []).toOption.isSome = true ∧
    (encodeEvent [("a", .boolean true), ("a", .boolean true)] []).bind decodeEvent =
      .error "Duplicate header a found" := by
  decide

/-! ## UTF-8 decode/encode round-trip -/

theorem char_eq_of_toNat {a b : Char} (h : a.toNat = b.toNat) : a = b := by
  apply Char.ext
  apply UInt32.ext
  exact h

theorem charOrRepl_toNat (c : Char) : charOrRepl c.toNat = c := by
  have hv : Nat.isValidChar c.toNat := c.valid
  have hvs : validScalar c.toNat := by
    unfold validScalar
    rcases hv with h | h
    · exact Or.inl h
    · exact Or.inr (by omega)
  rw [charOrRepl, if_pos hvs]
  exact char_eq_of_toNat (char_toNat_ofNat hv)

theorem utf8DecodeGo_encodeChar (c : Char) (fuel : Nat) (rest : List Nat) :
    utf8DecodeGo (fuel + 1) (utf8EncodeChar c ++ rest) = c :: utf8DecodeGo fuel rest := by
  have hv : Nat.isValidChar c.toNat := c.valid
  have hv' : c.toNat < 0xD800 ∨ (0xDFFF < c.toNat ∧ c.toNat < 0x110000) := hv
  have hcont : ∀ m : Nat, isCont (0x80 + m % 64) = true := by
    intro m; unfold isCont; simp only [decide_eq_true_eq]; constructor <;> omega
  unfold utf8EncodeChar
  by_cases h1 : c.toNat < 0x80
  · rw [if_pos h1]
    show utf8DecodeGo (fuel + 1) (c.toNat :: rest) = _
    conv_lhs => unfold utf8DecodeGo
    rw [if_pos h1, charOrRepl_toNat]
  · by_cases h2 : c.toNat < 0x800
    · rw [if_neg h1, if_pos h2]
      show utf8DecodeGo (fuel + 1)
        ((0xC0 + c.toNat / 64) :: (0x80 + c.toNat % 64) :: rest) = _
      conv_lhs => unfold utf8DecodeGo
      rw [if_neg (by omega), if_pos (by omega)]
      simp only [List.length_cons, List.getD_cons_zero, List.getD_cons_succ,
        List.drop_succ_cons, List.drop_zero]
      rw [if_neg (by omega), if_pos (hcont c.toNat)]
      rw [show (0xC0 + c.toNat / 64 - 0xC0) * 64 + (0x80 + c.toNat % 64 - 0x80) = c.toNat by
        omega]
      rw [charOrRepl_toNat]
    · by_cases h3 : c.toNat < 0x10000
      · rw [if_neg h1, if_neg h2, if_pos h3]
        show utf8DecodeGo (fuel + 1)
          ((0xE0 + c.toNat / 4096) :: (0x80 + c.toNat / 64 % 64) :: (0x80 + c.toNat % 64) ::
            rest) = _
        conv_lhs => unfold utf8DecodeGo
        rw [if_neg (by omega), if_neg (by omega), if_pos (by omega)]
        simp only [List.length_cons, List.getD_cons_zero, List.getD_cons_succ,
          List.drop_succ_cons, List.drop_zero]
        rw [if_neg (by omega), if_pos ⟨hcont (c.toNat / 64), hcont c.toNat⟩]
        rw [show (0xE0 + c.toNat / 4096 - 0xE0) * 4096 + (0x80 + c.toNat / 64 % 64 - 0x80) * 64 +
            (0x80 + c.toNat % 64 - 0x80) = c.toNat by omega]
        rw [charOrRepl_toNat]
      · rw [if_neg h1, if_neg h2, if_neg h3]
        show utf8DecodeGo (fuel + 1)
          ((0xF0 + c.toNat / 262144) :: (0x80 + c.toNat / 4096 % 64) ::
            (0x80 + c.toNat / 64 % 64) :: (0x80 + c.toNat % 64) :: rest) = _
        conv_lhs => unfold utf8DecodeGo
        rw [if_neg (by omega), if_neg (by omega), if_neg (by omega), if_pos (by omega)]
        simp only [List.length_cons, List.getD_cons_zero, List.getD_cons_succ,
          List.drop_succ_cons, List.drop_zero]
        rw [if_neg (by omega),
          if_pos ⟨hcont (c.toNat / 4096), hcont (c.toNat / 64), hcont c.toNat⟩]
        rw [show (0xF0 + c.toNat / 262144 - 0xF0) * 262144 +
            (0x80 + c.toNat / 4096 % 64 - 0x80) * 4096 + (0x80 + c.toNat / 64 % 64 - 0x80) * 64 +
            (0x80 + c.toNat % 64 - 0x80) = c.toNat by omega]
        rw [charOrRepl_toNat]

theorem utf8DecodeGo_flatMap (cs : List Char) : ∀ (fuel : Nat) (rest : List Nat),
    utf8DecodeGo (cs.length + fuel) (cs.flatMap utf8EncodeChar ++ rest) =
      cs ++ utf8DecodeGo fuel rest := by
  induction cs with
  | nil => intro fuel rest; simp
  | cons c cs ih =>
    intro fuel rest
    simp only [List.flatMap_cons, List.append_assoc, List.length_cons]
    rw [show cs.length + 1 + fuel = cs.length + fuel + 1 from by omega]
    have step := utf8DecodeGo_encodeChar c (cs.length + fuel) (cs.flatMap utf8EncodeChar ++ rest)
    rw [show cs.length + fuel + 1 = (cs.length + fuel) + 1 from rfl, step, ih]
    rfl

theorem utf8EncodeChar_length_pos (c : Char) : 1 ≤ (utf8EncodeChar c).length := by
  unfold utf8EncodeChar
  simp only []
  split
  · simp
  · split
    · simp
    · split <;> simp

theorem length_le_flatMap_utf8 (cs : List Char) :
    cs.length ≤ (cs.flatMap utf8EncodeChar).length := by
  induction cs with
  | nil => simp
  | cons c cs ih =>
    simp only [List.flatMap_cons, List.length_append, List.length_cons]
    have := utf8EncodeChar_length_pos c
    omega

theorem utf8DecodeGo_nilinput (fuel : Nat) : utf8DecodeGo fuel [] = [] := by
  cases fuel <;> rfl

theorem utf8DecodeStr_utf8Bytes (s : String) : utf8DecodeStr (utf8Bytes s) = s := by
  unfold utf8DecodeStr utf8Bytes
  have h := length_le_flatMap_utf8 s.data
  have h2 := utf8DecodeGo_flatMap s.data
    ((s.data.flatMap utf8EncodeChar).length - s.data.length) []
  rw [List.append_nil] at h2
  rw [show (s.data.flatMap utf8EncodeChar).length =
    s.data.length + ((s.data.flatMap utf8EncodeChar).length - s.data.length) from by omega, h2,
    utf8DecodeGo_nilinput, List.append_nil]

/-! ## Big-endian integer round-trips -/

theorem beBytes_length (w n : Nat) : (beBytes w n).length = w := by
  induction w generalizing n with
  | zero => rfl
  | succ w ih => simp [beBytes, ih]

theorem beBytes_lt (w n : Nat) : ∀ x ∈ beBytes w n, x < 256 := by
  induction w generalizing n with
  | zero => simp [beBytes]
  | succ w ih =>
    intro x hx
    rcases List.mem_cons.mp hx with h | h
    · subst h; exact Nat.mod_lt _ (by omega)
    · exact ih n x h

theorem beBytes_foldl (w : Nat) : ∀ (n a : Nat),
    (beBytes w n).foldl (fun a b => a * 256 + b) a = a * 256 ^ w + n % 256 ^ w := by
  induction w with
  | zero => intro n a; simp [beBytes, Nat.mod_one]
  | succ w ih =>
    intro n a
    rw [beBytes, List.foldl_cons, ih, pow_succ]
    calc (a * 256 + n / 256 ^ w % 256) * 256 ^ w + n % 256 ^ w
        = a * (256 ^ w * 256) + (n % 256 ^ w + 256 ^ w * (n / 256 ^ w % 256)) := by ring
      _ = a * (256 ^ w * 256) + n % (256 ^ w * 256) := by rw [Nat.mod_mul]

theorem readBE_beBytes (w n : Nat) : readBE (beBytes w n) = n % 256 ^ w := by
  rw [readBE, beBytes_foldl, Nat.zero_mul, Nat.zero_add]

theorem pow256_pow2 (w : Nat) : 256 ^ w = 2 ^ (8 * w) := by
  rw [pow_mul]
  norm_num

/-- Writing a `w`-byte two's-complement integer and reading it back as
signed recovers the integer. -/
theorem signedRoundtrip (w : Nat) (i : Int) (hw : 1 ≤ w)
    (h1 : -(2 ^ (8 * w - 1)) ≤ i) (h2 : i < 2 ^ (8 * w - 1)) :
    toSignedW w (readBE (beBytes w (Int.toNat (i % 2 ^ (8 * w))))) = i := by
  have hcastM : ((2 ^ (8 * w) : Nat) : Int) = 2 ^ (8 * w) := by norm_cast
  have hcastH : ((2 ^ (8 * w - 1) : Nat) : Int) = 2 ^ (8 * w - 1) := by norm_cast
  have hsplit : (2 ^ (8 * w) : Nat) = 2 * 2 ^ (8 * w - 1) := by
    have he : 8 * w = (8 * w - 1) + 1 := by omega
    conv_lhs => rw [he]
    rw [pow_succ]; ring
  have hMpos : (0 : Int) < 2 ^ (8 * w) := by positivity
  have hen : (0 : Int) ≤ i % 2 ^ (8 * w) := Int.emod_nonneg i (by omega)
  have helt : i % (2 ^ (8 * w) : Int) < 2 ^ (8 * w) := Int.emod_lt_of_pos i hMpos
  have hval : i % (2 ^ (8 * w) : Int) = if 0 ≤ i then i else i + 2 ^ (8 * w) := by
    split
    · exact Int.emod_eq_of_lt (by assumption) (by omega)
    · rw [show i % (2 ^ (8 * w) : Int) = (i + 2 ^ (8 * w) * 1) % 2 ^ (8 * w) from
        (Int.add_mul_emod_self_left i (2 ^ (8 * w)) 1).symm, mul_one]
      exact Int.emod_eq_of_lt (by omega) (by omega)
  have hread : readBE (beBytes w (Int.toNat (i % 2 ^ (8 * w)))) =
      Int.toNat (i % 2 ^ (8 * w)) := by
    rw [readBE_beBytes, pow256_pow2]
    apply Nat.mod_eq_of_lt
    omega
  rw [hread, toSignedW]
  rcases le_or_lt 0 i with hp | hn
  · rw [if_pos hp] at hval
    split <;> omega
  · rw [if_neg (by omega)] at hval
    split <;> omega

/-- `writeIntBE` succeeds exactly on in-range inputs, and the result
reads back to the written integer. -/
theorem intBE_ok (w : Nat) (i : Int) (hw : 1 ≤ w)
    (h1 : -(2 ^ (8 * w - 1)) ≤ i) (h2 : i < 2 ^ (8 * w - 1)) :
    intBE w i = .ok (beBytes w (Int.toNat (i % 2 ^ (8 * w)))) ∧
      (beBytes w (Int.toNat (i % 2 ^ (8 * w)))).length = w ∧
      toSignedW w (readBE (beBytes w (Int.toNat (i % 2 ^ (8 * w))))) = i := by
  refine ⟨?_, beBytes_length _ _, signedRoundtrip w i hw h1 h2⟩
  rw [intBE, if_neg]
  intro hc
  rcases hc with hc | hc <;> omega

/-! ## Well-formedness of header values and the value-level round-trip -/

/-- Conditions under which a header value is encodable and survives
the round-trip: the size limits checked by `encodeHeaderValue`, plus
the integer ranges checked by the `writeIntBE` family (signed 8/16/32/
64-bit ranges; timestamps are `Date`s, whose epoch-millisecond values
span ±8.64e15 and hence fit both the 64-bit write and the exact
`Number` read-back). -/
def ValueWF : HeaderValue → Prop
  | .string s => (utf8Bytes s).length ≤ 0xFFFF
  | .buffer b => b.length ≤ 0xFFFF
  | .uuid b => b.length = 16
  | .s8 i => -128 ≤ i ∧ i < 128
  | .s16 i => -32768 ≤ i ∧ i < 32768
  | .s32 i => -2147483648 ≤ i ∧ i < 2147483648
  | .s64 i => -9223372036854775808 ≤ i ∧ i < 9223372036854775808
  | .boolean _ => True
  | .timestamp ms => -8640000000000000 ≤ ms ∧ ms ≤ 8640000000000000

instance (v : HeaderValue) : Decidable (ValueWF v) := by
  unfold ValueWF; cases v <;> infer_instance

/-- Number of bytes `encodeHeaderValue` produces for a value. -/
def valueWireSize : HeaderValue → Nat
  | .string s => 2 + (utf8Bytes s).length
  | .buffer b => 2 + b.length
  | .uuid _ => 16
  | .s64 _ => 8
  | .s32 _ => 4
  | .s16 _ => 2
  | .s8 _ => 1
  | .boolean _ => 0
  | .timestamp _ => 8

/-- Number of bytes `encodeHeaders` produces for a header array. -/
def headersWireSize (hs : HeaderArray) : Nat :=
  (hs.map (fun kv => 2 + (utf8Bytes kv.1).length + valueWireSize kv.2)).sum

theorem encodeHeaderValue_ok (v : HeaderValue) (hwf : ValueWF v) :
    ∃ t bs, encodeHeaderValue v = .ok (t, bs) ∧ bs.length = valueWireSize v := by
  cases v with
  | string s =>
    refine ⟨7, beBytes 2 (utf8Bytes s).length ++ utf8Bytes s, ?_, ?_⟩
    · simp only [encodeHeaderValue]
      rw [if_neg (not_lt.mpr hwf)]
    · simp [valueWireSize, beBytes_length]
  | buffer b =>
    refine ⟨6, beBytes 2 b.length ++ b, ?_, ?_⟩
    · simp only [encodeHeaderValue]
      rw [if_neg (not_lt.mpr hwf)]
    · simp [valueWireSize, beBytes_length]
  | uuid b =>
    have h16 : b.length = 16 := hwf
    refine ⟨9, b, ?_, ?_⟩
    · simp only [encodeHeaderValue]
      rw [if_neg (by simp [h16])]
    · simp [valueWireSize, h16]
  | s8 i =>
    have h := intBE_ok 1 i (by omega) (by exact_mod_cast hwf.1) (by exact_mod_cast hwf.2)
    exact ⟨2, _, by rw [encodeHeaderValue, h.1], by rw [h.2.1]; rfl⟩
  | s16 i =>
    have h := intBE_ok 2 i (by omega) (by exact_mod_cast hwf.1) (by exact_mod_cast hwf.2)
    exact ⟨3, _, by rw [encodeHeaderValue, h.1], by rw [h.2.1]; rfl⟩
  | s32 i =>
    have h := intBE_ok 4 i (by omega) (by exact_mod_cast hwf.1) (by exact_mod_cast hwf.2)
    exact ⟨4, _, by rw [encodeHeaderValue, h.1], by rw [h.2.1]; rfl⟩
  | s64 i =>
    have h := intBE_ok 8 i (by omega) (by exact_mod_cast hwf.1) (by exact_mod_cast hwf.2)
    exact ⟨5, _, by rw [encodeHeaderValue, h.1], by rw [h.2.1]; rfl⟩
  | timestamp ms =>
    have h := intBE_ok 8 ms (by omega) (by have := hwf.1; omega) (by have := hwf.2; omega)
    exact ⟨8, _, by rw [encodeHeaderValue, h.1], by rw [h.2.1]; rfl⟩
  | boolean b => exact ⟨if b then 0 else 1, [], rfl, rfl⟩

/-! ## Header-level round-trip -/

theorem exceptMap_def {α β : Type} (e : Except String α) (f : α → β) :
    e.map f = match e with | .error err => .error err | .ok r => .ok (f r) := by
  cases e <;> rfl

theorem decodeHeaderValue_enc (v : HeaderValue) (t : Nat) (value rest : List Nat)
    (hwf : ValueWF v) (henc : encodeHeaderValue v = .ok (t, value)) :
    decodeHeaderValue t (value ++ rest) = .ok (v, rest) := by
  cases v with
  | boolean b =>
    have hp := Except.ok.inj henc
    have ht : t = if b then 0 else 1 := (congrArg Prod.fst hp).symm
    have hv : value = [] := (congrArg Prod.snd hp).symm
    subst hv
    cases b with
    | false =>
      have ht1 : t = 1 := by rw [ht]; decide
      subst ht1
      rw [decodeHeaderValue, if_pos (Or.inr rfl)]
      rfl
    | true =>
      have ht0 : t = 0 := by rw [ht]; decide
      subst ht0
      rw [decodeHeaderValue, if_pos (Or.inl rfl)]
      rfl
  | string s =>
    have hlen : (utf8Bytes s).length ≤ 0xFFFF := hwf
    have hok : encodeHeaderValue (.string s) =
        .ok (7, beBytes 2 (utf8Bytes s).length ++ utf8Bytes s) := by
      simp only [encodeHeaderValue]
      rw [if_neg (not_lt.mpr hlen)]
    rw [hok] at henc
    have hp := Except.ok.inj henc
    have ht : t = 7 := (congrArg Prod.fst hp).symm
    have hv : value = beBytes 2 (utf8Bytes s).length ++ utf8Bytes s :=
      (congrArg Prod.snd hp).symm
    subst ht; subst hv
    rw [decodeHeaderValue, if_neg (by omega), if_pos (Or.inr rfl)]
    simp only [List.append_assoc]
    rw [if_neg (by simp only [List.length_append, beBytes_length]; omega)]
    rw [List.take_left' (beBytes_length 2 _), List.drop_left' (beBytes_length 2 _)]
    rw [readBE_beBytes, Nat.mod_eq_of_lt (by norm_num; omega)]
    rw [if_neg (by simp only [List.length_append]; omega)]
    rw [List.take_left' rfl, List.drop_left' rfl]
    simp [utf8DecodeStr_utf8Bytes]
  | buffer b =>
    have hlen : b.length ≤ 0xFFFF := hwf
    have hok : encodeHeaderValue (.buffer b) = .ok (6, beBytes 2 b.length ++ b) := by
      simp only [encodeHeaderValue]
      rw [if_neg (not_lt.mpr hlen)]
    rw [hok] at henc
    have hp := Except.ok.inj henc
    have ht : t = 6 := (congrArg Prod.fst hp).symm
    have hv : value = beBytes 2 b.length ++ b := (congrArg Prod.snd hp).symm
    subst ht; subst hv
    rw [decodeHeaderValue, if_neg (by omega), if_pos (Or.inl rfl)]
    simp only [List.append_assoc]
    rw [if_neg (by simp only [List.length_append, beBytes_length]; omega)]
    rw [List.take_left' (beBytes_length 2 _), List.drop_left' (beBytes_length 2 _)]
    rw [readBE_beBytes, Nat.mod_eq_of_lt (by norm_num; omega)]
    rw [if_neg (by simp only [List.length_append]; omega)]
    rw [List.take_left' rfl, List.drop_left' rfl]
    simp
  | uuid b =>
    have h16 : b.length = 16 := hwf
    have hok : encodeHeaderValue (.uuid b) = .ok (9, b) := by
      simp only [encodeHeaderValue]
      rw [if_neg (by simp [h16])]
    rw [hok] at henc
    have hp := Except.ok.inj henc
    have ht : t = 9 := (congrArg Prod.fst hp).symm
    have hv : value = b := (congrArg Prod.snd hp).symm
    subst ht; subst hv
    rw [decodeHeaderValue, if_neg (by omega), if_neg (by omega), if_neg (by omega),
      if_neg (by omega), if_neg (by omega), if_neg (by omega), if_neg (by omega), if_pos rfl]
    rw [if_neg (by simp only [List.length_append, h16]; omega)]
    rw [List.take_left' h16, List.drop_left' h16]
  | s8 i =>
    have h := intBE_ok 1 i (by omega) (by exact_mod_cast hwf.1) (by exact_mod_cast hwf.2)
    rw [show encodeHeaderValue (.s8 i) =
      .ok (2, beBytes 1 (Int.toNat (i % 2 ^ (8 * 1)))) from by
        simp only [encodeHeaderValue]; rw [h.1]] at henc
    have hp := Except.ok.inj henc
    have ht : t = 2 := (congrArg Prod.fst hp).symm
    have hv : value = beBytes 1 (Int.toNat (i % 2 ^ (8 * 1))) := (congrArg Prod.snd hp).symm
    subst ht; subst hv
    rw [decodeHeaderValue, if_neg (by omega), if_neg (by omega), if_pos rfl]
    rw [if_neg (by simp only [List.length_append, beBytes_length]; omega)]
    rw [List.take_left' (beBytes_length 1 _), List.drop_left' (beBytes_length 1 _), h.2.2]
  | s16 i =>
    have h := intBE_ok 2 i (by omega) (by exact_mod_cast hwf.1) (by exact_mod_cast hwf.2)
    rw [show encodeHeaderValue (.s16 i) =
      .ok (3, beBytes 2 (Int.toNat (i % 2 ^ (8 * 2)))) from by
        simp only [encodeHeaderValue]; rw [h.1]] at henc
    have hp := Except.ok.inj henc
    have ht : t = 3 := (congrArg Prod.fst hp).symm
    have hv : value = beBytes 2 (Int.toNat (i % 2 ^ (8 * 2))) := (congrArg Prod.snd hp).symm
    subst ht; subst hv
    rw [decodeHeaderValue, if_neg (by omega), if_neg (by omega), if_neg (by omega), if_pos rfl]
    rw [if_neg (by simp only [List.length_append, beBytes_length]; omega)]
    rw [List.take_left' (beBytes_length 2 _), List.drop_left' (beBytes_length 2 _), h.2.2]
  | s32 i =>
    have h := intBE_ok 4 i (by omega) (by exact_mod_cast hwf.1) (by exact_mod_cast hwf.2)
    rw [show encodeHeaderValue (.s32 i) =
      .ok (4, beBytes 4 (Int.toNat (i % 2 ^ (8 * 4)))) from by
        simp only [encodeHeaderValue]; rw [h.1]] at henc
    have hp := Except.ok.inj henc
    have ht : t = 4 := (congrArg Prod.fst hp).symm
    have hv : value = beBytes 4 (Int.toNat (i % 2 ^ (8 * 4))) := (congrArg Prod.snd hp).symm
    subst ht; subst hv
    rw [decodeHeaderValue, if_neg (by omega), if_neg (by omega), if_neg (by omega),
      if_neg (by omega), if_pos rfl]
    rw [if_neg (by simp only [List.length_append, beBytes_length]; omega)]
    rw [List.take_left' (beBytes_length 4 _), List.drop_left' (beBytes_length 4 _), h.2.2]
  | s64 i =>
    have h := intBE_ok 8 i (by omega) (by exact_mod_cast hwf.1) (by exact_mod_cast hwf.2)
    rw [show encodeHeaderValue (.s64 i) =
      .ok (5, beBytes 8 (Int.toNat (i % 2 ^ (8 * 8)))) from by
        simp only [encodeHeaderValue]; rw [h.1]] at henc
    have hp := Except.ok.inj henc
    have ht : t = 5 := (congrArg Prod.fst hp).symm
    have hv : value = beBytes 8 (Int.toNat (i % 2 ^ (8 * 8))) := (congrArg Prod.snd hp).symm
    subst ht; subst hv
    rw [decodeHeaderValue, if_neg (by omega), if_neg (by omega), if_neg (by omega),
      if_neg (by omega), if_neg (by omega), if_pos rfl]
    rw [if_neg (by simp only [List.length_append, beBytes_length]; omega)]
    rw [List.take_left' (beBytes_length 8 _), List.drop_left' (beBytes_length 8 _), h.2.2]
  | timestamp ms =>
    have h := intBE_ok 8 ms (by omega) (by have := hwf.1; omega) (by have := hwf.2; omega)
    rw [show encodeHeaderValue (.timestamp ms) =
      .ok (8, beBytes 8 (Int.toNat (ms % 2 ^ (8 * 8)))) from by
        simp only [encodeHeaderValue]; rw [h.1]] at henc
    have hp := Except.ok.inj henc
    have ht : t = 8 := (congrArg Prod.fst hp).symm
    have hv : value = beBytes 8 (Int.toNat (ms % 2 ^ (8 * 8))) := (congrArg Prod.snd hp).symm
    subst ht; subst hv
    rw [decodeHeaderValue, if_neg (by omega), if_neg (by omega), if_neg (by omega),
      if_neg (by omega), if_neg (by omega), if_neg (by omega), if_pos rfl]
    rw [if_neg (by simp only [List.length_append, beBytes_length]; omega)]
    rw [List.take_left' (beBytes_length 8 _), List.drop_left' (beBytes_length 8 _), h.2.2]

theorem decodeHeadersGo_step (nameStr : String) (v : HeaderValue) (t : Nat) (value : List Nat)
    (fuel : Nat) (rest : List Nat) (hwf : ValueWF v)
    (henc : encodeHeaderValue v = .ok (t, value)) :
    decodeHeadersGo (fuel + 1)
        ((utf8Bytes nameStr).length :: (utf8Bytes nameStr ++ (t :: (value ++ rest)))) =
      (decodeHeadersGo fuel rest).map (fun r => (nameStr, v) :: r) := by
  have hTL : (utf8Bytes nameStr ++ (t :: (value ++ rest))).take (utf8Bytes nameStr).length
      = utf8Bytes nameStr := List.take_left _ _
  have hDL : (utf8Bytes nameStr ++ (t :: (value ++ rest))).drop (utf8Bytes nameStr).length
      = t :: (value ++ rest) := List.drop_left _ _
  conv_lhs => unfold decodeHeadersGo
  rw [if_neg (by simp only [List.length_append, List.length_cons]; omega)]
  rw [hDL, if_neg (by simp only [List.length_cons]; omega)]
  simp only [List.getD_cons_zero, List.drop_succ_cons, List.drop_zero]
  rw [decodeHeaderValue_enc v t value rest hwf henc, hTL, utf8DecodeStr_utf8Bytes]
  cases hres : decodeHeadersGo fuel rest <;> simp [hres, Except.map]

theorem exceptMap_map {α β γ : Type} (e : Except String α) (f : α → β) (g : β → γ) :
    (e.map f).map g = e.map (fun x => g (f x)) := by
  cases e <;> rfl

theorem exceptMap_id {α : Type} (e : Except String α) (f : α → α) (hf : ∀ x, f x = x) :
    e.map f = e := by
  cases e with
  | error err => rfl
  | ok r => rw [Except.map, hf]

theorem encodeHeaders_ok (hs : HeaderArray)
    (hwf : ∀ kv ∈ hs, (utf8Bytes kv.1).length ≤ 255 ∧ ValueWF kv.2) :
    ∃ enc, encodeHeaders hs = .ok enc ∧ enc.length = headersWireSize hs ∧
      ∀ fuel rest, decodeHeadersGo (hs.length + fuel) (enc ++ rest) =
        (decodeHeadersGo fuel rest).map (fun r => hs ++ r) := by
  induction hs with
  | nil =>
    refine ⟨[], rfl, rfl, ?_⟩
    intro fuel rest
    simp only [List.length_nil, Nat.zero_add, List.nil_append]
    exact (exceptMap_id _ _ (fun x => List.nil_append x)).symm
  | cons kv hs ih =>
    obtain ⟨nameStr, v⟩ := kv
    obtain ⟨hname, hwfv⟩ := hwf _ (List.mem_cons_self _ _)
    have hname' : (utf8Bytes nameStr).length ≤ 255 := hname
    have hwfv' : ValueWF v := hwfv
    obtain ⟨t, bs, henc, hlen⟩ := encodeHeaderValue_ok v hwfv'
    obtain ⟨enc', henc', hlen', hdec'⟩ := ih (fun kv hm => hwf kv (List.mem_cons_of_mem _ hm))
    refine ⟨(utf8Bytes nameStr).length :: (utf8Bytes nameStr ++ t :: (bs ++ enc')), ?_, ?_, ?_⟩
    · rw [encodeHeaders]
      rw [if_neg (by omega), henc, henc']
    · simp only [headersWireSize, List.map_cons, List.sum_cons, List.length_cons,
        List.length_append]
      rw [hlen]
      rw [show (hs.map (fun kv => 2 + (utf8Bytes kv.1).length + valueWireSize kv.2)).sum
        = headersWireSize hs from rfl, ← hlen']
      omega
    · intro fuel rest
      have hshape : ((utf8Bytes nameStr).length :: (utf8Bytes nameStr ++ t :: (bs ++ enc')))
          ++ rest = (utf8Bytes nameStr).length ::
            (utf8Bytes nameStr ++ (t :: (bs ++ (enc' ++ rest)))) := by
        simp [List.append_assoc]
      rw [hshape]
      simp only [List.length_cons]
      rw [show hs.length + 1 + fuel = (hs.length + fuel) + 1 from by omega]
      rw [decodeHeadersGo_step nameStr v t bs (hs.length + fuel) (enc' ++ rest) hwfv' henc]
      rw [hdec' fuel rest, exceptMap_map]
      rfl

theorem decodeHeadersGo_nil (f : Nat) : decodeHeadersGo f [] = .ok [] := by
  cases f <;> rfl

theorem headersWireSize_ge (hs : HeaderArray) : hs.length ≤ headersWireSize hs := by
  induction hs with
  | nil => simp [headersWireSize]
  | cons kv hs ih =>
    simp only [headersWireSize, List.map_cons, List.sum_cons, List.length_cons]
    have : headersWireSize hs = (hs.map
      (fun kv => 2 + (utf8Bytes kv.1).length + valueWireSize kv.2)).sum := rfl
    omega

theorem buildHeaderObject_go (hs : HeaderArray) : ∀ acc : HeaderArray,
    (∀ a ∈ acc, ∀ b ∈ hs, a.1 ≠ b.1) → hs.Pairwise (fun a b => a.1 ≠ b.1) →
    buildHeaderObject acc hs = .ok (acc ++ hs) := by
  induction hs with
  | nil =>
    intro acc _ _
    rw [buildHeaderObject, List.append_nil]
  | cons kv hs ih =>
    intro acc hdisj hpw
    rw [buildHeaderObject]
    rw [if_neg (by
      simp only [List.any_eq_true, decide_eq_true_eq, not_exists]
      intro a
      rw [not_and]
      intro ha
      exact hdisj a ha kv (List.mem_cons_self _ _))]
    rw [ih (acc ++ [kv]) ?hd (List.pairwise_cons.mp hpw).2]
    · rw [List.append_assoc]
      rfl
    case hd =>
      intro a ha b hb
      rcases List.mem_append.mp ha with h | h
      · exact hdisj a h b (List.mem_cons_of_mem _ hb)
      · rw [List.mem_singleton.mp h]
        exact (List.pairwise_cons.mp hpw).1 b hb

theorem decodeHeaders_encodeHeaders (hs : HeaderArray)
    (hwf : ∀ kv ∈ hs, (utf8Bytes kv.1).length ≤ 255 ∧ ValueWF kv.2)
    (hnd : hs.Pairwise (fun a b => a.1 ≠ b.1)) :
    ∃ enc, encodeHeaders hs = .ok enc ∧ enc.length = headersWireSize hs ∧
      decodeHeaders enc = .ok ⟨hs, hs⟩ := by
  obtain ⟨enc, henc, hlen, hdec⟩ := encodeHeaders_ok hs hwf
  refine ⟨enc, henc, hlen, ?_⟩
  have hge : hs.length ≤ enc.length := by
    rw [hlen]; exact headersWireSize_ge hs
  have h1 := hdec (enc.length - hs.length) []
  rw [List.append_nil, decodeHeadersGo_nil] at h1
  rw [decodeHeaders, show enc.length = hs.length + (enc.length - hs.length) from by omega, h1]
  show (match Except.ok (hs ++ []) with
    | Except.error e => Except.error e
    | Except.ok result => match buildHeaderObject [] result with
      | Except.error e => Except.error e
      | Except.ok headers => Except.ok (DecodedHeaders.mk result headers)) = _
  rw [List.append_nil]
  show (match buildHeaderObject [] hs with
    | Except.error e => Except.error e
    | Except.ok headers => Except.ok (DecodedHeaders.mk hs headers)) = _
  rw [buildHeaderObject_go hs [] (by intro a ha; cases ha) hnd, List.nil_append]

/-! ## CRC-32 bounds -/

theorem crcStep_lt (c : Nat) (h : c < 2 ^ 32) : crcStep c < 2 ^ 32 := by
  rw [crcStep]
  apply Nat.xor_lt_two_pow
  · omega
  · have h1 : c &&& 1 ≤ 1 := Nat.and_le_right
    have : (c &&& 1) * 0xEDB88320 ≤ 1 * 0xEDB88320 := Nat.mul_le_mul_right _ h1
    omega

theorem crcTableEntry_lt (n : Nat) (h : n < 2 ^ 32) : crcTableEntry n < 2 ^ 32 := by
  show crcStep (crcStep (crcStep (crcStep (crcStep (crcStep (crcStep (crcStep n))))))) < 2 ^ 32
  exact crcStep_lt _ (crcStep_lt _ (crcStep_lt _ (crcStep_lt _ (crcStep_lt _ (crcStep_lt _
    (crcStep_lt _ (crcStep_lt _ h)))))))

theorem crc32_fold_lt (buf : List Nat) : ∀ C : Nat, C < 2 ^ 32 →
    buf.foldl (fun C b => (C >>> 8) ^^^ crcTableEntry ((C ^^^ b) &&& 0xFF)) C < 2 ^ 32 := by
  induction buf with
  | nil => intro C h; exact h
  | cons b buf ih =>
    intro C h
    rw [List.foldl_cons]
    apply ih
    apply Nat.xor_lt_two_pow
    · have : C >>> 8 ≤ C := by
        rw [Nat.shiftRight_eq_div_pow]
        exact Nat.div_le_self _ _
      omega
    · apply crcTableEntry_lt
      have : ((C ^^^ b) &&& 0xFF) ≤ 0xFF := Nat.and_le_right
      omega

theorem crc32_range (buf : List Nat) :
    -2147483648 ≤ crc32 buf ∧ crc32 buf < 2147483648 := by
  rw [crc32]
  have h1 := crc32_fold_lt buf 0xFFFFFFFF (by norm_num)
  have h2 : (buf.foldl (fun C b => (C >>> 8) ^^^ crcTableEntry ((C ^^^ b) &&& 0xFF))
      0xFFFFFFFF) ^^^ 0xFFFFFFFF < 2 ^ 32 :=
    Nat.xor_lt_two_pow h1 (by norm_num)
  rw [toInt32]
  split <;> constructor <;> omega

/-- 32-bit specialization of the signed write/read round-trip, as used
for the CRC fields. -/
theorem signedRoundtrip32 (x : Int) (h1 : -2147483648 ≤ x) (h2 : x < 2147483648) :
    toSignedW 4 (readBE (beBytes 4 (Int.toNat (x % 2 ^ 32)))) = x :=
  signedRoundtrip 4 x (by omega) (by norm_num; omega) (by norm_num; omega)

/-- Decoding a well-formed frame: if the prelude fields read back as
the actual lengths and CRCs, `decodeEvent` returns the decoded headers
and payload. -/
theorem decodeEvent_frame (A B C enc data D : List Nat) (hs : HeaderArray)
    (hA : A.length = 4) (hB : B.length = 4) (hC : C.length = 4) (hD : D.length = 4)
    (htotal : readBE A = 16 + enc.length + data.length)
    (hhl : readBE B = enc.length)
    (hpc : toSignedW 4 (readBE C) = crc32 (A ++ B))
    (hmc : toSignedW 4 (readBE D) = crc32 ((((A ++ B) ++ C) ++ enc) ++ data))
    (hdecH : decodeHeaders enc = .ok ⟨hs, hs⟩) :
    decodeEvent (((((A ++ B) ++ C) ++ enc) ++ data) ++ D) = .ok ⟨hs, hs, data⟩ := by
  have e1 : ((((A ++ B) ++ C) ++ enc) ++ data) ++ D
      = A ++ (B ++ (C ++ (enc ++ (data ++ D)))) := by simp [List.append_assoc]
  have e2 : ((((A ++ B) ++ C) ++ enc) ++ data) ++ D
      = (A ++ B) ++ (C ++ (enc ++ (data ++ D))) := by simp [List.append_assoc]
  have e3 : ((((A ++ B) ++ C) ++ enc) ++ data) ++ D
      = ((A ++ B) ++ C) ++ (enc ++ (data ++ D)) := by simp [List.append_assoc]
  have e4 : ((((A ++ B) ++ C) ++ enc) ++ data) ++ D
      = (((A ++ B) ++ C) ++ enc) ++ (data ++ D) := by simp [List.append_assoc]
  have hlen12 : ((A ++ B) ++ C).length = 12 := by
    simp [List.length_append, hA, hB, hC]
  have hFlen : (((((A ++ B) ++ C) ++ enc) ++ data) ++ D).length
      = 16 + enc.length + data.length := by
    simp [List.length_append, hA, hB, hC, hD]
    omega
  have ht4 : (((((A ++ B) ++ C) ++ enc) ++ data) ++ D).take 4 = A := by
    rw [e1]; exact List.take_left' hA
  have hd4 : ((((((A ++ B) ++ C) ++ enc) ++ data) ++ D).drop 4).take 4 = B := by
    rw [e1, List.drop_left' hA]
    rw [show B ++ (C ++ (enc ++ (data ++ D))) = B ++ (C ++ (enc ++ (data ++ D))) from rfl]
    exact List.take_left' hB
  have ht8 : (((((A ++ B) ++ C) ++ enc) ++ data) ++ D).take 8 = A ++ B := by
    rw [e2]; exact List.take_left' (by simp [List.length_append, hA, hB])
  have hd8 : ((((((A ++ B) ++ C) ++ enc) ++ data) ++ D).drop 8).take 4 = C := by
    rw [e2, List.drop_left' (by simp [List.length_append, hA, hB])]
    exact List.take_left' hC
  have hd12 : ((((((A ++ B) ++ C) ++ enc) ++ data) ++ D).drop 12).take enc.length = enc := by
    rw [e3, List.drop_left' hlen12]
    exact List.take_left' rfl
  have hdDS : ((((((A ++ B) ++ C) ++ enc) ++ data) ++ D).drop
      (12 + enc.length)).take data.length = data := by
    rw [e4, List.drop_left' (by simp [List.length_append, hA, hB, hC]; omega)]
    exact List.take_left' rfl
  have htDE : (((((A ++ B) ++ C) ++ enc) ++ data) ++ D).take
      (12 + enc.length + data.length) = (((A ++ B) ++ C) ++ enc) ++ data := by
    exact List.take_left' (by simp [List.length_append, hA, hB, hC]; omega)
  have hdDE : (((((A ++ B) ++ C) ++ enc) ++ data) ++ D).drop
      (12 + enc.length + data.length) = D := by
    exact List.drop_left' (by simp [List.length_append, hA, hB, hC]; omega)
  rw [decodeEvent]
  rw [if_neg (by rw [hFlen]; omega)]
  rw [ht4, htotal, hFlen]
  rw [if_neg (by omega)]
  simp only [hd4, hhl, hd8, ht8, hpc]
  rw [if_neg (by omega)]
  rw [show 16 + enc.length + data.length - 4 = 12 + enc.length + data.length from by omega]
  rw [if_neg (by omega)]
  rw [hd12]
  rw [show 12 + enc.length + data.length - (12 + enc.length) = data.length from by omega]
  rw [hdDS, hdDE, htDE, hmc]
  rw [if_neg (by omega)]
  rw [hdecH]

/-- C3 (amended): For every header array with pairwise-distinct names,
names of at most 255 UTF-8 bytes, well-formed values (string/binary at
most 65535 bytes, uuid exactly 16 bytes, integers within the signed
range of their width, timestamps within the valid `Date` range) and
every payload such that the total frame length fits the unsigned
32-bit prelude field, `encodeEvent` succeeds and `decodeEvent` of the
frame returns the original header array (both as `rawHeaders` and as
the keyed object) and the original payload. -/
theorem encodeEvent_decodeEvent_roundtrip (headers : HeaderArray) (data : List Nat)
    (hnd : headers.Pairwise (fun a b => a.1 ≠ b.1))
    (hwf : ∀ kv ∈ headers, (utf8Bytes kv.1).length ≤ 255 ∧ ValueWF kv.2)
    (hsize : 16 + headersWireSize headers + data.length ≤ 0xFFFFFFFF) :
    ∃ frame, encodeEvent headers data = .ok frame ∧
      decodeEvent frame = .ok ⟨headers, headers, data⟩ := by
  obtain ⟨enc, henc, hlen, hdecH⟩ := decodeHeaders_encodeHeaders headers hwf hnd
  set A := beBytes 4 (12 + enc.length + data.length + 4) with hAdef
  set B := beBytes 4 enc.length with hBdef
  set C := beBytes 4 (Int.toNat (crc32 (A ++ B) % 2 ^ 32)) with hCdef
  set D := beBytes 4 (Int.toNat (crc32 ((((A ++ B) ++ C) ++ enc) ++ data) % 2 ^ 32)) with hDdef
  have hA : A.length = 4 := by rw [hAdef]; exact beBytes_length _ _
  have hB : B.length = 4 := by rw [hBdef]; exact beBytes_length _ _
  have hC : C.length = 4 := by rw [hCdef]; exact beBytes_length _ _
  have hD : D.length = 4 := by rw [hDdef]; exact beBytes_length _ _
  have htotal : readBE A = 16 + enc.length + data.length := by
    rw [hAdef, readBE_beBytes, Nat.mod_eq_of_lt (by norm_num; omega)]
    omega
  have hhl : readBE B = enc.length := by
    rw [hBdef, readBE_beBytes, Nat.mod_eq_of_lt (by norm_num; omega)]
  have hpc : toSignedW 4 (readBE C) = crc32 (A ++ B) := by
    rw [hCdef]
    exact signedRoundtrip32 _ (crc32_range _).1 (crc32_range _).2
  have hmc : toSignedW 4 (readBE D) = crc32 ((((A ++ B) ++ C) ++ enc) ++ data) := by
    rw [hDdef]
    exact signedRoundtrip32 _ (crc32_range _).1 (crc32_range _).2
  refine ⟨((((A ++ B) ++ C) ++ enc) ++ data) ++ D, ?_,
    decodeEvent_frame A B C enc data D headers hA hB hC hD htotal hhl hpc hmc hdecH⟩
  simp only [encodeEvent, encodeEventHeaders, henc]
  rw [if_neg (by omega)]

/-- C3 counterexample: the header array [("a", s8 128)] satisfies
every condition the claim states (distinct names, 1-byte name, no
string/binary/uuid values), yet the round-trip fails: `encodeEvent`
itself throws, because 128 is outside the signed 8-bit range checked
by `writeIntBE`. -/
theorem encodeEvent_decodeEvent_counterexample :
    (encodeEvent [("a", .s8 128)] []).bind decodeEvent = .error "Value out of range" := by
  decide

/-- Witness: a concrete round-trip through the full codec. -/
theorem encodeEvent_decodeEvent_roundtrip_witness :
    ([(("h", HeaderValue.s16 (-2))), ("k", HeaderValue.boolean true)].Pairwise
        (fun a b => a.1 ≠ b.1)) ∧
    (∃ frame, encodeEvent [("h", HeaderValue.s16 (-2)), ("k", HeaderValue.boolean true)]
        [1, 2] = .ok frame ∧
      decodeEvent frame = .ok ⟨[("h", HeaderValue.s16 (-2)),
        ("k", HeaderValue.boolean true)], [("h", HeaderValue.s16 (-2)),
        ("k", HeaderValue.boolean true)], [1, 2]⟩) :=
  ⟨by decide, encodeEvent_decodeEvent_roundtrip _ _ (by decide) (by decide) (by decide)⟩

/-! ## Port of `http.ts`: `escape`, `unescape` and `getCanonicalURI` -/

/-- One byte of the library's `escape` helper (http.ts): pass through
the URI unreserved set, percent-encode (uppercase) everything else.
`x >> 4` and `x & 0xF` on bytes are the hex digits of `x`. -/
def escapeByte (x : Nat) : List Char :=
  if (0x61 ≤ (x ||| 0x20) ∧ (x ||| 0x20) ≤ 0x7A) ∨ (0x30 ≤ x ∧ x ≤ 0x39) ∨
      x = 0x2D ∨ x = 0x2E ∨ x = 0x5F ∨ x = 0x7E then
    [Char.ofNat x]
  else ['%', hexCharU (x / 16), hexCharU (x % 16)]

/-- `escape` (http.ts): byte-wise percent-encoding of the UTF-8 bytes
of the string, keeping only URI-unreserved characters. -/
def escape (s : String) : String := ⟨(utf8Bytes s).flatMap escapeByte⟩

/-- Byte-level percent-decoding: `querystring.unescape` first tries
`decodeURIComponent` and falls back to Node's `unescapeBuffer`; both
turn each `%` followed by two hex digits into a byte and pass other
characters (a lone or malformed `%` included) through as their UTF-8
bytes, the result being decoded as UTF-8 (with U+FFFD replacement,
where `decodeURIComponent` would instead have thrown and deferred to
the fallback). -/
def unescapeBytesGo : Nat → List Char → List Nat
  | _, [] => []
  | 0, _ :: _ => []
  | fuel + 1, c :: rest =>
    if c = '%' ∧ 2 ≤ rest.length ∧
        (hexVal (rest.getD 0 '0')).isSome ∧ (hexVal (rest.getD 1 '0')).isSome then
      ((hexVal (rest.getD 0 '0')).getD 0 * 16 + (hexVal (rest.getD 1 '0')).getD 0) ::
        unescapeBytesGo fuel (rest.drop 2)
    else utf8EncodeChar c ++ unescapeBytesGo fuel rest

/-- See `unescapeBytesGo`; the fuel (one unit per input character) is
the input length. -/
def unescapeBytes (l : List Char) : List Nat := unescapeBytesGo l.length l

/-- `querystring.unescape`, see `unescapeBytes`. -/
def unescape (s : String) : String := utf8DecodeStr (unescapeBytes s.data)

/-- `String.prototype.split('/')` at the character level. -/
def splitSlashChars : List Char → List (List Char)
  | [] => [[]]
  | c :: rest =>
    if c = '/' then [] :: splitSlashChars rest
    else
      match splitSlashChars rest with
      | [] => [[c]]
      | g :: gs => (c :: g) :: gs

/-- `String.prototype.split('/')`. -/
def splitSlash (s : String) : List String := (splitSlashChars s.data).map (fun l => ⟨l⟩)

/-- `Array.prototype.join('/')`. -/
def joinSlash (parts : List String) : String :=
  ⟨List.intercalate ['/'] (parts.map String.data)⟩

/-- The normalization loop of `getCanonicalURI` (http.ts): resolve
`..` by popping, drop empty and `.` segments, and record whether the
path ends in a slash. -/
def normStep (st : List String × Bool) (part : String) : List String × Bool :=
  if part = ".." then (st.1.dropLast, true)
  else if part = "" ∨ part = "." then (st.1, true)
  else (st.1 ++ [part], false)

/-- Path normalization of `getCanonicalURI` (http.ts). -/
def normParts (parts : List String) : List String :=
  let res := parts.foldl normStep ([], true)
  [""] ++ res.1 ++ (if res.2 then [""] else [])

/-- `getCanonicalURI` (http.ts); the two members of `CanonicalOptions`
are passed as explicit booleans. -/
def getCanonicalURI (pathName : String) (dontNormalize onlyEncodeOnce : Bool) : String :=
  let parts := (splitSlash pathName).map unescape
  let parts2 := if dontNormalize then parts else normParts parts
  let parts3 := parts2.map escape
  let parts4 := if onlyEncodeOnce then parts3 else parts3.map escape
  joinSlash parts4

/-! ## Idempotence of `getCanonicalURI` under `onlyEncodeOnce` -/

theorem utf8EncodeChar_lt (c : Char) : ∀ x ∈ utf8EncodeChar c, x < 256 := by
  have hv : c.toNat < 1114112 := by
    have h : Nat.isValidChar c.toNat := c.valid
    rcases h with h | h <;> omega
  intro x hx
  simp only [utf8EncodeChar] at hx
  split at hx
  · simp only [List.mem_singleton] at hx
    omega
  · split at hx
    · simp only [List.mem_cons, List.not_mem_nil, or_false] at hx
      omega
    · split at hx
      · simp only [List.mem_cons, List.not_mem_nil, or_false] at hx
        omega
      · simp only [List.mem_cons, List.not_mem_nil, or_false] at hx
        omega

theorem utf8Bytes_lt (s : String) : ∀ x ∈ utf8Bytes s, x < 256 := by
  intro x hx
  rw [utf8Bytes, List.mem_flatMap] at hx
  obtain ⟨c, _, hc⟩ := hx
  exact utf8EncodeChar_lt c x hc

theorem char_ofNat_toNat (x : Nat) (h : x < 0xD800) : (Char.ofNat x).toNat = x :=
  char_toNat_ofNat (Or.inl h)

theorem utf8EncodeChar_ofNat (x : Nat) (h : x < 0x80) :
    utf8EncodeChar (Char.ofNat x) = [x] := by
  unfold utf8EncodeChar
  rw [char_ofNat_toNat x (by omega), if_pos h]

theorem hexVal_hexCharU (n : Nat) (h : n < 16) : hexVal (hexCharU n) = some n := by
  interval_cases n <;> decide

/-- The unreserved test of `escape` only passes for printable ASCII
other than the percent sign. -/
theorem escapeCond_bound : ∀ x < 256,
    ((0x61 ≤ (x ||| 0x20) ∧ (x ||| 0x20) ≤ 0x7A) ∨ (0x30 ≤ x ∧ x ≤ 0x39) ∨
      x = 0x2D ∨ x = 0x2E ∨ x = 0x5F ∨ x = 0x7E) → x < 0x80 ∧ x ≠ 37 ∧ x ≠ 47 := by
  decide

theorem escapeByte_not_percent (x : Nat) (hx : x < 256) (h37 : x ≠ 37) :
    ¬ (Char.ofNat x = '%') := by
  intro he
  have h2 := congrArg Char.toNat he
  rw [char_ofNat_toNat x (by omega)] at h2
  exact h37 (by rw [h2]; rfl)

theorem unescapeBytesGo_escape (bs : List Nat) (h : ∀ x ∈ bs, x < 256) :
    ∀ fuel, (bs.flatMap escapeByte).length ≤ fuel →
      unescapeBytesGo fuel (bs.flatMap escapeByte) = bs := by
  induction bs with
  | nil =>
    intro fuel _
    rw [List.flatMap_nil]
    cases fuel <;> rfl
  | cons x bs ih =>
    intro fuel hfuel
    rw [List.flatMap_cons] at hfuel ⊢
    have hx : x < 256 := h x (List.mem_cons_self _ _)
    have hrest := fun y hy => h y (List.mem_cons_of_mem _ hy)
    by_cases hC : (0x61 ≤ (x ||| 0x20) ∧ (x ||| 0x20) ≤ 0x7A) ∨ (0x30 ≤ x ∧ x ≤ 0x39) ∨
        x = 0x2D ∨ x = 0x2E ∨ x = 0x5F ∨ x = 0x7E
    · obtain ⟨hlt, h37, h47⟩ := escapeCond_bound x hx hC
      rw [escapeByte, if_pos hC] at hfuel ⊢
      simp only [List.singleton_append, List.length_cons] at hfuel ⊢
      obtain ⟨f, rfl⟩ : ∃ f, fuel = f + 1 := ⟨fuel - 1, by omega⟩
      rw [unescapeBytesGo,
        if_neg (fun hcc => escapeByte_not_percent x hx h37 hcc.1),
        utf8EncodeChar_ofNat x hlt, ih hrest f (by omega)]
      rfl
    · rw [escapeByte, if_neg hC] at hfuel ⊢
      simp only [List.cons_append, List.nil_append, List.length_cons] at hfuel ⊢
      obtain ⟨f, rfl⟩ : ∃ f, fuel = f + 1 := ⟨fuel - 1, by omega⟩
      rw [unescapeBytesGo]
      rw [if_pos ⟨rfl, by simp [List.length_cons], by
          simp only [List.getD_cons_zero, hexVal_hexCharU (x / 16) (by omega)]; rfl, by
          simp only [List.getD_cons_succ, List.getD_cons_zero,
            hexVal_hexCharU (x % 16) (by omega)]; rfl⟩]
      simp only [List.getD_cons_zero, List.getD_cons_succ, List.drop_succ_cons,
        List.drop_zero, hexVal_hexCharU (x / 16) (by omega),
        hexVal_hexCharU (x % 16) (by omega), Option.getD_some]
      rw [show x / 16 * 16 + x % 16 = x from by omega, ih hrest f (by omega)]

theorem unescape_escape (s : String) : unescape (escape s) = s := by
  rw [unescape, escape]
  show utf8DecodeStr (unescapeBytes ((utf8Bytes s).flatMap escapeByte)) = s
  rw [unescapeBytes, unescapeBytesGo_escape (utf8Bytes s) (utf8Bytes_lt s) _ le_rfl]
  exact utf8DecodeStr_utf8Bytes s

theorem splitSlashChars_ne_nil (l : List Char) : splitSlashChars l ≠ [] := by
  induction l with
  | nil => simp [splitSlashChars]
  | cons c rest ih =>
    rw [splitSlashChars]
    split
    · simp
    · cases hres : splitSlashChars rest with
      | nil => simp
      | cons g gs => simp

theorem splitSlashChars_no_slash (g : List Char) (hg : '/' ∉ g) :
    splitSlashChars g = [g] := by
  induction g with
  | nil => rfl
  | cons c rest ih =>
    rw [splitSlashChars, if_neg (by intro he; exact hg (he ▸ List.mem_cons_self _ _))]
    rw [ih (fun hm => hg (List.mem_cons_of_mem _ hm))]

theorem splitSlashChars_append_slash (g t : List Char) (hg : '/' ∉ g) :
    splitSlashChars (g ++ '/' :: t) = g :: splitSlashChars t := by
  induction g with
  | nil =>
    rw [List.nil_append, splitSlashChars, if_pos rfl]
  | cons c rest ih =>
    rw [List.cons_append, splitSlashChars,
      if_neg (by intro he; exact hg (he ▸ List.mem_cons_self _ _))]
    rw [ih (fun hm => hg (List.mem_cons_of_mem _ hm))]

theorem splitSlashChars_intercalate (ls : List (List Char)) (hne : ls ≠ [])
    (h : ∀ g ∈ ls, '/' ∉ g) :
    splitSlashChars (List.intercalate ['/'] ls) = ls := by
  induction ls with
  | nil => exact absurd rfl hne
  | cons g ls ih =>
    cases ls with
    | nil =>
      rw [show List.intercalate ['/'] [g] = g from by simp [List.intercalate]]
      exact splitSlashChars_no_slash g (h g (List.mem_cons_self _ _))
    | cons g2 ls2 =>
      rw [show List.intercalate ['/'] (g :: g2 :: ls2)
          = g ++ '/' :: List.intercalate ['/'] (g2 :: ls2) from by
        simp [List.intercalate, List.intersperse]]
      rw [splitSlashChars_append_slash _ _ (h g (List.mem_cons_self _ _))]
      rw [ih (by simp) (fun g' hm => h g' (List.mem_cons_of_mem _ hm))]

theorem splitSlash_joinSlash (parts : List String) (hne : parts ≠ [])
    (h : ∀ p ∈ parts, '/' ∉ p.data) :
    splitSlash (joinSlash parts) = parts := by
  rw [splitSlash, joinSlash]
  show (splitSlashChars (List.intercalate ['/'] (parts.map String.data))).map _ = parts
  rw [splitSlashChars_intercalate _ (by simpa using hne)
    (by intro g hg; rw [List.mem_map] at hg; obtain ⟨p, hp, rfl⟩ := hg; exact h p hp)]
  rw [List.map_map]
  exact List.map_id'' (fun p => rfl) parts

theorem escape_no_slash (s : String) : '/' ∉ (escape s).data := by
  intro hm
  have hm2 : '/' ∈ (utf8Bytes s).flatMap escapeByte := hm
  rw [List.mem_flatMap] at hm2
  obtain ⟨b, hb, hmem⟩ := hm2
  have hblt : b < 256 := utf8Bytes_lt s b hb
  rw [escapeByte] at hmem
  split at hmem
  · obtain ⟨hlt, h37, h47⟩ := escapeCond_bound b hblt (by assumption)
    rw [List.mem_singleton] at hmem
    have hcast := congrArg Char.toNat hmem
    rw [char_ofNat_toNat b (by omega)] at hcast
    have hsl : ('/').toNat = 47 := rfl
    omega
  · rcases List.mem_cons.mp hmem with h1 | h1
    · exact absurd h1 (by decide)
    · rcases List.mem_cons.mp h1 with h2 | h2
      · have hne : hexCharU (b / 16) ≠ '/' := by
          have hlt : b / 16 < 16 := by omega
          interval_cases hbv : (b / 16) <;> decide
        exact hne h2.symm
      · rw [List.mem_singleton] at h2
        have hne : hexCharU (b % 16) ≠ '/' := by
          have hlt : b % 16 < 16 := by omega
          interval_cases hbv : (b % 16) <;> decide
        exact hne h2.symm

theorem normStep_good_acc (parts : List String) : ∀ st : List String × Bool,
    (∀ x ∈ st.1, ¬(x = "" ∨ x = "." ∨ x = "..")) →
    (st.2 = false → st.1 ≠ []) →
    (∀ x ∈ (parts.foldl normStep st).1, ¬(x = "" ∨ x = "." ∨ x = "..")) ∧
      ((parts.foldl normStep st).2 = false → (parts.foldl normStep st).1 ≠ []) := by
  induction parts with
  | nil => intro st h1 h2; exact ⟨h1, h2⟩
  | cons p parts ih =>
    intro st h1 h2
    rw [List.foldl_cons]
    apply ih
    · intro x hx
      rw [normStep] at hx
      split at hx
      · exact h1 x (List.dropLast_sublist _ |>.subset hx)
      · split at hx
        · exact h1 x hx
        · rcases List.mem_append.mp hx with h | h
          · exact h1 x h
          · rw [List.mem_singleton] at h
            subst h
            rename_i hno2 hno1
            intro hc
            rcases hc with hc | hc | hc
            · exact hno1 (Or.inl hc)
            · exact hno1 (Or.inr hc)
            · exact hno2 hc
    · intro hf
      by_cases hp1 : p = ".."
      · rw [normStep, if_pos hp1] at hf
        simp at hf
      · by_cases hp2 : p = "" ∨ p = "."
        · rw [normStep, if_neg hp1, if_pos hp2] at hf
          simp at hf
        · rw [normStep, if_neg hp1, if_neg hp2]
          simp

theorem normFold_good (xs : List String) (hxs : ∀ x ∈ xs, ¬(x = "" ∨ x = "." ∨ x = "..")) :
    ∀ acc flag, xs.foldl normStep (acc, flag) =
      (acc ++ xs, if xs.isEmpty then flag else false) := by
  induction xs with
  | nil => intro acc flag; simp
  | cons x xs ih =>
    intro acc flag
    have hx := hxs x (List.mem_cons_self _ _)
    rw [List.foldl_cons, normStep]
    rw [if_neg (fun hc => hx (Or.inr (Or.inr hc))), if_neg (fun hc => hx (by tauto))]
    rw [ih (fun y hy => hxs y (List.mem_cons_of_mem _ hy))]
    simp

theorem normStep_empty (acc : List String) (f : Bool) : normStep (acc, f) "" = (acc, true) := rfl

theorem normParts_fixpoint (parts : List String) :
    normParts (normParts parts) = normParts parts := by
  obtain ⟨hgood, hflag⟩ := normStep_good_acc parts ([], true) (by simp) (by simp)
  have hnp : normParts parts = [""] ++ (parts.foldl normStep ([], true)).1 ++
      (if (parts.foldl normStep ([], true)).2 then [""] else []) := rfl
  conv_lhs => rw [normParts]
  rw [hnp]
  rw [show ([""] ++ (parts.foldl normStep ([], true)).1 ++
      (if (parts.foldl normStep ([], true)).2 then [""] else []))
    = "" :: ((parts.foldl normStep ([], true)).1 ++
      (if (parts.foldl normStep ([], true)).2 then [""] else [])) from rfl]
  rw [List.foldl_cons, normStep_empty, List.foldl_append, normFold_good _ hgood,
    List.nil_append]
  cases hr2 : (parts.foldl normStep ([], true)).2
  · have hne : (parts.foldl normStep ([], true)).1 ≠ [] := hflag hr2
    have hX : ((parts.foldl normStep ([], true)).1.isEmpty) = false := by simpa using hne
    simp [hX]
  · simp [normStep_empty]

theorem splitSlash_ne_nil (s : String) : splitSlash s ≠ [] := by
  rw [splitSlash]
  simpa using splitSlashChars_ne_nil s.data

theorem normParts_ne_nil (l : List String) : normParts l ≠ [] := by
  rw [normParts]
  simp

theorem unescape_map_escape_join (q : List String) (hq : q ≠ []) :
    (splitSlash (joinSlash (q.map escape))).map unescape = q := by
  rw [splitSlash_joinSlash (q.map escape) (by simpa using hq)
    (by intro x hx; rw [List.mem_map] at hx; obtain ⟨y, _, rfl⟩ := hx; exact escape_no_slash y)]
  rw [List.map_map]
  exact List.map_id'' (fun y => unescape_escape y) q

/-- C9 (amended): `getCanonicalURI` is idempotent whenever the
`onlyEncodeOnce` option is set, for both values of `dontNormalize`.
(With double encoding - the default - idempotence fails, see the
counterexample.) -/
theorem getCanonicalURI_idempotent_onlyEncodeOnce (p : String) (dn : Bool) :
    getCanonicalURI (getCanonicalURI p dn true) dn true = getCanonicalURI p dn true := by
  cases dn with
  | true =>
    have h1 : ∀ q, getCanonicalURI q true true =
        joinSlash (((splitSlash q).map unescape).map escape) := fun q => rfl
    rw [h1, h1]
    rw [unescape_map_escape_join _ (by simpa using splitSlash_ne_nil p)]
  | false =>
    have h1 : ∀ q, getCanonicalURI q false true =
        joinSlash ((normParts ((splitSlash q).map unescape)).map escape) := fun q => rfl
    rw [h1, h1]
    rw [unescape_map_escape_join _ (normParts_ne_nil _), normParts_fixpoint]

/-- C9 counterexample: with the default options (normalization and
double encoding enabled), `getCanonicalURI` is not idempotent: the
space in `/a b` is encoded to `%20` and then the percent sign is
encoded again, so each application adds a layer. -/
theorem getCanonicalURI_not_idempotent_default :
    getCanonicalURI (getCanonicalURI "/a b" false false) false false ≠
      getCanonicalURI "/a b" false false := by
  decide

/-! ## `getCanonicalQuery` (http.ts) -/

/-- `new Set(...)` over a key list: first-occurrence order, deduped. -/
def setDedup (l : List String) : List String :=
  l.foldl (fun acc k => if k ∈ acc then acc else acc ++ [k]) []

/-- `Array.prototype.sort()`'s default string comparison, as a
relation.  JS sort is stable, and this order only ties equal strings,
so every correct sorting algorithm produces the same list; we use
insertion sort, which the kernel can evaluate. -/
abbrev jsLeR (a b : String) : Prop := jsLe a b = true

/-- `getCanonicalQuery` (http.ts): deduplicate the parameter names,
sort them with JS `Array.prototype.sort()` (UTF-16 code-unit order on
the raw strings), skip the empty name, and for each name emit
`escape(name)=escape(value)` for its values in sorted order, joined
with `&`.  `URLSearchParams` is modelled as the entry list in
insertion order. -/
def getCanonicalQuery (params : List (String × String)) : String :=
  let keys := List.insertionSort jsLeR (setDedup (params.map Prod.fst))
  let parts := keys.flatMap (fun key =>
    if key = "" then []
    else (List.insertionSort jsLeR
        ((params.filter (fun kv => kv.1 = key)).map Prod.snd)).map
      (fun value => escape key ++ "=" ++ escape value))
  String.intercalate "&" parts

/-- Lexicographic comparison of query pairs by raw name, then raw
value, in UTF-16 code-unit order. -/
def pairLe (a b : String × String) : Bool :=
  if a.1 = b.1 then jsLe a.2 b.2 else jsLe a.1 b.1

/-- `pairLe` as a relation. -/
abbrev pairLeR (a b : String × String) : Prop := pairLe a b = true

/-- The amended specification of `getCanonicalQuery`: drop empty
names, stably sort the `(name, value)` pairs by UTF-16 code-unit
order of the raw name and then of the raw value, percent-encode both
components and join. -/
def canonicalQuerySpec (params : List (String × String)) : String :=
  String.intercalate "&"
    ((List.insertionSort pairLeR (params.filter (fun kv => ¬ kv.1 = ""))).map
      (fun kv => escape kv.1 ++ "=" ++ escape kv.2))

/-- Lexicographic comparison of query pairs by ENCODED name then
encoded value, as the original claim words it. -/
def pairLeEncoded (a b : String × String) : Bool :=
  if escape a.1 = escape b.1 then jsLe (escape a.2) (escape b.2)
  else jsLe (escape a.1) (escape b.1)

/-- `pairLeEncoded` as a relation. -/
abbrev pairLeEncodedR (a b : String × String) : Prop := pairLeEncoded a b = true

/-- The original claim's description of `getCanonicalQuery`: like
`canonicalQuerySpec` but sorting by the percent-encoded components. -/
def canonicalQueryClaimed (params : List (String × String)) : String :=
  String.intercalate "&"
    ((List.insertionSort pairLeEncodedR (params.filter (fun kv => ¬ kv.1 = ""))).map
      (fun kv => escape kv.1 ++ "=" ++ escape kv.2))

/-! ## Order properties of `jsLe` and `pairLe` -/

theorem unitsLt_asymm (x y : List Nat) (h : unitsLt x y = true) : unitsLt y x = false := by
  induction x generalizing y with
  | nil =>
    cases y with
    | nil => exact absurd h (by rw [unitsLt]; simp)
    | cons b bs => rw [unitsLt]
  | cons a as ih =>
    cases y with
    | nil => exact absurd h (by rw [unitsLt]; simp)
    | cons b bs =>
      rw [unitsLt] at h ⊢
      by_cases hab : a < b
      · rw [if_neg (by omega), if_pos hab]
      · rw [if_neg hab] at h
        by_cases hba : b < a
        · rw [if_pos hba] at h
          exact absurd h (by simp)
        · rw [if_neg hba] at h
          rw [if_neg hba, if_neg hab]
          exact ih bs h

theorem unitsLt_eq_of_not (x : List Nat) : ∀ y, unitsLt x y = false →
    unitsLt y x = false → x = y := by
  induction x with
  | nil =>
    intro y h1 _
    cases y with
    | nil => rfl
    | cons b bs => exact absurd h1 (by rw [unitsLt]; simp)
  | cons a as ih =>
    intro y h1 h2
    cases y with
    | nil => exact absurd h2 (by rw [unitsLt]; simp)
    | cons b bs =>
      rw [unitsLt] at h1 h2
      by_cases hab : a < b
      · rw [if_pos hab] at h1
        exact absurd h1 (by simp)
      · by_cases hba : b < a
        · rw [if_pos hba] at h2
          exact absurd h2 (by simp)
        · rw [if_neg hab, if_neg hba] at h1
          rw [if_neg hba, if_neg hab] at h2
          have hab2 : a = b := by omega
          rw [hab2, ih bs h1 h2]

theorem unitsLt_trans (x : List Nat) : ∀ y z, unitsLt x y = true →
    unitsLt y z = true → unitsLt x z = true := by
  induction x with
  | nil =>
    intro y z h1 h2
    cases z with
    | nil =>
      cases y with
      | nil => exact h1
      | cons b bs => exact absurd h2 (by rw [unitsLt]; simp)
    | cons c cs => rw [unitsLt]
  | cons a as ih =>
    intro y z h1 h2
    cases y with
    | nil => exact absurd h1 (by rw [unitsLt]; simp)
    | cons b bs =>
      cases z with
      | nil => exact absurd h2 (by rw [unitsLt]; simp)
      | cons c cs =>
        rw [unitsLt] at h1 h2 ⊢
        by_cases hab : a < b
        · rw [if_pos hab] at h1
          by_cases hbc : b < c
          · rw [if_pos (by omega)]
          · by_cases hcb : c < b
            · rw [if_neg hbc, if_pos hcb] at h2
              exact absurd h2 (by simp)
            · rw [if_pos (by omega)]
        · by_cases hba : b < a
          · rw [if_neg hab, if_pos hba] at h1
            exact absurd h1 (by simp)
          · rw [if_neg hab, if_neg hba] at h1
            by_cases hbc : b < c
            · rw [if_pos (by omega)]
            · by_cases hcb : c < b
              · rw [if_neg hbc, if_pos hcb] at h2
                exact absurd h2 (by simp)
              · rw [if_neg hbc, if_neg hcb] at h2
                rw [if_neg (by omega), if_neg (by omega)]
                exact ih bs cs h1 h2

theorem utf16Char_ne_nil (c : Char) : utf16Char c ≠ [] := by
  rw [utf16Char]
  split <;> simp

theorem utf16_flatMap_inj (a : List Char) : ∀ b : List Char,
    a.flatMap utf16Char = b.flatMap utf16Char → a = b := by
  induction a with
  | nil =>
    intro b h
    cases b with
    | nil => rfl
    | cons d b' =>
      rw [List.flatMap_nil, List.flatMap_cons] at h
      cases he : utf16Char d with
      | nil => exact absurd he (utf16Char_ne_nil d)
      | cons u us => rw [he] at h; simp at h
  | cons c a' ih =>
    intro b h
    cases b with
    | nil =>
      rw [List.flatMap_nil, List.flatMap_cons] at h
      cases he : utf16Char c with
      | nil => exact absurd he (utf16Char_ne_nil c)
      | cons u us => rw [he] at h; simp at h
    | cons d b' =>
      rw [List.flatMap_cons, List.flatMap_cons] at h
      have hvc : c.toNat < 1114112 ∧ ¬(0xD800 ≤ c.toNat ∧ c.toNat < 0xE000) := by
        have hv : Nat.isValidChar c.toNat := c.valid
        rcases hv with hv | hv <;> omega
      have hvd : d.toNat < 1114112 ∧ ¬(0xD800 ≤ d.toNat ∧ d.toNat < 0xE000) := by
        have hv : Nat.isValidChar d.toNat := d.valid
        rcases hv with hv | hv <;> omega
      rw [utf16Char, utf16Char] at h
      by_cases hc : c.toNat < 0x10000
      · by_cases hd : d.toNat < 0x10000
        · rw [if_pos hc, if_pos hd] at h
          simp only [List.singleton_append, List.cons.injEq] at h
          rw [char_eq_of_toNat h.1, ih b' h.2]
        · rw [if_pos hc, if_neg hd] at h
          simp only [List.singleton_append, List.cons_append, List.cons.injEq] at h
          have h1 := h.1
          omega
      · by_cases hd : d.toNat < 0x10000
        · rw [if_neg hc, if_pos hd] at h
          simp only [List.singleton_append, List.cons_append, List.cons.injEq] at h
          have h1 := h.1
          omega
        · rw [if_neg hc, if_neg hd] at h
          simp only [List.cons_append, List.cons.injEq] at h
          obtain ⟨h1, h2, h3⟩ := h
          have hcd : c.toNat = d.toNat := by omega
          rw [char_eq_of_toNat hcd, ih b' h3]

theorem jsLe_total (a b : String) : jsLe a b = true ∨ jsLe b a = true := by
  rw [jsLe, jsLe]
  cases hv : unitsLt (utf16Units b) (utf16Units a)
  · left; rfl
  · right
    rw [unitsLt_asymm _ _ hv]
    rfl

theorem jsLe_trans (a b c : String) (h1 : jsLe a b = true) (h2 : jsLe b c = true) :
    jsLe a c = true := by
  rw [jsLe] at h1 h2 ⊢
  rw [Bool.not_eq_true'] at h1 h2 ⊢
  by_contra hCA
  rw [Bool.not_eq_false] at hCA
  cases hBC : unitsLt (utf16Units b) (utf16Units c)
  · have heq := unitsLt_eq_of_not _ _ hBC h2
    rw [heq] at h1
    rw [h1] at hCA
    exact absurd hCA (by simp)
  · have htr := unitsLt_trans _ _ _ hBC hCA
    rw [h1] at htr
    exact absurd htr (by simp)

theorem jsLe_antisymm (a b : String) (h1 : jsLe a b = true) (h2 : jsLe b a = true) :
    a = b := by
  rw [jsLe, Bool.not_eq_true'] at h1 h2
  have := unitsLt_eq_of_not _ _ h2 h1
  have hdata := utf16_flatMap_inj a.data b.data this
  cases a; cases b
  exact congrArg String.mk hdata

theorem pairLe_trans (a b c : String × String) (h1 : pairLe a b = true)
    (h2 : pairLe b c = true) : pairLe a c = true := by
  rw [pairLe] at h1 h2 ⊢
  by_cases hab : a.1 = b.1
  · rw [if_pos hab] at h1
    by_cases hbc : b.1 = c.1
    · rw [if_pos hbc] at h2
      rw [if_pos (hab.trans hbc)]
      exact jsLe_trans _ _ _ h1 h2
    · rw [if_neg hbc] at h2
      rw [if_neg (fun hc => hbc (hab ▸ hc)), hab]
      exact h2
  · rw [if_neg hab] at h1
    by_cases hbc : b.1 = c.1
    · rw [if_neg (fun hc => hab (hbc ▸ hc)), ← hbc]
      exact h1
    · rw [if_neg hbc] at h2
      by_cases hac : a.1 = c.1
      · exfalso
        apply hab
        apply jsLe_antisymm
        · exact h1
        · rw [← hac] at h2
          exact h2
      · rw [if_neg hac]
        exact jsLe_trans _ _ _ h1 h2

theorem pairLe_total (a b : String × String) : (pairLe a b || pairLe b a) = true := by
  rw [pairLe, pairLe, Bool.or_eq_true]
  by_cases hab : a.1 = b.1
  · rw [if_pos hab, if_pos hab.symm]
    exact jsLe_total a.2 b.2
  · rw [if_neg hab, if_neg (fun hc => hab hc.symm)]
    exact jsLe_total a.1 b.1

theorem pairLe_antisymm (a b : String × String) (h1 : pairLe a b = true)
    (h2 : pairLe b a = true) : a = b := by
  rw [pairLe] at h1 h2
  by_cases hab : a.1 = b.1
  · rw [if_pos hab] at h1
    rw [if_pos hab.symm] at h2
    have hv := jsLe_antisymm _ _ h1 h2
    obtain ⟨a1, a2⟩ := a
    obtain ⟨b1, b2⟩ := b
    simp only [Prod.mk.injEq]
    exact ⟨hab, hv⟩
  · rw [if_neg hab] at h1
    rw [if_neg (fun hc => hab hc.symm)] at h2
    exact absurd (jsLe_antisymm _ _ h1 h2) hab

instance : IsAntisymm (String × String) (fun a b => pairLe a b = true) :=
  ⟨pairLe_antisymm⟩

instance : IsAntisymm (String × String) pairLeR := ⟨pairLe_antisymm⟩

instance : IsTrans String jsLeR := ⟨jsLe_trans⟩

instance : IsTotal String jsLeR := ⟨jsLe_total⟩

instance : IsTrans (String × String) pairLeR := ⟨pairLe_trans⟩

instance : IsTotal (String × String) pairLeR :=
  ⟨fun a b => by
    have := pairLe_total a b
    rw [Bool.or_eq_true] at this
    exact this⟩

theorem jsLe_total_or (a b : String) : (jsLe a b || jsLe b a) = true := by
  rw [Bool.or_eq_true]
  exact jsLe_total a b

theorem setDedup_spec (l : List String) :
    (setDedup l).Nodup ∧ ∀ x, x ∈ setDedup l ↔ x ∈ l := by
  have key : ∀ (l : List String) (acc : List String), acc.Nodup →
      (l.foldl (fun acc k => if k ∈ acc then acc else acc ++ [k]) acc).Nodup ∧
      ∀ x, x ∈ l.foldl (fun acc k => if k ∈ acc then acc else acc ++ [k]) acc ↔
        x ∈ acc ∨ x ∈ l := by
    intro l
    induction l with
    | nil =>
      intro acc hacc
      exact ⟨hacc, fun x => by simp⟩
    | cons k l ih =>
      intro acc hacc
      rw [List.foldl_cons]
      by_cases hk : k ∈ acc
      · rw [if_pos hk]
        obtain ⟨h1, h2⟩ := ih acc hacc
        refine ⟨h1, fun x => ?_⟩
        rw [h2 x]
        constructor
        · rintro (h | h)
          · exact Or.inl h
          · exact Or.inr (List.mem_cons_of_mem _ h)
        · rintro (h | h)
          · exact Or.inl h
          · rcases List.mem_cons.mp h with h | h
            · exact Or.inl (h ▸ hk)
            · exact Or.inr h
      · rw [if_neg hk]
        obtain ⟨h1, h2⟩ := ih (acc ++ [k]) (by
          rw [List.nodup_append]
          exact ⟨hacc, List.nodup_singleton _, by simpa using hk⟩)
        refine ⟨h1, fun x => ?_⟩
        rw [h2 x]
        simp only [List.mem_append, List.mem_singleton, List.mem_cons]
        tauto
  obtain ⟨h1, h2⟩ := key l [] (List.nodup_nil)
  exact ⟨h1, fun x => by rw [setDedup, h2 x]; simp⟩

/-- The per-name block of `getCanonicalQuery` as `(name, value)`
pairs. -/
def queryBlock (params : List (String × String)) (k : String) : List (String × String) :=
  if k = "" then []
  else (List.insertionSort jsLeR ((params.filter (fun kv => kv.1 = k)).map Prod.snd)).map
    (fun v => (k, v))

theorem beqD_eq {α : Type} [DecidableEq α] (a b : α) :
    (@BEq.beq α instBEqOfDecidableEq a b) = decide (a = b) := rfl

instance lawfulBEqD {α : Type} [DecidableEq α] : @LawfulBEq α instBEqOfDecidableEq where
  eq_of_beq h := of_decide_eq_true h
  rfl := decide_eq_true rfl

theorem countD_eq_zero {α : Type} [DecidableEq α] {a : α} {l : List α} :
    @List.count α instBEqOfDecidableEq a l = 0 ↔ a ∉ l :=
  @List.count_eq_zero _ instBEqOfDecidableEq inferInstance _ _

theorem count_snd_filter (params : List (String × String)) (k : String) (x2 : String) :
    @List.count String instBEqOfDecidableEq x2
        ((params.filter (fun kv => kv.1 = k)).map Prod.snd)
      = @List.count (String × String) instBEqOfDecidableEq (k, x2) params := by
  induction params with
  | nil => rfl
  | cons kv ps ih =>
    rw [List.filter_cons]
    by_cases hkv : kv.1 = k
    · rw [if_pos (by simpa using hkv)]
      rw [List.map_cons, @List.count_cons String instBEqOfDecidableEq,
        @List.count_cons (String × String) instBEqOfDecidableEq, ih]
      congr 1
      obtain ⟨k1, v1⟩ := kv
      simp only at hkv
      subst hkv
      by_cases h : v1 = x2 <;> simp [beqD_eq, h]
    · rw [if_neg (by simpa using hkv)]
      rw [ih, @List.count_cons (String × String) instBEqOfDecidableEq]
      have hne2 : kv ≠ (k, x2) := fun he => hkv (by rw [he])
      simp [beqD_eq, hne2]

theorem count_queryBlock (params : List (String × String)) (k : String)
    (x : String × String) :
    @List.count (String × String) instBEqOfDecidableEq x (queryBlock params k) =
      if x.1 = k ∧ ¬ k = "" then
        @List.count (String × String) instBEqOfDecidableEq x params else 0 := by
  rw [queryBlock]
  by_cases hk : k = ""
  · rw [if_pos hk, if_neg (by tauto)]
    rfl
  · rw [if_neg hk]
    by_cases hx : x.1 = k
    · obtain ⟨x1, x2⟩ := x
      simp only at hx
      subst hx
      rw [if_pos ⟨rfl, hk⟩]
      have hinj : Function.Injective (fun v : String => (x1, v)) := by
        intro u v huv
        simpa using huv
      rw [show ((x1, x2) : String × String) = (fun v : String => (x1, v)) x2 from rfl,
        List.count_map_of_injective _ _ hinj]
      rw [(List.perm_insertionSort jsLeR _).count_eq]
      exact count_snd_filter params x1 x2
    · rw [if_neg (by tauto)]
      apply countD_eq_zero.mpr
      intro hm
      rw [List.mem_map] at hm
      obtain ⟨v, _, hveq⟩ := hm
      exact hx (by rw [← hveq])

theorem sum_map_ite_eq (keys : List String) (hnd : keys.Nodup) (k0 : String) (c : Nat) :
    (keys.map (fun k => if k0 = k then c else 0)).sum = if k0 ∈ keys then c else 0 := by
  induction keys with
  | nil => simp
  | cons k ks ih =>
    obtain ⟨hk, hks⟩ := List.pairwise_cons.mp hnd
    rw [List.map_cons, List.sum_cons, ih hks]
    by_cases he : k0 = k
    · subst he
      rw [if_pos rfl, if_neg (fun hm => (hk k0 hm) rfl), if_pos (List.mem_cons_self _ _)]
      simp
    · rw [if_neg he]
      by_cases hm : k0 ∈ ks
      · rw [if_pos hm, if_pos (List.mem_cons_of_mem _ hm)]
        simp
      · rw [if_neg hm, if_neg (by
          intro hc
          rcases List.mem_cons.mp hc with hc | hc
          · exact he hc
          · exact hm hc)]

theorem queryBlocks_perm (params : List (String × String)) (keys : List String)
    (hnd : keys.Nodup) (hmem : ∀ k, k ∈ keys ↔ k ∈ params.map Prod.fst) :
    (keys.flatMap (queryBlock params)).Perm
      (params.filter (fun kv => ¬ kv.1 = "")) := by
  rw [List.perm_iff_count]
  intro x
  rw [@List.count_flatMap String (String × String) instBEqOfDecidableEq]
  have hptf : ∀ k ∈ keys, @List.count (String × String) instBEqOfDecidableEq x
      (queryBlock params k) =
      (if x.1 = "" then 0
        else if x.1 = k then
          @List.count (String × String) instBEqOfDecidableEq x params else 0) := by
    intro k _
    rw [count_queryBlock]
    by_cases hxe : x.1 = ""
    · rw [if_neg (by rintro ⟨h1, h2⟩; exact h2 (by rw [← h1, hxe])), if_pos hxe]
    · rw [if_neg hxe]
      by_cases hxk : x.1 = k
      · rw [if_pos ⟨hxk, fun hk0 => hxe (hxk.trans hk0)⟩, if_pos hxk]
      · rw [if_neg (fun hc => hxk hc.1), if_neg hxk]
  have hmc : keys.map (@List.count (String × String) instBEqOfDecidableEq x ∘
      queryBlock params) =
      keys.map (fun k => if x.1 = "" then 0
        else if x.1 = k then
          @List.count (String × String) instBEqOfDecidableEq x params else 0) := by
    apply List.map_congr_left
    intro k hk
    show @List.count (String × String) instBEqOfDecidableEq x (queryBlock params k) = _
    exact hptf k hk
  rw [hmc]
  by_cases hxe : x.1 = ""
  · have hz : keys.map (fun k => if x.1 = "" then 0
        else if x.1 = k then
          @List.count (String × String) instBEqOfDecidableEq x params else 0) =
        keys.map (fun _ => 0) := by
      apply List.map_congr_left
      intro k _
      rw [if_pos hxe]
    rw [hz, show (keys.map fun _ => (0 : Nat)).sum = 0 from by simp]
    symm
    apply countD_eq_zero.mpr
    intro hm
    rw [List.mem_filter] at hm
    have h2 := hm.2
    simp only [decide_eq_true_eq] at h2
    exact h2 hxe
  · have hz : keys.map (fun k => if x.1 = "" then 0
        else if x.1 = k then
          @List.count (String × String) instBEqOfDecidableEq x params else 0) =
        keys.map (fun k => if x.1 = k then
          @List.count (String × String) instBEqOfDecidableEq x params else 0) := by
      apply List.map_congr_left
      intro k _
      rw [if_neg hxe]
    rw [hz, sum_map_ite_eq keys hnd x.1 _]
    have hfc : @List.count (String × String) instBEqOfDecidableEq x
        (params.filter (fun kv => ¬ kv.1 = "")) =
        @List.count (String × String) instBEqOfDecidableEq x params := by
      exact @List.count_filter (String × String) instBEqOfDecidableEq
        lawfulBEqD _ _ _ (by simpa using hxe)
    rw [hfc]
    by_cases hmk : x.1 ∈ keys
    · rw [if_pos hmk]
    · rw [if_neg hmk]
      symm
      apply countD_eq_zero.mpr
      intro hm
      apply hmk
      rw [hmem x.1, List.mem_map]
      exact ⟨x, hm, rfl⟩

theorem pairwise_flatMap_blocks (keys : List String)
    (f : String → List (String × String))
    (hfst : ∀ k, ∀ x ∈ f k, x.1 = k)
    (hin : ∀ k, (f k).Pairwise (fun a b => pairLe a b = true))
    (hkeys : keys.Pairwise (fun k1 k2 => jsLe k1 k2 = true ∧ k1 ≠ k2)) :
    (keys.flatMap f).Pairwise (fun a b => pairLe a b = true) := by
  induction keys with
  | nil => simp
  | cons k ks ih =>
    rw [List.flatMap_cons, List.pairwise_append]
    obtain ⟨hk1, hk2⟩ := List.pairwise_cons.mp hkeys
    refine ⟨hin k, ih hk2, ?_⟩
    intro a ha b hb
    rw [List.mem_flatMap] at hb
    obtain ⟨k2, hk2m, hbk⟩ := hb
    have ha1 := hfst k a ha
    have hb1 := hfst k2 b hbk
    obtain ⟨hle, hne⟩ := hk1 k2 hk2m
    rw [pairLe, if_neg (by rw [ha1, hb1]; exact hne), ha1, hb1]
    exact hle

/-- C8 (amended): `getCanonicalQuery` drops entries with empty names
and outputs the `escape(name)=escape(value)` pairs joined with `&`,
sorted by UTF-16 code-unit order of the RAW name and, among duplicates
of a name, by UTF-16 code-unit order of the RAW value (the sort
happens before percent-encoding). -/
theorem getCanonicalQuery_spec (params : List (String × String)) :
    getCanonicalQuery params = canonicalQuerySpec params := by
  obtain ⟨hnd0, hmem0⟩ := setDedup_spec (params.map Prod.fst)
  have hperm := List.perm_insertionSort jsLeR (setDedup (params.map Prod.fst))
  have hnd : (List.insertionSort jsLeR (setDedup (params.map Prod.fst))).Nodup :=
    hperm.symm.nodup hnd0
  have hmem : ∀ k, k ∈ List.insertionSort jsLeR (setDedup (params.map Prod.fst)) ↔
      k ∈ params.map Prod.fst := fun k => (hperm.mem_iff).trans (hmem0 k)
  have hkeys_sorted : (List.insertionSort jsLeR (setDedup (params.map Prod.fst))).Pairwise
      (fun k1 k2 => jsLe k1 k2 = true ∧ k1 ≠ k2) :=
    List.Pairwise.and (List.sorted_insertionSort jsLeR _) hnd
  have hstep0 : getCanonicalQuery params = String.intercalate "&"
      (((List.insertionSort jsLeR (setDedup (params.map Prod.fst))).flatMap
        (queryBlock params)).map (fun kv => escape kv.1 ++ "=" ++ escape kv.2)) := by
    rw [getCanonicalQuery, List.map_flatMap]
    congr 1
    apply List.flatMap_congr
    intro k _
    rw [queryBlock]
    by_cases hk : k = ""
    · rw [if_pos hk, if_pos hk]
      rfl
    · rw [if_neg hk, if_neg hk, List.map_map]
      rfl
  have hpairs : (List.insertionSort jsLeR (setDedup (params.map Prod.fst))).flatMap
      (queryBlock params) =
      List.insertionSort pairLeR (params.filter (fun kv => ¬ kv.1 = "")) := by
    apply List.eq_of_perm_of_sorted (r := fun a b => pairLe a b = true)
    · exact (queryBlocks_perm params _ hnd hmem).trans
        (List.perm_insertionSort pairLeR (params.filter (fun kv => ¬ kv.1 = ""))).symm
    · apply pairwise_flatMap_blocks _ _ ?hfst ?hin hkeys_sorted
      case hfst =>
        intro k x hx
        rw [queryBlock] at hx
        split at hx
        · exact absurd hx (List.not_mem_nil x)
        · rw [List.mem_map] at hx
          obtain ⟨v, _, rfl⟩ := hx
          rfl
      case hin =>
        intro k
        rw [queryBlock]
        split
        · exact List.Pairwise.nil
        · rw [List.pairwise_map]
          apply List.Pairwise.imp ?imp
            (List.sorted_insertionSort jsLeR
              ((params.filter (fun kv => kv.1 = k)).map Prod.snd))
          case imp =>
            intro v1 v2 hv
            rw [pairLe, if_pos rfl]
            exact hv
    · exact List.sorted_insertionSort pairLeR _
  rw [hstep0, hpairs, canonicalQuerySpec]

/-- C8 counterexample: the source sorts by the RAW strings, the claim
by the encoded ones; they disagree as soon as encoding changes the
relative order, e.g. for the names "~" (stays "~", code unit 126) and
"€" (encoded "%E2%82%AC", starting with "%", code unit 37). -/
theorem getCanonicalQuery_not_encoded_order :
    getCanonicalQuery [("€", "1"), ("~", "2")] ≠
      canonicalQueryClaimed [("€", "1"), ("~", "2")] := by
  decide

/-! ## Port of `util/endpoint.ts` and the `http.ts` signing pipeline -/

/-- `DEFAULT_REGION` (endpoint.ts). -/
def DEFAULT_REGION : String := "us-east-1"

/-- `formatHost` (endpoint.ts), without the optional port (the library
calls it with two arguments).  `ENDPOINT_OVERRIDES` maps `ses` to
`email`. -/
def formatHost (serviceName : String) (regionName : Option String) : String :=
  let serviceName := if serviceName = "ses" then "email" else serviceName
  let region := match regionName with
    | some r => if r = "" then "" else "." ++ r
    | none => ""
  serviceName ++ region ++ ".amazonaws.com"

/-- JS falsiness of an optional string (absent or empty). -/
def strFalsy : Option String → Bool
  | none => true
  | some s => s = ""

/-- `String.prototype.trim()`. -/
def jsTrim (s : String) : String :=
  ⟨((s.data.dropWhile jsWs).reverse.dropWhile jsWs).reverse⟩

/-- `.replace(/\s+/g, ' ')`: collapse whitespace runs into single
spaces. -/
def collapseWsGo : Bool → List Char → List Char
  | _, [] => []
  | prevWs, c :: rest =>
    if jsWs c then
      if prevWs then collapseWsGo true rest else ' ' :: collapseWsGo true rest
    else c :: collapseWsGo false rest

/-- The `trim` helper of `getCanonicalHeaders` (http.ts):
`x.trim().replace(/\s+/g, ' ')`. -/
def trimCollapse (s : String) : String := ⟨collapseWsGo false (jsTrim s).data⟩

/-- `String.prototype.toUpperCase()` (simple case mapping; exact on
ASCII method names). -/
def jsToUpper (s : String) : String := ⟨s.data.map Char.toUpper⟩

/-- The canonical string of one header value (http.ts
`getCanonicalHeaders`): arrays are trimmed element-wise and joined
with `,`, other values are coerced to string and trimmed. -/
def canonicalValue : HVal → String
  | .str s => trimCollapse s
  | .list l => String.intercalate "," (l.map trimCollapse)
  | .num n => trimCollapse (natToDec n)

/-- The normalization loop of `getCanonicalHeaders` (http.ts): lowercase
names in insertion order, failing on duplicates. -/
def normalizeHeaders : Headers → List (String × String) →
    Except String (List (String × String))
  | [], acc => .ok acc
  | (k, v) :: rest, acc =>
    let name := jsToLower k
    if acc.any (fun kv => kv.1 = name) then
      .error ("Duplicate headers found: '" ++ name ++ "'")
    else normalizeHeaders rest (acc ++ [(name, canonicalValue v)])

/-- `getCanonicalHeaders` (http.ts): the `name:value\n` block and the
`;`-joined sorted name list; throws on duplicate (case-insensitive)
names. -/
def getCanonicalHeaders (headers : Headers) : Except String (String × String) :=
  match normalizeHeaders headers [] with
  | .error e => .error e
  | .ok normalized =>
    let signedHeaders := List.insertionSort jsLeR (normalized.map Prod.fst)
    let canonicalHeaders := String.join (signedHeaders.map
      (fun k => k ++ ":" ++ (lookupStr normalized k).getD "" ++ "\n"))
    .ok (canonicalHeaders, String.intercalate ";" signedHeaders)

/-- Request bodies (http.ts `SignedRequest["body"]`): a `Buffer`, a
string, or a precomputed `{ hash }`. -/
inductive JBody where
  | buf (b : List Nat)
  | str (s : String)
  | hash (h : String)
deriving Repr, DecidableEq

/-- `hashBody` (http.ts). -/
def hashBody : Option JBody → String
  | none => EMPTY_HASH
  | some (.hash h) => h
  | some (.buf b) => sha256hex b
  | some (.str s) => sha256hex (utf8Bytes s)

/-- `getCanonical` (http.ts): the canonical request string. -/
def getCanonical (method : String) (pathname : String)
    (query : List (String × String)) (cheaders : String × String)
    (body : Option JBody) (dontNormalize onlyEncodeOnce : Bool) : String :=
  String.intercalate "\n"
    [jsTrim (jsToUpper method),
      getCanonicalURI pathname dontNormalize onlyEncodeOnce,
      getCanonicalQuery query,
      cheaders.1,
      cheaders.2,
      hashBody body]

/-- `buildAuthorization` (http.ts). -/
def buildAuthorization (algorithm : String) (signature : List Nat)
    (credential signedHeaders : String) : String :=
  algorithm ++ " " ++ String.intercalate ", "
    ["Credential=" ++ credential,
     "SignedHeaders=" ++ signedHeaders,
     "Signature=" ++ bytesToHex signature]

/-- JS object property assignment `o[k] = v` on a string map modelled
as an insertion-ordered association list: replace in place or append. -/
def objSet (l : List (String × String)) (k v : String) : List (String × String) :=
  if l.any (fun kv => kv.1 = k) then
    l.map (fun kv => if kv.1 = k then (k, v) else kv)
  else l ++ [(k, v)]

/-- `delete o[k]` on a string map. -/
def objDelete (l : List (String × String)) (k : String) : List (String × String) :=
  l.filter (fun kv => ¬ kv.1 = k)

/-- Object spread update of a headers object with string entries
(`{ ...headers, ...result }`): later keys override exactly. -/
def headersAssign (h : Headers) (entries : List (String × String)) : Headers :=
  entries.foldl (fun h kv =>
    if h.any (fun kv2 => kv2.1 = kv.1) then
      h.map (fun kv2 => if kv2.1 = kv.1 then (kv.1, HVal.str kv.2) else kv2)
    else h ++ [(kv.1, HVal.str kv.2)]) h

/-- `delete headers[k]` (exact key). -/
def headersDelete (h : Headers) (k : String) : Headers :=
  h.filter (fun kv => ¬ kv.1 = k)

/-- `URLSearchParams.prototype.delete`: drop every entry of that
name. -/
def paramsDelete (q : List (String × String)) (k : String) : List (String × String) :=
  q.filter (fun kv => ¬ kv.1 = k)

/-- `URLSearchParams.prototype.set`: replace the value of the first
entry of that name in place, dropping the other entries of that name,
or append if absent. -/
def paramsSet : List (String × String) → String → String → List (String × String)
  | [], k, v => [(k, v)]
  | kv :: rest, k, v =>
    if kv.1 = k then (k, v) :: paramsDelete rest k
    else kv :: paramsSet rest k v

/-- `URLSearchParams.prototype.get`: first value of that name, or
null. -/
def paramsGet (q : List (String × String)) (k : String) : Option String :=
  lookupStr q k

/-- Required credentials (core.ts `Credentials`), as available after
`signRequest`'s endpoint detection. -/
structure CredentialsF where
  accessKey : String
  secretKey : String
  regionName : String
  serviceName : String
deriving Repr, DecidableEq

/-- `RelaxedCredentials` (core.ts): region/service optional. -/
structure RelaxedCredentials where
  accessKey : String
  secretKey : String
  regionName : Option String
  serviceName : Option String
deriving Repr, DecidableEq

/-- `getSigning` (core.ts) with the default derivation function: the
signing data and the credential string. -/
def getSigning (dateStamp : String) (credentials : CredentialsF) :
    SigningData × String :=
  let signing := getSigningData dateStamp credentials.secretKey credentials.regionName
    credentials.serviceName
  (signing, credentials.accessKey ++ "/" ++ signing.scope)

/-- The boolean members of `SignHTTPOptions & CanonicalOptions`
(http.ts); the alternate `getSigningData` hook of `SignOptions` is not
modelled (the default derivation is used). -/
structure HOpts where
  set : Bool
  query : Bool
  setContentHash : Bool
  dontNormalize : Bool
  onlyEncodeOnce : Bool
deriving Repr, DecidableEq

/-- `signRequestRaw` (http.ts).  The system clock is passed explicitly:
`now` is the `formatTimestamp()` result used when no timestamp is
present. -/
def signRequestRaw (credentials : CredentialsF) (method : String) (pathname : String)
    (query : List (String × String)) (headers : Headers) (body : Option JBody)
    (opts : HOpts) (now : String) : Except String (List (String × String)) :=
  let isQuery := opts.query
  let parameter := if isQuery then "X-Amz-Signature" else (getHeader (some headers) "authorization").1
  let timestamp0 := if isQuery then paramsGet query "X-Amz-Date"
    else (getHeader (some headers) "x-amz-date").2
  let generated := strFalsy timestamp0
  let timestamp := if generated then now else timestamp0.getD ""
  let result0 : List (String × String) :=
    if generated then [(if isQuery then "X-Amz-Date" else "x-amz-date", now)] else []
  let hash := hashBody body
  let result1 := if ¬ isQuery ∧ opts.setContentHash then
    objSet result0 (getHeader (some headers) "x-amz-content-sha256").1 hash else result0
  let sc := getSigning timestamp credentials
  let headers1 := if ¬ isQuery then headersDelete (headersAssign headers result1) parameter
    else headers
  match getCanonicalHeaders headers1 with
  | .error e => .error e
  | .ok cheaders =>
    let result2 := if isQuery then
      objSet (objSet (objSet result1 "X-Amz-Algorithm" MAIN_ALGORITHM)
        "X-Amz-Credential" sc.2) "X-Amz-SignedHeaders" cheaders.2
      else result1
    let query1 := if isQuery then
      paramsDelete (result2.foldl (fun q kv => paramsSet q kv.1 kv.2) query) parameter
      else query
    let creq := getCanonical method pathname query1 cheaders (some (.hash hash))
      opts.dontNormalize opts.onlyEncodeOnce
    let digest := sha256hex (utf8Bytes creq)
    let signature := signDigest digest timestamp sc.1
    .ok (objSet result2 parameter (if isQuery then bytesToHex signature
      else buildAuthorization MAIN_ALGORITHM signature sc.2 cheaders.2))

/-- A structured request URL (http.ts `SignedRequest.url` in object
form; string URLs are parsed by `new URL` into this shape). -/
structure URLObj where
  host : Option String
  pathname : Option String
  searchParams : Option (List (String × String))
deriving Repr, DecidableEq

/-- An HTTP request to sign (http.ts `SignedRequest`), with the URL in
object form. -/
structure SReq where
  method : Option String
  url : URLObj
  headers : Option Headers
  body : Option JBody
deriving Repr, DecidableEq

/-- `signRequest` (http.ts).  `parseHost` (endpoint.ts) is passed as a
function argument `ph` (the spec treats endpoint parsing as
out-of-scope contract); `now` is the generated timestamp.  Returns the
result (or the thrown error) together with the request object after
the call, which captures the documented mutation: when `url.host` is
absent it is populated from the credentials, independently of the
`set` option. -/
def signRequest (ph : String → Except String (String × String))
    (credentials : RelaxedCredentials) (request : SReq) (opts : HOpts)
    (now : String) : Except String (List (String × String)) × SReq :=
  let url := request.url
  if strFalsy url.host then
    if strFalsy credentials.serviceName then
      (.error "Neither url.host nor serviceName was provided", request)
    else
      let host := formatHost (credentials.serviceName.getD "") credentials.regionName
      let url1 : URLObj := { url with host := some host }
      let creds : CredentialsF :=
        { accessKey := credentials.accessKey, secretKey := credentials.secretKey
          regionName := credentials.regionName.getD DEFAULT_REGION
          serviceName := credentials.serviceName.getD "" }
      signRequestGo ph creds { request with url := url1 } opts now
  else if strFalsy credentials.serviceName ∨ strFalsy credentials.regionName then
    match ph (url.host.getD "") with
    | .error e => (.error e, request)
    | .ok (parsedRegion, parsedService) =>
      let creds : CredentialsF :=
        { accessKey := credentials.accessKey, secretKey := credentials.secretKey
          regionName := match credentials.regionName with
            | none => parsedRegion
            | some r => r
          serviceName := match credentials.serviceName with
            | none => parsedService
            | some s => s }
      signRequestGo ph creds request opts now
  else
    let creds : CredentialsF :=
      { accessKey := credentials.accessKey, secretKey := credentials.secretKey
        regionName := credentials.regionName.getD ""
        serviceName := credentials.serviceName.getD "" }
    signRequestGo ph creds request opts now
where
  /-- The part of `signRequest` after endpoint detection: host header
  population, the call to `signRequestRaw`, and the `set` branch. -/
  signRequestGo (_ph : String → Except String (String × String))
      (creds : CredentialsF) (request : SReq) (opts : HOpts) (now : String) :
      Except String (List (String × String)) × SReq :=
    let url := request.url
    let headers := if strFalsy (getHeader request.headers "host").2 then
      (request.headers.getD []) ++ [("host", HVal.str (url.host.getD ""))]
      else request.headers.getD []
    let query := (url.searchParams).getD []
    let result := signRequestRaw creds ((request.method).getD "GET")
      ((url.pathname).getD "/") query headers request.body opts now
    if opts.set then
      match result with
      | .error e => (.error e, request)
      | .ok res =>
        if opts.query then
          let query2 := res.foldl (fun q kv => paramsSet q kv.1 kv.2) query
          (.ok res, { request with url := { url with searchParams := some query2 } })
        else
          let rh := (request.headers.getD [])
          (.ok res, { request with headers := some (headersAssign rh res) })
    else (result, request)

/-! ## Port of `s3.ts` `signS3Request` -/

/-- `EXPIRES_MAX` (s3.ts). -/
def EXPIRES_MAX : Nat := 604800

/-- `PAYLOAD_UNSIGNED` (s3.ts). -/
def PAYLOAD_UNSIGNED : String := "UNSIGNED-PAYLOAD"

/-- `SignedS3Request` (s3.ts): a request plus the `unsigned` flag. -/
structure S3Req extends SReq where
  unsigned : Option Bool
deriving Repr, DecidableEq

/-- The body `signS3Request` passes down in query mode
(`unsigned === false ? body : { hash: PAYLOAD_UNSIGNED }`): the real
body only when `unsigned` is exactly `false`, the sentinel
otherwise. -/
def s3QueryBody (request : S3Req) : Option JBody :=
  if request.unsigned = some false then request.body
  else some (.hash PAYLOAD_UNSIGNED)

/-- Options of `signS3Request`: the `SignHTTPOptions` booleans plus the
caller's `CanonicalOptions`, which default to `S3_OPTIONS`
(`dontNormalize` and `onlyEncodeOnce` both true) when absent. -/
structure S3Opts where
  set : Bool
  query : Bool
  setContentHash : Bool
  dontNormalize : Option Bool
  onlyEncodeOnce : Option Bool
deriving Repr, DecidableEq

/-- `signS3Request` (s3.ts), object-form URLs, returning the
authorization parameters (or the thrown error).  In query mode the
body is replaced by the `UNSIGNED-PAYLOAD` sentinel unless `unsigned`
is exactly `false`, and `X-Amz-Expires` is populated when absent; in
header mode the content hash is computed (or the sentinel when
`unsigned` is truthy) and placed in `x-amz-content-sha256` when that
header is absent.  The in-place mutations of the request object are
modelled for `signRequest` (which performs them); no claim depends on
this wrapper's copy-back step, so only the result is modelled here. -/
def signS3Request (ph : String → Except String (String × String))
    (credentials : RelaxedCredentials) (request : S3Req) (opts : S3Opts)
    (now : String) : Except String (List (String × String)) :=
  let url := request.url
  let inner := fun (request1 : SReq) (extra : List (String × String)) =>
    let creds1 := if strFalsy request1.url.host then
        { credentials with serviceName := (match credentials.serviceName with
          | none => some "s3"
          | some s => some s) }
      else credentials
    match (signRequest ph creds1 request1
        ⟨opts.set, opts.query, opts.setContentHash, opts.dontNormalize.getD true,
          opts.onlyEncodeOnce.getD true⟩ now).1 with
    | .error e => .error e
    | .ok r => .ok (r.foldl (fun acc kv => objSet acc kv.1 kv.2) extra)
  if opts.query then
    let body := s3QueryBody request
    let hasExpires := match url.searchParams with
      | some q => q.any (fun kv => kv.1 = "X-Amz-Expires")
      | none => false
    let extra : List (String × String) :=
      if hasExpires then [] else [("X-Amz-Expires", natToDec EXPIRES_MAX)]
    let url1 := if hasExpires then url
      else { url with searchParams := some ((url.searchParams.getD []) ++ extra) }
    inner ⟨request.method, url1, request.headers, body⟩ extra
  else
    let hash := if request.unsigned.getD false then PAYLOAD_UNSIGNED
      else hashBody request.body
    let hasCH := ¬ strFalsy (getHeader request.headers "x-amz-content-sha256").2
    let extra : List (String × String) :=
      if hasCH then [] else [("x-amz-content-sha256", hash)]
    let headers1 := if hasCH then request.headers
      else some (headersAssign (request.headers.getD []) extra)
    inner ⟨request.method, url, headers1, some (.hash hash)⟩ extra

/-! ## C6: mutation behaviour of `signRequest` -/

theorem signRequestGo_snd (ph : String → Except String (String × String))
    (creds : CredentialsF) (req : SReq) (opts : HOpts) (now : String)
    (hset : opts.set = false) :
    (signRequest.signRequestGo ph creds req opts now).2 = req := by
  rw [signRequest.signRequestGo, hset]
  rfl

/-- The request with `url.host` populated from the credentials, as
`signRequest` does when the URL has no host. -/
def hostPopulated (request : SReq) (credentials : RelaxedCredentials) : SReq :=
  { request with
    url := { request.url with
      host := some (formatHost (credentials.serviceName.getD "")
        credentials.regionName) } }

/-- C6 (amended): with `options.set` not true, `signRequest` leaves the
request unchanged - except that when `url.host` is absent (or empty)
and the credentials carry a service name, `url.host` is populated from
`formatHost`, independently of the `set` option; the headers mapping,
body, method, pathname and search parameters are never modified. -/
theorem signRequest_no_set_mutation (ph : String → Except String (String × String))
    (credentials : RelaxedCredentials) (request : SReq) (opts : HOpts) (now : String)
    (hset : opts.set = false) :
    (signRequest ph credentials request opts now).2 =
      if strFalsy request.url.host = true ∧ ¬ strFalsy credentials.serviceName = true then
        hostPopulated request credentials
      else request := by
  rw [signRequest]
  by_cases h1 : strFalsy request.url.host = true
  · rw [if_pos h1]
    by_cases h2 : strFalsy credentials.serviceName = true
    · rw [if_pos h2, if_neg (by tauto)]
    · rw [if_neg h2, if_pos ⟨h1, h2⟩]
      rw [signRequestGo_snd _ _ _ _ _ hset, hostPopulated]
  · rw [if_neg h1,
      if_neg (show ¬(strFalsy request.url.host = true ∧
        ¬ strFalsy credentials.serviceName = true) from fun hc => h1 hc.1)]
    by_cases h3 : strFalsy credentials.serviceName = true ∨
        strFalsy credentials.regionName = true
    · rw [if_pos h3]
      cases hph : ph (request.url.host.getD "") with
      | error e => rfl
      | ok pr => exact signRequestGo_snd _ _ _ _ _ hset
    · rw [if_neg h3]
      exact signRequestGo_snd _ _ _ _ _ hset

/-- Witness: a concrete request with `url.host` present is returned
unchanged. -/
theorem signRequest_no_set_mutation_witness :
    ((⟨false, true, false, false, false⟩ : HOpts).set = false) ∧
    (signRequest (fun _ => .error "unused") ⟨"ak", "sk", some "r", some "s"⟩
        ⟨none, ⟨some "h.example", some "/", none⟩, none, none⟩
        ⟨false, true, false, false, false⟩ "T").2 =
      (if strFalsy (⟨none, ⟨some "h.example", some "/", none⟩, none,
          none⟩ : SReq).url.host = true ∧
          ¬ strFalsy (⟨"ak", "sk", some "r", some "s"⟩ :
            RelaxedCredentials).serviceName = true then
        hostPopulated ⟨none, ⟨some "h.example", some "/", none⟩, none, none⟩
          ⟨"ak", "sk", some "r", some "s"⟩
      else ⟨none, ⟨some "h.example", some "/", none⟩, none, none⟩) :=
  ⟨rfl, signRequest_no_set_mutation _ _ _ _ _ rfl⟩

/-- C6 counterexample: with `options.set` false, a request whose
`url.host` is absent is still mutated - `signRequest` populates
`url.host` from the service name before signing, so the request
differs from its original value after the call. -/
theorem signRequest_mutates_host_without_set :
    (signRequest (fun _ => .error "unused") ⟨"ak", "sk", none, some "s3"⟩
        ⟨none, ⟨none, some "/", none⟩, none, none⟩
        ⟨false, true, false, false, false⟩ "T").2 ≠
      ⟨none, ⟨none, some "/", none⟩, none, none⟩ := by
  decide

/-! ## C7: query-mode signing uses the patched query and the sentinel -/

theorem lookupStr_cons_pos (kv : String × String) (l : List (String × String))
    (k : String) (h : kv.1 = k) : lookupStr (kv :: l) k = some kv.2 := by
  rw [lookupStr, List.find?_cons_of_pos _ (by simpa using h)]
  rfl

theorem lookupStr_cons_neg (kv : String × String) (l : List (String × String))
    (k : String) (h : ¬ kv.1 = k) : lookupStr (kv :: l) k = lookupStr l k := by
  rw [lookupStr, List.find?_cons_of_neg _ (by simpa using h)]
  rfl

theorem lookupStr_paramsSet_self (q : List (String × String)) (k v : String) :
    lookupStr (paramsSet q k v) k = some v := by
  induction q with
  | nil => rw [paramsSet, lookupStr_cons_pos _ _ _ rfl]
  | cons kv rest ih =>
    rw [paramsSet]
    by_cases h : kv.1 = k
    · rw [if_pos h, lookupStr_cons_pos _ _ _ rfl]
    · rw [if_neg h, lookupStr_cons_neg _ _ _ h]
      exact ih

theorem lookupStr_paramsDelete_ne (q : List (String × String)) (k k' : String)
    (h : ¬ k' = k) : lookupStr (paramsDelete q k) k' = lookupStr q k' := by
  induction q with
  | nil => rfl
  | cons kv rest ih =>
    rw [paramsDelete, List.filter_cons]
    by_cases hk : kv.1 = k
    · rw [if_neg (by simpa using hk)]
      rw [lookupStr_cons_neg _ _ _ (by rw [hk]; exact fun hc => h hc.symm)]
      exact ih
    · rw [if_pos (by simpa using hk)]
      by_cases hk2 : kv.1 = k'
      · rw [lookupStr_cons_pos _ _ _ hk2, lookupStr_cons_pos _ _ _ hk2]
      · rw [lookupStr_cons_neg _ _ _ hk2, lookupStr_cons_neg _ _ _ hk2]
        exact ih

theorem lookupStr_paramsDelete_self (q : List (String × String)) (k : String) :
    lookupStr (paramsDelete q k) k = none := by
  induction q with
  | nil => rfl
  | cons kv rest ih =>
    rw [paramsDelete, List.filter_cons]
    by_cases hk : kv.1 = k
    · rw [if_neg (by simpa using hk)]
      exact ih
    · rw [if_pos (by simpa using hk), lookupStr_cons_neg _ _ _ hk]
      exact ih

theorem lookupStr_paramsSet_ne (q : List (String × String)) (k v k' : String)
    (h : ¬ k' = k) : lookupStr (paramsSet q k v) k' = lookupStr q k' := by
  induction q with
  | nil =>
    rw [paramsSet, lookupStr_cons_neg _ _ _ (fun hc => h hc.symm)]
  | cons kv rest ih =>
    rw [paramsSet]
    by_cases hk : kv.1 = k
    · rw [if_pos hk, lookupStr_cons_neg _ _ _ (fun hc => h hc.symm)]
      rw [lookupStr_paramsDelete_ne _ _ _ h]
      rw [lookupStr_cons_neg _ _ _ (by rw [hk]; exact fun hc => h hc.symm)]
    · rw [if_neg hk]
      by_cases hk2 : kv.1 = k'
      · rw [lookupStr_cons_pos _ _ _ hk2, lookupStr_cons_pos _ _ _ hk2]
      · rw [lookupStr_cons_neg _ _ _ hk2, lookupStr_cons_neg _ _ _ hk2]
        exact ih

theorem lookupStr_mapSet_self (l : List (String × String)) (k v : String)
    (hany : ∃ kv ∈ l, kv.1 = k) :
    lookupStr (l.map (fun kv => if kv.1 = k then (k, v) else kv)) k = some v := by
  induction l with
  | nil => obtain ⟨kv, hm, _⟩ := hany; cases hm
  | cons kv2 rest ih =>
    rw [List.map_cons]
    by_cases h2 : kv2.1 = k
    · rw [if_pos h2, lookupStr_cons_pos _ _ _ rfl]
    · rw [if_neg h2, lookupStr_cons_neg _ _ _ h2]
      obtain ⟨kv, hm, he⟩ := hany
      rcases List.mem_cons.mp hm with hm2 | hm2
      · exact absurd (hm2 ▸ he) h2
      · exact ih ⟨kv, hm2, he⟩

theorem lookupStr_mapSet_ne (l : List (String × String)) (k v k' : String)
    (h : ¬ k' = k) :
    lookupStr (l.map (fun kv => if kv.1 = k then (k, v) else kv)) k' = lookupStr l k' := by
  induction l with
  | nil => rfl
  | cons kv2 rest ih =>
    rw [List.map_cons]
    by_cases h2 : kv2.1 = k
    · rw [if_pos h2, lookupStr_cons_neg _ _ _ (fun hc => h hc.symm),
        lookupStr_cons_neg _ _ _ (by rw [h2]; exact fun hc => h hc.symm)]
      exact ih
    · rw [if_neg h2]
      by_cases h3 : kv2.1 = k'
      · rw [lookupStr_cons_pos _ _ _ h3, lookupStr_cons_pos _ _ _ h3]
      · rw [lookupStr_cons_neg _ _ _ h3, lookupStr_cons_neg _ _ _ h3]
        exact ih

theorem lookupStr_append_single_ne (l : List (String × String)) (k v k' : String)
    (h : ¬ k' = k) : lookupStr (l ++ [(k, v)]) k' = lookupStr l k' := by
  induction l with
  | nil =>
    rw [List.nil_append, lookupStr_cons_neg _ _ _ (fun hc => h hc.symm)]
  | cons kv2 rest ih =>
    rw [List.cons_append]
    by_cases h3 : kv2.1 = k'
    · rw [lookupStr_cons_pos _ _ _ h3, lookupStr_cons_pos _ _ _ h3]
    · rw [lookupStr_cons_neg _ _ _ h3, lookupStr_cons_neg _ _ _ h3]
      exact ih

theorem lookupStr_append_single_self (l : List (String × String)) (k v : String)
    (h : lookupStr l k = none) : lookupStr (l ++ [(k, v)]) k = some v := by
  induction l with
  | nil => rw [List.nil_append, lookupStr_cons_pos _ _ _ rfl]
  | cons kv2 rest ih =>
    by_cases h3 : kv2.1 = k
    · rw [lookupStr_cons_pos _ _ _ h3] at h
      cases h
    · rw [lookupStr_cons_neg _ _ _ h3] at h
      rw [List.cons_append, lookupStr_cons_neg _ _ _ h3]
      exact ih h

theorem lookupStr_none_of_not_any (l : List (String × String)) (k : String)
    (h : ¬ l.any (fun kv => kv.1 = k) = true) : lookupStr l k = none := by
  induction l with
  | nil => rfl
  | cons kv rest ih =>
    rw [List.any_cons, Bool.or_eq_true] at h
    rw [lookupStr_cons_neg _ _ _ (fun hc => h (Or.inl (by simpa using hc)))]
    exact ih (fun hc => h (Or.inr hc))

theorem lookupStr_objSet_self (l : List (String × String)) (k v : String) :
    lookupStr (objSet l k v) k = some v := by
  rw [objSet]
  by_cases h : l.any (fun kv => kv.1 = k) = true
  · rw [if_pos h]
    rw [List.any_eq_true] at h
    obtain ⟨kv0, hm, he⟩ := h
    exact lookupStr_mapSet_self l k v ⟨kv0, hm, by simpa using he⟩
  · rw [if_neg h]
    exact lookupStr_append_single_self l k v (lookupStr_none_of_not_any l k h)

theorem lookupStr_objSet_ne (l : List (String × String)) (k v k' : String)
    (h : ¬ k' = k) : lookupStr (objSet l k v) k' = lookupStr l k' := by
  rw [objSet]
  by_cases hany : l.any (fun kv => kv.1 = k) = true
  · rw [if_pos hany]
    exact lookupStr_mapSet_ne l k v k' h
  · rw [if_neg hany]
    exact lookupStr_append_single_ne l k v k' h

/-- Closed form of `signRequestRaw` in query mode when the timestamp is
generated (no `X-Amz-Date` in the query): the canonical request is
computed over the query patched with the date, algorithm, credential
and signed-headers parameters. -/
theorem signRequestRaw_query_run_gen (credentials : CredentialsF)
    (method pathname : String) (query : List (String × String)) (headers : Headers)
    (body : Option JBody) (opts : HOpts) (now : String) (cheaders : String × String)
    (hq : opts.query = true)
    (hgen : strFalsy (paramsGet query "X-Amz-Date") = true)
    (hch : getCanonicalHeaders headers = .ok cheaders) :
    signRequestRaw credentials method pathname query headers body opts now =
      .ok (objSet [("X-Amz-Date", now), ("X-Amz-Algorithm", MAIN_ALGORITHM),
          ("X-Amz-Credential", (getSigning now credentials).2),
          ("X-Amz-SignedHeaders", cheaders.2)] "X-Amz-Signature"
        (bytesToHex (signDigest (sha256hex (utf8Bytes (getCanonical method pathname
          (paramsDelete (paramsSet (paramsSet (paramsSet (paramsSet query
              "X-Amz-Date" now) "X-Amz-Algorithm" MAIN_ALGORITHM)
              "X-Amz-Credential" (getSigning now credentials).2)
              "X-Amz-SignedHeaders" cheaders.2) "X-Amz-Signature")
          cheaders (some (.hash (hashBody body))) opts.dontNormalize
          opts.onlyEncodeOnce)))
        now (getSigning now credentials).1))) := by
  obtain ⟨oset, oq, osch, odn, ooeo⟩ := opts
  subst hq
  simp only [signRequestRaw, not_true, false_and, if_true, if_false, hgen,
    eq_self_iff_true, hch]
  rfl

/-- Closed form of `signRequestRaw` in query mode when the query
already carries a non-empty `X-Amz-Date`: same as the generated case
but without the date parameter being added, signing with the given
timestamp. -/
theorem signRequestRaw_query_run_given (credentials : CredentialsF)
    (method pathname : String) (query : List (String × String)) (headers : Headers)
    (body : Option JBody) (opts : HOpts) (now : String) (cheaders : String × String)
    (hq : opts.query = true)
    (hgen : strFalsy (paramsGet query "X-Amz-Date") = false)
    (hch : getCanonicalHeaders headers = .ok cheaders) :
    signRequestRaw credentials method pathname query headers body opts now =
      .ok (objSet [("X-Amz-Algorithm", MAIN_ALGORITHM),
          ("X-Amz-Credential",
            (getSigning ((paramsGet query "X-Amz-Date").getD "") credentials).2),
          ("X-Amz-SignedHeaders", cheaders.2)] "X-Amz-Signature"
        (bytesToHex (signDigest (sha256hex (utf8Bytes (getCanonical method pathname
          (paramsDelete (paramsSet (paramsSet (paramsSet query
              "X-Amz-Algorithm" MAIN_ALGORITHM)
              "X-Amz-Credential"
              (getSigning ((paramsGet query "X-Amz-Date").getD "") credentials).2)
              "X-Amz-SignedHeaders" cheaders.2) "X-Amz-Signature")
          cheaders (some (.hash (hashBody body))) opts.dontNormalize
          opts.onlyEncodeOnce)))
        ((paramsGet query "X-Amz-Date").getD "")
        (getSigning ((paramsGet query "X-Amz-Date").getD "") credentials).1))) := by
  obtain ⟨oset, oq, osch, odn, ooeo⟩ := opts
  subst hq
  simp only [signRequestRaw, not_true, false_and, if_true, if_false, hgen,
    Bool.false_eq_true, eq_self_iff_true, hch]
  rfl

/-- The result component of `signRequest` (after endpoint detection) is
exactly the `signRequestRaw` output on the host-populated headers,
independently of the `set` option. -/
theorem signRequestGo_fst (ph : String → Except String (String × String))
    (creds : CredentialsF) (req : SReq) (opts : HOpts) (now : String) :
    (signRequest.signRequestGo ph creds req opts now).1 =
      signRequestRaw creds (req.method.getD "GET") (req.url.pathname.getD "/")
        ((req.url.searchParams).getD [])
        (if strFalsy (getHeader req.headers "host").2 then
          (req.headers.getD []) ++ [("host", HVal.str (req.url.host.getD ""))]
          else req.headers.getD []) req.body opts now := by
  simp only [signRequest.signRequestGo]
  generalize signRequestRaw creds (req.method.getD "GET") (req.url.pathname.getD "/")
    ((req.url.searchParams).getD [])
    (if strFalsy (getHeader req.headers "host").2 then
      (req.headers.getD []) ++ [("host", HVal.str (req.url.host.getD ""))]
      else req.headers.getD []) req.body opts now = res
  by_cases hset : opts.set = true
  · rw [hset]
    cases res with
    | error e => rfl
    | ok r =>
      by_cases hq2 : opts.query = true
      · rw [hq2]; rfl
      · rw [Bool.not_eq_true] at hq2
        rw [hq2]; rfl
  · rw [Bool.not_eq_true] at hset
    rw [hset]; rfl

/-- **C7** (amended): in query mode, `X-Amz-Algorithm`,
`X-Amz-Credential`, `X-Amz-SignedHeaders` - and `X-Amz-Date` when the
timestamp is generated - are inserted into the query before the
canonical request is computed: the signature placed in the result is
the digest of `getCanonical` evaluated at a query `query1` that
contains those parameters (and no `X-Amz-Signature`).  The body-hash
line of that canonical request is `hashBody body`, the hash of the
actual request body - NOT unconditionally the `UNSIGNED-PAYLOAD`
sentinel; the sentinel appears exactly when the body already is
`{ hash: UNSIGNED-PAYLOAD }`, which `signS3Request` arranges in query
mode unless `unsigned` is exactly `false` (third conjunct).  The last
conjunct connects this to `signRequest`: its result is the
`signRequestRaw` output. -/
theorem signRequestRaw_query_spec (credentials : CredentialsF) (method pathname : String)
    (query : List (String × String)) (headers : Headers) (body : Option JBody)
    (opts : HOpts) (now : String) (cheaders : String × String)
    (hq : opts.query = true)
    (hch : getCanonicalHeaders headers = .ok cheaders) :
    (∃ query1 result2,
      paramsGet query1 "X-Amz-Algorithm" = some MAIN_ALGORITHM ∧
      paramsGet query1 "X-Amz-Credential" = some (getSigning
        (if strFalsy (paramsGet query "X-Amz-Date") then now
          else (paramsGet query "X-Amz-Date").getD "") credentials).2 ∧
      paramsGet query1 "X-Amz-SignedHeaders" = some cheaders.2 ∧
      (strFalsy (paramsGet query "X-Amz-Date") = true →
        paramsGet query1 "X-Amz-Date" = some now) ∧
      paramsGet query1 "X-Amz-Signature" = none ∧
      signRequestRaw credentials method pathname query headers body opts now =
        .ok (objSet result2 "X-Amz-Signature" (bytesToHex (signDigest
          (sha256hex (utf8Bytes (getCanonical method pathname query1 cheaders
            (some (.hash (hashBody body))) opts.dontNormalize opts.onlyEncodeOnce)))
          (if strFalsy (paramsGet query "X-Amz-Date") then now
            else (paramsGet query "X-Amz-Date").getD "")
          (getSigning (if strFalsy (paramsGet query "X-Amz-Date") then now
            else (paramsGet query "X-Amz-Date").getD "") credentials).1)))) ∧
    (∀ b : Option JBody, hashBody (some (.hash (hashBody b))) = hashBody b) ∧
    (∀ r : S3Req, ¬ r.unsigned = some false →
      s3QueryBody r = some (.hash PAYLOAD_UNSIGNED)) ∧
    (∀ (ph : String → Except String (String × String)) (creds : CredentialsF)
      (req : SReq) (opts2 : HOpts) (now2 : String),
      (signRequest.signRequestGo ph creds req opts2 now2).1 =
        signRequestRaw creds (req.method.getD "GET") (req.url.pathname.getD "/")
          ((req.url.searchParams).getD [])
          (if strFalsy (getHeader req.headers "host").2 then
            (req.headers.getD []) ++ [("host", HVal.str (req.url.host.getD ""))]
            else req.headers.getD []) req.body opts2 now2) := by
  refine ⟨?_, fun b => rfl, fun r hr => by rw [s3QueryBody, if_neg hr],
    signRequestGo_fst⟩
  by_cases hgen : strFalsy (paramsGet query "X-Amz-Date") = true
  · rw [if_pos hgen]
    refine ⟨paramsDelete (paramsSet (paramsSet (paramsSet (paramsSet query
        "X-Amz-Date" now) "X-Amz-Algorithm" MAIN_ALGORITHM)
        "X-Amz-Credential" (getSigning now credentials).2)
        "X-Amz-SignedHeaders" cheaders.2) "X-Amz-Signature",
      [("X-Amz-Date", now), ("X-Amz-Algorithm", MAIN_ALGORITHM),
        ("X-Amz-Credential", (getSigning now credentials).2),
        ("X-Amz-SignedHeaders", cheaders.2)], ?_, ?_, ?_, ?_, ?_, ?_⟩
    · rw [paramsGet, lookupStr_paramsDelete_ne _ _ _ (by decide),
        lookupStr_paramsSet_ne _ _ _ _ (by decide),
        lookupStr_paramsSet_ne _ _ _ _ (by decide)]
      exact lookupStr_paramsSet_self _ _ _
    · rw [paramsGet, lookupStr_paramsDelete_ne _ _ _ (by decide),
        lookupStr_paramsSet_ne _ _ _ _ (by decide)]
      exact lookupStr_paramsSet_self _ _ _
    · rw [paramsGet, lookupStr_paramsDelete_ne _ _ _ (by decide)]
      exact lookupStr_paramsSet_self _ _ _
    · intro _
      rw [paramsGet, lookupStr_paramsDelete_ne _ _ _ (by decide),
        lookupStr_paramsSet_ne _ _ _ _ (by decide),
        lookupStr_paramsSet_ne _ _ _ _ (by decide),
        lookupStr_paramsSet_ne _ _ _ _ (by decide)]
      exact lookupStr_paramsSet_self _ _ _
    · rw [paramsGet]
      exact lookupStr_paramsDelete_self _ _
    · exact signRequestRaw_query_run_gen credentials method pathname query headers body _ now cheaders
        hq hgen hch
  · have hgenf : strFalsy (paramsGet query "X-Amz-Date") = false := by
      simpa using hgen
    rw [if_neg hgen]
    refine ⟨paramsDelete (paramsSet (paramsSet (paramsSet query
        "X-Amz-Algorithm" MAIN_ALGORITHM) "X-Amz-Credential"
        (getSigning ((paramsGet query "X-Amz-Date").getD "") credentials).2)
        "X-Amz-SignedHeaders" cheaders.2) "X-Amz-Signature",
      [("X-Amz-Algorithm", MAIN_ALGORITHM),
        ("X-Amz-Credential",
          (getSigning ((paramsGet query "X-Amz-Date").getD "") credentials).2),
        ("X-Amz-SignedHeaders", cheaders.2)], ?_, ?_, ?_, ?_, ?_, ?_⟩
    · rw [paramsGet, lookupStr_paramsDelete_ne _ _ _ (by decide),
        lookupStr_paramsSet_ne _ _ _ _ (by decide),
        lookupStr_paramsSet_ne _ _ _ _ (by decide)]
      exact lookupStr_paramsSet_self _ _ _
    · rw [paramsGet, lookupStr_paramsDelete_ne _ _ _ (by decide),
        lookupStr_paramsSet_ne _ _ _ _ (by decide)]
      exact lookupStr_paramsSet_self _ _ _
    · rw [paramsGet, lookupStr_paramsDelete_ne _ _ _ (by decide)]
      exact lookupStr_paramsSet_self _ _ _
    · intro hc
      exact absurd hc hgen
    · rw [paramsGet]
      exact lookupStr_paramsDelete_self _ _
    · exact signRequestRaw_query_run_given credentials method pathname query headers body _ now cheaders
        hq hgenf hch

/-- Witness for C7 at a concrete query-mode request. -/
theorem signRequestRaw_query_spec_witness :
    ((⟨false, true, false, false, false⟩ : HOpts).query = true) ∧
    getCanonicalHeaders [("host", HVal.str "h")] = .ok ("host:h\n", "host") ∧
    ((∃ query1 result2,
      paramsGet query1 "X-Amz-Algorithm" = some MAIN_ALGORITHM ∧
      paramsGet query1 "X-Amz-Credential" = some (getSigning
        (if strFalsy (paramsGet ([] : List (String × String)) "X-Amz-Date") then "T"
          else (paramsGet ([] : List (String × String)) "X-Amz-Date").getD "")
        ⟨"A", "S", "r", "s"⟩).2 ∧
      paramsGet query1 "X-Amz-SignedHeaders" = some ("host:h\n", "host").2 ∧
      (strFalsy (paramsGet ([] : List (String × String)) "X-Amz-Date") = true →
        paramsGet query1 "X-Amz-Date" = some "T") ∧
      paramsGet query1 "X-Amz-Signature" = none ∧
      signRequestRaw ⟨"A", "S", "r", "s"⟩ "GET" "/" [] [("host", HVal.str "h")]
          none ⟨false, true, false, false, false⟩ "T" =
        .ok (objSet result2 "X-Amz-Signature" (bytesToHex (signDigest
          (sha256hex (utf8Bytes (getCanonical "GET" "/" query1 ("host:h\n", "host")
            (some (.hash (hashBody none))) false false)))
          (if strFalsy (paramsGet ([] : List (String × String)) "X-Amz-Date") then "T"
            else (paramsGet ([] : List (String × String)) "X-Amz-Date").getD "")
          (getSigning (if strFalsy (paramsGet ([] : List (String × String))
              "X-Amz-Date") then "T"
            else (paramsGet ([] : List (String × String)) "X-Amz-Date").getD "")
            ⟨"A", "S", "r", "s"⟩).1)))) ∧
    (∀ b : Option JBody, hashBody (some (.hash (hashBody b))) = hashBody b) ∧
    (∀ r : S3Req, ¬ r.unsigned = some false →
      s3QueryBody r = some (.hash PAYLOAD_UNSIGNED)) ∧
    (∀ (ph : String → Except String (String × String)) (creds : CredentialsF)
      (req : SReq) (opts2 : HOpts) (now2 : String),
      (signRequest.signRequestGo ph creds req opts2 now2).1 =
        signRequestRaw creds (req.method.getD "GET") (req.url.pathname.getD "/")
          ((req.url.searchParams).getD [])
          (if strFalsy (getHeader req.headers "host").2 then
            (req.headers.getD []) ++ [("host", HVal.str (req.url.host.getD ""))]
            else req.headers.getD []) req.body opts2 now2)) :=
  ⟨rfl, by decide,
    signRequestRaw_query_spec ⟨"A", "S", "r", "s"⟩ "GET" "/" [] [("host", HVal.str "h")] none
      ⟨false, true, false, false, false⟩ "T" ("host:h\n", "host") rfl (by decide)⟩

/-! Concrete HMAC-SHA256 values for the query-mode signature
counterexample, one crypto step per lemma. -/

set_option maxHeartbeats 8000000 in
theorem hmacStep_c7_1 : hmacSha256 (utf8Bytes ("AWS4" ++ "S"))
    (utf8Bytes (jsSubstring0 "T" 8)) =
    [104, 146, 98, 239, 136, 173, 185, 239, 73, 198, 55, 119, 48, 81, 212, 206, 79, 180, 85, 52, 163, 61, 107, 232, 27, 97, 42, 141, 91, 250, 234, 33] := by
  decide

set_option maxHeartbeats 8000000 in
theorem hmacStep_c7_2 : hmacSha256 [104, 146, 98, 239, 136, 173, 185, 239, 73, 198, 55, 119, 48, 81, 212, 206, 79, 180, 85, 52, 163, 61, 107, 232, 27, 97, 42, 141, 91, 250, 234, 33] (utf8Bytes "r") =
    [12, 138, 219, 126, 55, 107, 223, 112, 245, 111, 84, 165, 169, 64, 64, 242, 184, 88, 92, 144, 107, 195, 205, 189, 206, 73, 60, 248, 0, 38, 245, 166] := by
  decide

set_option maxHeartbeats 8000000 in
theorem hmacStep_c7_3 : hmacSha256 [12, 138, 219, 126, 55, 107, 223, 112, 245, 111, 84, 165, 169, 64, 64, 242, 184, 88, 92, 144, 107, 195, 205, 189, 206, 73, 60, 248, 0, 38, 245, 166] (utf8Bytes "s") =
    [59, 124, 162, 24, 32, 108, 112, 122, 18, 20, 192, 91, 135, 30, 153, 110, 194, 19, 45, 59, 120, 210, 78, 106, 95, 117, 236, 220, 130, 229, 157, 185] := by
  decide

set_option maxHeartbeats 8000000 in
theorem hmacStep_c7_4 : hmacSha256 [59, 124, 162, 24, 32, 108, 112, 122, 18, 20, 192, 91, 135, 30, 153, 110, 194, 19, 45, 59, 120, 210, 78, 106, 95, 117, 236, 220, 130, 229, 157, 185] (utf8Bytes "aws4_request") =
    [78, 95, 97, 148, 240, 250, 49, 101, 153, 157, 139, 128, 91, 131, 67, 247, 218, 92, 245, 7, 24, 220, 11, 177, 116, 234, 197, 98, 60, 137, 10, 110] := by
  decide

/-- The derivation for credentials `A`/`S`/`r`/`s` at timestamp `T`, in
closed form. -/
theorem getSigningData_ASrs : getSigningData "T" "S" "r" "s" =
    ⟨[78, 95, 97, 148, 240, 250, 49, 101, 153, 157, 139, 128, 91, 131, 67, 247, 218, 92, 245, 7, 24, 220, 11, 177, 116, 234, 197, 98, 60, 137, 10, 110], "T/r/s/aws4_request"⟩ :=
  (getSigningData_closed "T" "S" "r" "s").trans
    ((congrArg (fun kk => (⟨kk, String.intercalate "/"
        [jsSubstring0 "T" 8, "r", "s", "aws4_request"]⟩ : SigningData))
      ((congrArg (fun x => hmacSha256 (hmacSha256 (hmacSha256 x (utf8Bytes "r"))
          (utf8Bytes "s")) (utf8Bytes "aws4_request")) hmacStep_c7_1).trans
        ((congrArg (fun x => hmacSha256 (hmacSha256 x (utf8Bytes "s"))
            (utf8Bytes "aws4_request")) hmacStep_c7_2).trans
          ((congrArg (fun x => hmacSha256 x (utf8Bytes "aws4_request"))
            hmacStep_c7_3).trans hmacStep_c7_4)))).trans
      (congrArg (fun s => (⟨[78, 95, 97, 148, 240, 250, 49, 101, 153, 157, 139, 128, 91, 131, 67, 247, 218, 92, 245, 7, 24, 220, 11, 177, 116, 234, 197, 98, 60, 137, 10, 110], s⟩ : SigningData))
        (by decide : String.intercalate "/"
          [jsSubstring0 "T" 8, "r", "s", "aws4_request"] = "T/r/s/aws4_request")))

theorem getSigning_fst_ASrs : (getSigning "T" ⟨"A", "S", "r", "s"⟩).1 =
    ⟨[78, 95, 97, 148, 240, 250, 49, 101, 153, 157, 139, 128, 91, 131, 67, 247, 218, 92, 245, 7, 24, 220, 11, 177, 116, 234, 197, 98, 60, 137, 10, 110], "T/r/s/aws4_request"⟩ :=
  (rfl : (getSigning "T" ⟨"A", "S", "r", "s"⟩).1 =
    getSigningData "T" "S" "r" "s").trans getSigningData_ASrs

theorem getSigning_snd_ASrs : (getSigning "T" ⟨"A", "S", "r", "s"⟩).2 =
    "A/T/r/s/aws4_request" :=
  (rfl : (getSigning "T" ⟨"A", "S", "r", "s"⟩).2 =
    "A" ++ "/" ++ (getSigningData "T" "S" "r" "s").scope).trans
    ((congrArg (fun sd => "A" ++ "/" ++ SigningData.scope sd)
      getSigningData_ASrs).trans
      (by decide : "A" ++ "/" ++ SigningData.scope
        ⟨[78, 95, 97, 148, 240, 250, 49, 101, 153, 157, 139, 128, 91, 131, 67, 247, 218, 92, 245, 7, 24, 220, 11, 177, 116, 234, 197, 98, 60, 137, 10, 110], "T/r/s/aws4_request"⟩ = "A/T/r/s/aws4_request"))

set_option maxHeartbeats 8000000 in
/-- The canonical-request digest of the query-mode run with body hash
`aa`. -/
theorem digest_c7_a : sha256hex (utf8Bytes (getCanonical "GET" "/"
    (paramsDelete (paramsSet (paramsSet (paramsSet [("X-Amz-Date", "T")]
      "X-Amz-Algorithm" MAIN_ALGORITHM) "X-Amz-Credential" "A/T/r/s/aws4_request")
      "X-Amz-SignedHeaders" "host") "X-Amz-Signature")
    ("host:h\n", "host") (some (.hash "aa")) false false)) =
    "1a0b5fb05484b8bc6116bd7237b350992bee84ee0aba6dccd33e7658da077f26" := by
  decide

set_option maxHeartbeats 8000000 in
/-- The canonical-request digest of the query-mode run with body hash
`bb`. -/
theorem digest_c7_b : sha256hex (utf8Bytes (getCanonical "GET" "/"
    (paramsDelete (paramsSet (paramsSet (paramsSet [("X-Amz-Date", "T")]
      "X-Amz-Algorithm" MAIN_ALGORITHM) "X-Amz-Credential" "A/T/r/s/aws4_request")
      "X-Amz-SignedHeaders" "host") "X-Amz-Signature")
    ("host:h\n", "host") (some (.hash "bb")) false false)) =
    "6d792220e187ef4f0de7c5178685b7c4ce96059c04b6ba14d9843e2a2c8516eb" := by
  decide

set_option maxHeartbeats 8000000 in
theorem sig_c7_a : bytesToHex (signDigest
    "1a0b5fb05484b8bc6116bd7237b350992bee84ee0aba6dccd33e7658da077f26" "T"
    ⟨[78, 95, 97, 148, 240, 250, 49, 101, 153, 157, 139, 128, 91, 131, 67, 247, 218, 92, 245, 7, 24, 220, 11, 177, 116, 234, 197, 98, 60, 137, 10, 110], "T/r/s/aws4_request"⟩) =
    "eaffe7e81ccbbda70d009cbdd958253257a599fd665d46bcf25edc28cf9c4d70" := by
  decide

set_option maxHeartbeats 8000000 in
theorem sig_c7_b : bytesToHex (signDigest
    "6d792220e187ef4f0de7c5178685b7c4ce96059c04b6ba14d9843e2a2c8516eb" "T"
    ⟨[78, 95, 97, 148, 240, 250, 49, 101, 153, 157, 139, 128, 91, 131, 67, 247, 218, 92, 245, 7, 24, 220, 11, 177, 116, 234, 197, 98, 60, 137, 10, 110], "T/r/s/aws4_request"⟩) =
    "117330e1e1f3a483e788d9148aa5bdaadff29a58a573d65e122151235844a61e" := by
  decide

set_option maxHeartbeats 4000000 in
/-- C7 counterexample to the unamended claim: the body hash used in
query-mode canonicalization is NOT the `UNSIGNED-PAYLOAD` sentinel
regardless of the body - two requests differing only in their body
(`{hash: "aa"}` vs `{hash: "bb"}`) receive different
`X-Amz-Signature` values from `signRequestRaw`. -/
theorem signRequestRaw_signature_depends_on_body :
    (signRequestRaw ⟨"A", "S", "r", "s"⟩ "GET" "/" [("X-Amz-Date", "T")]
        [("host", HVal.str "h")] (some (.hash "aa"))
        ⟨false, true, false, false, false⟩ "T").toOption.bind
      (fun r => lookupStr r "X-Amz-Signature") ≠
    (signRequestRaw ⟨"A", "S", "r", "s"⟩ "GET" "/" [("X-Amz-Date", "T")]
        [("host", HVal.str "h")] (some (.hash "bb"))
        ⟨false, true, false, false, false⟩ "T").toOption.bind
      (fun r => lookupStr r "X-Amz-Signature") := by
  have hgen : strFalsy (paramsGet [("X-Amz-Date", "T")] "X-Amz-Date") = false := rfl
  have hch : getCanonicalHeaders [("host", HVal.str "h")] =
      .ok ("host:h\n", "host") := by decide
  have runA := signRequestRaw_query_run_given ⟨"A", "S", "r", "s"⟩ "GET" "/"
    [("X-Amz-Date", "T")] [("host", HVal.str "h")] (some (.hash "aa"))
    ⟨false, true, false, false, false⟩ "T" ("host:h\n", "host") rfl hgen hch
  have runB := signRequestRaw_query_run_given ⟨"A", "S", "r", "s"⟩ "GET" "/"
    [("X-Amz-Date", "T")] [("host", HVal.str "h")] (some (.hash "bb"))
    ⟨false, true, false, false, false⟩ "T" ("host:h\n", "host") rfl hgen hch
  have hVA : bytesToHex (signDigest (sha256hex (utf8Bytes (getCanonical "GET" "/"
      (paramsDelete (paramsSet (paramsSet (paramsSet [("X-Amz-Date", "T")]
      "X-Amz-Algorithm" MAIN_ALGORITHM) "X-Amz-Credential" "A/T/r/s/aws4_request")
      "X-Amz-SignedHeaders" "host") "X-Amz-Signature")
      ("host:h\n", "host") (some (.hash "aa")) false false))) "T"
      (getSigning "T" (⟨"A", "S", "r", "s"⟩ : CredentialsF)).1) =
      "eaffe7e81ccbbda70d009cbdd958253257a599fd665d46bcf25edc28cf9c4d70" :=
    ((congrArg (fun d => bytesToHex (signDigest d "T"
        (getSigning "T" (⟨"A", "S", "r", "s"⟩ : CredentialsF)).1)) digest_c7_a).trans
      ((congrArg (fun sd => bytesToHex (signDigest
        "1a0b5fb05484b8bc6116bd7237b350992bee84ee0aba6dccd33e7658da077f26" "T" sd)) getSigning_fst_ASrs).trans
        sig_c7_a))
  have hVB : bytesToHex (signDigest (sha256hex (utf8Bytes (getCanonical "GET" "/"
      (paramsDelete (paramsSet (paramsSet (paramsSet [("X-Amz-Date", "T")]
      "X-Amz-Algorithm" MAIN_ALGORITHM) "X-Amz-Credential" "A/T/r/s/aws4_request")
      "X-Amz-SignedHeaders" "host") "X-Amz-Signature")
      ("host:h\n", "host") (some (.hash "bb")) false false))) "T"
      (getSigning "T" (⟨"A", "S", "r", "s"⟩ : CredentialsF)).1) =
      "117330e1e1f3a483e788d9148aa5bdaadff29a58a573d65e122151235844a61e" :=
    ((congrArg (fun d => bytesToHex (signDigest d "T"
        (getSigning "T" (⟨"A", "S", "r", "s"⟩ : CredentialsF)).1)) digest_c7_b).trans
      ((congrArg (fun sd => bytesToHex (signDigest
        "6d792220e187ef4f0de7c5178685b7c4ce96059c04b6ba14d9843e2a2c8516eb" "T" sd)) getSigning_fst_ASrs).trans
        sig_c7_b))
  have hA := (congrArg (fun e => e.toOption.bind
      (fun r => lookupStr r "X-Amz-Signature")) runA).trans
    (lookupStr_objSet_self _ _ _)
  have hB := (congrArg (fun e => e.toOption.bind
      (fun r => lookupStr r "X-Amz-Signature")) runB).trans
    (lookupStr_objSet_self _ _ _)
  have hA2 := hA.trans (congrArg some hVA)
  have hB2 := hB.trans (congrArg some hVB)
  have hne : (some "eaffe7e81ccbbda70d009cbdd958253257a599fd665d46bcf25edc28cf9c4d70" : Option String) ≠
      some "117330e1e1f3a483e788d9148aa5bdaadff29a58a573d65e122151235844a61e" := by decide
  exact fun h => hne ((hA2.symm.trans h).trans hB2)

end A4S
